import Mathlib

/-!
The CFF container decoder and the Type 2 CharString interpreter of otfcc's
libcff (`cff-parser.c`), and the `OS/2` table reader (`OS_2.c`).

A shallow embedding of `compute_subr_bias`, `reverseStack`,
`parse_outline_callback`, `parse_encoding`, `parse_cff_bytecode`,
`CFF_stream_open` and `parse_subr` (src/lib/libcff/cff-parser.c) and of
`caryll_read_OS_2` (src/tables/OS_2.c), with theorems about them.

Modelling conventions.

* A finite `double` or `float` is the rational number it denotes.  `double` is
  IEC 60559 `binary64` and `float` is `binary32`, every operation is evaluated
  in the type of its operands (`FLT_EVAL_METHOD` 0) and rounds to nearest, ties
  to even: `roundDouble` and `roundFloat`.  The sums, differences, products
  and quotients of the source are rounded to `double`; every argument of a
  builder callback is converted to `float`, the type of the parameter; the
  `float` variables of the hint loops are rounded at every assignment and
  operation.  A result that is not a finite number (an overflow, a division
  by zero: undefined in ISO C, an infinity or a NaN under IEC 60559) is outside
  the model, which answers `none`; the sign of a zero is not modelled; `sqrt`
  is a parameter.
  The tag `.t` of a stack cell is never read by the interpreter and is left out.
* `CFF_Stack.stack` is the cell array itself, its length is the capacity of the
  array; `index` is the depth.  Cells at and above `index` keep their old
  content, as in C.
* An access outside an array (operand cells, transient cells, INDEX offsets,
  program bytes) is undefined behaviour in C; the model answers `none`
  (`Outcome.fault` at the top), as it does for a number that is not finite.
* `index` and `stem` are natural numbers (their C types are declared in
  `libcff.h`).  The `uint16_t` counter of the hint loops wraps at 65536; the
  other loop counters, which walk over stack positions, are not wrapped.
  Where the source converts a possibly negative value to an unsigned type, or
  narrows to `uint8_t`, the conversion is written out with `%`; a conversion
  of a `double` outside the range of the integer type wraps around.
* The outline builder is modelled by the list of events it receives.
* `libcff.h` and `decode_cs2_token` are not among the sources: the operator
  codes, `type2_transient_array` and the token decoder are modelled from the
  specification, each under a comment that says so.
* The C function recurses on subroutine calls without any bound; the model
  takes a `fuel` argument, and `Outcome.outOfFuel` is the answer of a run that
  needs more.
-/

namespace Otfcc

/-! ## Builder events -/

/-- One call of a `cff_outline_builder_interface` method, with the arguments
the method receives: a numeric argument is the value of a `float` parameter. -/
inductive Event where
  | setWidth (width : ℚ)
  | newContour
  | lineTo (x1 y1 : ℚ)
  | curveTo (x1 y1 x2 y2 x3 y3 : ℚ)
  | setHint (isVertical : Bool) (position width : ℚ)
  | setMask (isContourMask : Bool) (mask : List Bool)
  deriving DecidableEq, Repr

/-! ## Data -/

/-- The framed INDEX view `CFF_Index`: `count`, the decoded `offset` array and
the `data` blob. -/
structure CFF_Index where
  count : Nat
  offset : List Nat
  data : List Nat
  deriving DecidableEq, Repr

/-- The VM state `CFF_Stack`: operand cells, transient cells, depth and stem
counter. -/
structure CFF_Stack where
  stack : List ℚ
  transient : List ℚ
  index : Nat
  stem : Nat
  deriving DecidableEq, Repr

/-- Modelled from the spec: the constant `type2_transient_array` of `libcff.h`
("a 32-entry transient storage array"). -/
def type2_transient_array : Int := 32

/-- The callbacks whose result the interpreter uses (`getrand`), and the C
library `sqrt`. -/
structure Env where
  getrand : List Event → ℚ
  sqrt : ℚ → ℚ

/-! ## Operator codes

Modelled from the spec: the `op_*` constants of `libcff.h` ("Operator
identifiers as in Technical Note 5177"); a two-byte operator `12 X` has code
`0x0c00 + X`. -/

def op_hstem : Nat := 0x01
def op_vstem : Nat := 0x03
def op_vmoveto : Nat := 0x04
def op_rlineto : Nat := 0x05
def op_hlineto : Nat := 0x06
def op_vlineto : Nat := 0x07
def op_rrcurveto : Nat := 0x08
def op_callsubr : Nat := 0x0a
def op_return : Nat := 0x0b
def op_endchar : Nat := 0x0e
def op_hstemhm : Nat := 0x12
def op_hintmask : Nat := 0x13
def op_cntrmask : Nat := 0x14
def op_rmoveto : Nat := 0x15
def op_hmoveto : Nat := 0x16
def op_vstemhm : Nat := 0x17
def op_rcurveline : Nat := 0x18
def op_rlinecurve : Nat := 0x19
def op_vvcurveto : Nat := 0x1a
def op_hhcurveto : Nat := 0x1b
def op_callgsubr : Nat := 0x1d
def op_vhcurveto : Nat := 0x1e
def op_hvcurveto : Nat := 0x1f
def op_and : Nat := 0x0c03
def op_or : Nat := 0x0c04
def op_not : Nat := 0x0c05
def op_abs : Nat := 0x0c09
def op_add : Nat := 0x0c0a
def op_sub : Nat := 0x0c0b
def op_div : Nat := 0x0c0c
def op_neg : Nat := 0x0c0e
def op_eq : Nat := 0x0c0f
def op_drop : Nat := 0x0c12
def op_put : Nat := 0x0c14
def op_get : Nat := 0x0c15
def op_ifelse : Nat := 0x0c16
def op_random : Nat := 0x0c17
def op_mul : Nat := 0x0c18
def op_sqrt : Nat := 0x0c1a
def op_dup : Nat := 0x0c1b
def op_exch : Nat := 0x0c1c
def op_index : Nat := 0x0c1d
def op_roll : Nat := 0x0c1e
def op_hflex : Nat := 0x0c22
def op_flex : Nat := 0x0c23
def op_hflex1 : Nat := 0x0c24
def op_flex1 : Nat := 0x0c25

/-! ## Numeric conversions -/

/-- Conversion of a `double` to a C integer: truncation toward zero. -/
def truncQ (q : ℚ) : Int := Int.tdiv q.num q.den

/-- The value of an integer converted to `uint32_t`. -/
def toU32 (z : Int) : Nat := (z % 4294967296).toNat

/-- The value of an integer converted to `uint8_t`. -/
def toU8 (z : Int) : Nat := (z % 256).toNat

/-- The value of a natural number stored in a `uint16_t`. -/
def toU16 (n : Nat) : Nat := n % 65536

/-! ## Floating point -/

/-- The power `2^k` of an integer exponent. -/
def pow2 (k : Int) : ℚ := if 0 ≤ k then (2 : ℚ) ^ k.toNat else 1 / (2 : ℚ) ^ (-k).toNat

/-- The number of halvings that bring `n` below 2, at most `fuel` of them. -/
def log2Fuel : Nat → Nat → Nat
  | 0, _ => 0
  | fuel + 1, n => if n < 2 then 0 else log2Fuel fuel (n / 2) + 1

/-- The position of the leading binary digit of `n`. -/
def floorLog2 (n : Nat) : Nat := log2Fuel n n

/-- The binary exponent of a nonzero rational: the `e` with
`2^e ≤ |q| < 2^(e+1)`.  It is the difference of the leading digit positions of
numerator and denominator, or one less. -/
def binExp (q : ℚ) : Int :=
  if pow2 ((floorLog2 q.num.natAbs : Int) - (floorLog2 q.den : Int)) ≤ |q| then
    (floorLog2 q.num.natAbs : Int) - (floorLog2 q.den : Int)
  else (floorLog2 q.num.natAbs : Int) - (floorLog2 q.den : Int) - 1

/-- The integer nearest to `x`, the even one of the two when `x` lies halfway
between them. -/
def roundHalfEven (x : ℚ) : Int :=
  if x - ((x.num / (x.den : Int) : Int) : ℚ) < 1 / 2 then x.num / (x.den : Int)
  else if 1 / 2 < x - ((x.num / (x.den : Int) : Int) : ℚ) then x.num / (x.den : Int) + 1
  else if (x.num / (x.den : Int)) % 2 = 0 then x.num / (x.den : Int)
  else x.num / (x.den : Int) + 1

/-- Rounding to the nearest number of a binary floating-point format with `p`
significant digits and least normal exponent `emin`, ties to even: the nearest
multiple of `2^(e - (p - 1))`, `e` being the exponent of `q`, or `emin` for a
subnormal `q`.  The exponent is not bounded above. -/
def roundBinary (p : Nat) (emin : Int) (q : ℚ) : ℚ :=
  if q = 0 then 0
  else
    (roundHalfEven (q / pow2 (max (binExp q) emin - ((p : Int) - 1))) : ℚ) *
      pow2 (max (binExp q) emin - ((p : Int) - 1))

/-- The `float` (`binary32`) nearest to `q`. -/
def roundFloat (q : ℚ) : ℚ := roundBinary 24 (-126) q

/-- The `double` (`binary64`) nearest to `q`. -/
def roundDouble (q : ℚ) : ℚ := roundBinary 53 (-1022) q

/-- Whether `q` rounds to a finite `float`, one below `2^128` in magnitude. -/
def inFloatRange (q : ℚ) : Bool := decide (|roundFloat q| < pow2 128)

/-- Whether `q` rounds to a finite `double`, one below `2^1024` in magnitude. -/
def inDoubleRange (q : ℚ) : Bool := decide (|roundDouble q| < pow2 1024)

/-- The value `q` as a `float`: the conversion of a `double` to a `float`
parameter or variable, and the result of a `float` operation whose exact
result is `q`. -/
def toFloat (q : ℚ) : Option ℚ := if inFloatRange q then some (roundFloat q) else none

/-- The value `q` as a `double`: the result of a `double` operation whose exact
result is `q`. -/
def toDouble (q : ℚ) : Option ℚ := if inDoubleRange q then some (roundDouble q) else none

/-! ## Memory access -/

/-- The byte `p[i]` of a buffer. -/
def rdByte (buf : List Nat) (i : Nat) : Option Nat :=
  (buf[i]?).map (fun b => b % 256)

/-- The cell `stack->stack[i].d` for a C `int` subscript. -/
def cellI (st : CFF_Stack) (i : Int) : Option ℚ :=
  if 0 ≤ i then st.stack[i.toNat]? else none

/-- The cell `stack->stack[i].d`. -/
def cell (st : CFF_Stack) (i : Nat) : Option ℚ := st.stack[i]?

/-- The cell `stack->stack[i].d` passed to a `float` parameter or assigned to
a `float` variable. -/
def floatCell (st : CFF_Stack) (i : Nat) : Option ℚ := (cell st i).bind toFloat

/-- The cell `stack->stack[i].d` for a C `int` subscript, passed to a `float`
parameter. -/
def floatCellI (st : CFF_Stack) (i : Int) : Option ℚ := (cellI st i).bind toFloat

/-- The assignment `stack->stack[i].d = v`. -/
def setCell (st : CFF_Stack) (i : Nat) (v : ℚ) : Option CFF_Stack :=
  if i < st.stack.length then some { st with stack := st.stack.set i v } else none

/-- The transient cell `stack->transient[i].d` for a C `int` subscript. -/
def getTransient (st : CFF_Stack) (i : Int) : Option ℚ :=
  if 0 ≤ i then st.transient[i.toNat]? else none

/-- The assignment `stack->transient[i].d = v` for a C `int` subscript. -/
def setTransient (st : CFF_Stack) (i : Int) (v : ℚ) : Option CFF_Stack :=
  if 0 ≤ i ∧ i.toNat < st.transient.length then
    some { st with transient := st.transient.set i.toNat v }
  else none

/-! ## `compute_subr_bias` -/

/-- The function `compute_subr_bias` on a `uint16_t` count. -/
def compute_subr_bias (cnt : Nat) : Nat :=
  if cnt < 1240 then 107
  else if cnt < 33900 then 1131
  else 32768

/-! ## Token decoding -/

/-- The `CFF_Value` written by `decode_cs2_token`: an operator code (`.i`) or
an operand value (`.d`), integer or 16.16 fraction. -/
inductive Token where
  | operator (i : Nat)
  | operand (d : ℚ)
  | fraction (d : ℚ)
  deriving DecidableEq, Repr

/-- The two's-complement value of a 16-bit pattern. -/
def toI16 (v : Nat) : Int := if v < 32768 then (v : Int) else (v : Int) - 65536

/-- The two's-complement value of a 32-bit pattern. -/
def toI32 (v : Nat) : Int := if v < 2147483648 then (v : Int) else (v : Int) - 4294967296

/-- Modelled from the spec: `decode_cs2_token` (declared in `libcff.h`, defined
outside these sources), from "Operand decoding follows Type 2 rules: `32..246`
→ `b-139`; `247..250,251..254` → two-byte biased codes per §4.3; `28` → i16;
`255` → i32 interpreted as a 16.16 fixed-point tagged as `Fraction`. Operator
`12 X` forms the escape family."  The result is the number of bytes of the
token and its value. -/
def decode_cs2_token (buf : List Nat) (start : Nat) : Option (Nat × Token) :=
  match rdByte buf start with
  | none => none
  | some b0 =>
    if b0 = 12 then
      match rdByte buf (start + 1) with
      | none => none
      | some b1 => some (2, Token.operator (0x0c00 + b1))
    else if b0 = 28 then
      match rdByte buf (start + 1), rdByte buf (start + 2) with
      | some b1, some b2 => some (3, Token.operand (toI16 (b1 * 256 + b2)))
      | _, _ => none
    else if b0 < 32 then some (1, Token.operator b0)
    else if b0 ≤ 246 then some (1, Token.operand ((b0 : Int) - 139))
    else if b0 ≤ 250 then
      match rdByte buf (start + 1) with
      | none => none
      | some b1 => some (2, Token.operand (((b0 : Int) - 247) * 256 + b1 + 108))
    else if b0 ≤ 254 then
      match rdByte buf (start + 1) with
      | none => none
      | some b1 => some (2, Token.operand (-(((b0 : Int) - 251) * 256) - b1 - 108))
    else
      match rdByte buf (start + 1), rdByte buf (start + 2), rdByte buf (start + 3),
        rdByte buf (start + 4) with
      | some b1, some b2, some b3, some b4 =>
        some (5, Token.fraction
          ((toI32 (b1 * 16777216 + b2 * 65536 + b3 * 256 + b4) : ℚ) / 65536))
      | _, _, _, _ => none

/-! ## Loops of the interpreter -/

/-- The loop `for (i = i0; i < bound; i += step) body(i)` whose body only calls
the builder; `fuel` bounds the number of iterations. -/
def forLoop (bound step : Nat) (body : Nat → Option (List Event)) :
    Nat → Nat → Option (List Event)
  | 0, _ => none
  | fuel + 1, i =>
    if i < bound then
      match body i with
      | none => none
      | some ev =>
        match forLoop bound step body fuel (i + step) with
        | none => none
        | some rest => some (ev ++ rest)
    else some []

/-- One round of the hint loop for the `float` variables `pos`, `width` and
`hintBase`: the position `pos + hintBase` passed to `setHint`, and the value of
`hintBase` after `hintBase += pos + width`, every sum a `float`. -/
def stemRound (pos width hintBase : ℚ) : Option (ℚ × ℚ) := do
  let position ← toFloat (pos + hintBase)
  let sum ← toFloat (pos + width)
  let base ← toFloat (hintBase + sum)
  some (position, base)

/-- The hint loop of the stem and mask operators:
`for (uint16_t j = index % 2; j < index; j += 2) { float pos = stack[j].d; float width = stack[j + 1].d; setHint(isVertical, pos + hintBase, width); hintBase += pos + width; }`
with `float hintBase`.  A loop that `fuel` rounds do not finish answers
`none`. -/
def stemLoop (st : CFF_Stack) (isVertical : Bool) : Nat → Nat → ℚ → Option (List Event)
  | 0, _, _ => none
  | fuel + 1, j, hintBase =>
    if j < st.index then do
      let pos ← floatCell st j
      let width ← floatCell st (j + 1)
      let r ← stemRound pos width hintBase
      let rest ← stemLoop st isVertical fuel (toU16 (j + 2)) r.2
      some (Event.setHint isVertical r.1 width :: rest)
    else some []

/-- The eight assignments `mask[(byte << 3) + k] = maskByte >> (7 - k) & 1`. -/
def setMaskByte (mask : List Bool) (byte maskByte : Nat) : List Bool :=
  (((((((mask.set (byte * 8 + 0) (maskByte.testBit 7)).set
    (byte * 8 + 1) (maskByte.testBit 6)).set
    (byte * 8 + 2) (maskByte.testBit 5)).set
    (byte * 8 + 3) (maskByte.testBit 4)).set
    (byte * 8 + 4) (maskByte.testBit 3)).set
    (byte * 8 + 5) (maskByte.testBit 2)).set
    (byte * 8 + 6) (maskByte.testBit 1)).set
    (byte * 8 + 7) (maskByte.testBit 0)

/-- The mask loop `for (byte = 0; byte < maskLength; byte++)` reading
`start[advance + byte]`; `base` is `start + advance`. -/
def maskLoop (buf : List Nat) (base maskLength : Nat) : Nat → Nat → List Bool → Option (List Bool)
  | 0, _, _ => none
  | fuel + 1, byte, mask =>
    if byte < maskLength then
      match rdByte buf (base + byte) with
      | none => none
      | some maskByte => maskLoop buf base maskLength fuel (byte + 1) (setMaskByte mask byte maskByte)
    else some mask

/-- The function `reverseStack`: `left` and `right` are its `uint8_t`
arguments, the loop swaps `*p1` and `*p2` while `p1 < p2`. -/
def reverseStack (cells : List ℚ) : Nat → Nat → Nat → Option (List ℚ)
  | 0, _, _ => none
  | fuel + 1, left, right =>
    if left < right then
      match cells[left]?, cells[right]? with
      | some a, some b => reverseStack ((cells.set left b).set right a) fuel (left + 1) (right - 1)
      | _, _ => none
    else some cells

/-! ## One operator -/

/-- What the body of `case CS2_OPERATOR` does with one operator: `next` leaves
the switch by `break` with a new state, the events sent to the builder and the
final value of `advance`; `ret` is `return`; `call` is the recursive call on
the subroutine bytes `cbuf[data .. data + len]`, entered with state `st`. -/
inductive Step where
  | next (st : CFF_Stack) (ev : List Event) (advance : Nat)
  | ret
  | call (cbuf : List Nat) (data len : Nat) (st : CFF_Stack)
  deriving DecidableEq, Repr

/-- The macro `CHECK_STACK_TOP` when the check fails: the operator is left by
`break` with the state as it was and nothing sent to the builder. -/
def skipOp (st : CFF_Stack) : CFF_Stack × List Event := (st, [])

/-- The conversion `(int32_t)d` or `(int)d` of a `double`. -/
def toInt32 (d : ℚ) : Int := toI32 (toU32 (truncQ d))

/-- The optional `setWidth(outline, stack->stack[i].d)` guarded by `cond`. -/
def widthIf (st : CFF_Stack) (cond : Bool) (i : Nat) : Option (List Event) :=
  if cond then (floatCell st i).map (fun w => [Event.setWidth w]) else some []

/-- Cases `op_hstem`, `op_vstem`, `op_hstemhm`, `op_vstemhm`. -/
def exec_stem (op : Nat) (st : CFF_Stack) : Option (CFF_Stack × List Event) := do
  let w ← widthIf st (st.index % 2 != 0) 0
  let hints ← stemLoop st (op = op_vstem ∨ op = op_vstemhm) (st.index + 1) (st.index % 2) 0
  some ({ st with stem := st.stem + st.index / 2, index := 0 }, (w ++ hints))

/-- Cases `op_hintmask`, `op_cntrmask`; `base` is `start + advance`, where the
mask bytes begin, and the third component of the result is `maskLength`, the
amount added to `advance`.  The mask is allocated by
`NEW_N(mask, stack->stem + 7)`, taken to zero its cells. -/
def exec_mask (op : Nat) (buf : List Nat) (base : Nat) (st : CFF_Stack) :
    Option (CFF_Stack × List Event × Nat) := do
  let w ← widthIf st (st.index % 2 != 0) 0
  let isVertical := decide (st.stem > 0)
  let stem := st.stem + st.index / 2
  let hints ← stemLoop st isVertical (st.index + 1) (st.index % 2) 0
  let maskLength := (stem + 7) / 8
  let mask ← maskLoop buf base maskLength (maskLength + 1) 0
    (List.replicate (stem + 7) false)
  some ({ st with stem := stem, index := 0 },
    (w ++ hints ++ [Event.setMask (op = op_cntrmask) mask]), maskLength)

/-- Case `op_vmoveto`. -/
def exec_vmoveto (st : CFF_Stack) : Option (CFF_Stack × List Event) :=
  if st.index < 1 then some (skipOp st)
  else do
    let w ← widthIf st (st.index > 1) (st.index - 2)
    let y ← floatCell st (st.index - 1)
    some ({ st with index := 0 }, (w ++ [Event.newContour, Event.lineTo 0 y]))

/-- Case `op_rmoveto`. -/
def exec_rmoveto (st : CFF_Stack) : Option (CFF_Stack × List Event) :=
  if st.index < 2 then some (skipOp st)
  else do
    let w ← widthIf st (st.index > 2) (st.index - 3)
    let x ← floatCell st (st.index - 2)
    let y ← floatCell st (st.index - 1)
    some ({ st with index := 0 }, (w ++ [Event.newContour, Event.lineTo x y]))

/-- Case `op_hmoveto`. -/
def exec_hmoveto (st : CFF_Stack) : Option (CFF_Stack × List Event) :=
  if st.index < 1 then some (skipOp st)
  else do
    let w ← widthIf st (st.index > 1) (st.index - 2)
    let x ← floatCell st (st.index - 1)
    some ({ st with index := 0 }, (w ++ [Event.newContour, Event.lineTo x 0]))

/-- Case `op_endchar`: the optional `setWidth`, then `break`. -/
def exec_endchar (st : CFF_Stack) : Option (CFF_Stack × List Event) := do
  let w ← widthIf st (st.index > 0) (st.index - 1)
  some (st, w)

/-- Case `op_rlineto`. -/
def exec_rlineto (st : CFF_Stack) : Option (CFF_Stack × List Event) := do
  let ev ← forLoop st.index 2 (fun i => do
    let x ← floatCell st i
    let y ← floatCell st (i + 1)
    some [Event.lineTo x y]) (st.index + 1) 0
  some ({ st with index := 0 }, ev)

/-- Case `op_vlineto`. -/
def exec_vlineto (st : CFF_Stack) : Option (CFF_Stack × List Event) := do
  let ev ←
    if st.index % 2 = 1 then do
      let y0 ← floatCell st 0
      let rest ← forLoop st.index 2 (fun i => do
        let x ← floatCell st i
        let y ← floatCell st (i + 1)
        some [Event.lineTo x 0, Event.lineTo 0 y]) (st.index + 1) 1
      some (Event.lineTo 0 y0 :: rest)
    else
      forLoop st.index 2 (fun i => do
        let y ← floatCell st i
        let x ← floatCell st (i + 1)
        some [Event.lineTo 0 y, Event.lineTo x 0]) (st.index + 1) 0
  some ({ st with index := 0 }, ev)

/-- Case `op_hlineto`. -/
def exec_hlineto (st : CFF_Stack) : Option (CFF_Stack × List Event) := do
  let ev ←
    if st.index % 2 = 1 then do
      let x0 ← floatCell st 0
      let rest ← forLoop st.index 2 (fun i => do
        let y ← floatCell st i
        let x ← floatCell st (i + 1)
        some [Event.lineTo 0 y, Event.lineTo x 0]) (st.index + 1) 1
      some (Event.lineTo x0 0 :: rest)
    else
      forLoop st.index 2 (fun i => do
        let x ← floatCell st i
        let y ← floatCell st (i + 1)
        some [Event.lineTo x 0, Event.lineTo 0 y]) (st.index + 1) 0
  some ({ st with index := 0 }, ev)

/-- The call `curveTo(outline, stack[i], .., stack[i + 5])` on six consecutive
cells. -/
def curve6 (st : CFF_Stack) (i : Int) : Option (List Event) := do
  let a ← floatCellI st i
  let b ← floatCellI st (i + 1)
  let c ← floatCellI st (i + 2)
  let d ← floatCellI st (i + 3)
  let e ← floatCellI st (i + 4)
  let f ← floatCellI st (i + 5)
  some [Event.curveTo a b c d e f]

/-- Case `op_rrcurveto`. -/
def exec_rrcurveto (st : CFF_Stack) : Option (CFF_Stack × List Event) := do
  let ev ← forLoop st.index 6 (fun i => curve6 st i) (st.index + 1) 0
  some ({ st with index := 0 }, ev)

/-- Case `op_rcurveline`; the loop bound `stack->index - 2` is compared with
the `uint32_t` counter, hence converted to `uint32_t`. -/
def exec_rcurveline (st : CFF_Stack) : Option (CFF_Stack × List Event) := do
  let bound := toU32 ((st.index : Int) - 2)
  let ev ← forLoop bound 6 (fun i => curve6 st i) (bound + 1) 0
  let x ← floatCellI st ((st.index : Int) - 2)
  let y ← floatCellI st ((st.index : Int) - 1)
  some ({ st with index := 0 }, (ev ++ [Event.lineTo x y]))

/-- Case `op_rlinecurve`; the loop bound `stack->index - 6` is converted to
`uint32_t` as in `op_rcurveline`. -/
def exec_rlinecurve (st : CFF_Stack) : Option (CFF_Stack × List Event) := do
  let bound := toU32 ((st.index : Int) - 6)
  let ev ← forLoop bound 2 (fun i => do
    let x ← floatCell st i
    let y ← floatCell st (i + 1)
    some [Event.lineTo x y]) (bound + 1) 0
  let c ← curve6 st ((st.index : Int) - 6)
  some ({ st with index := 0 }, (ev ++ c))

/-- Case `op_vvcurveto`. -/
def exec_vvcurveto (st : CFF_Stack) : Option (CFF_Stack × List Event) := do
  let body := fun (i : Nat) => do
    let a ← floatCell st i
    let b ← floatCell st (i + 1)
    let c ← floatCell st (i + 2)
    let d ← floatCell st (i + 3)
    some [Event.curveTo 0 a b c 0 d]
  let ev ←
    if st.index % 4 = 1 then do
      let s0 ← floatCell st 0
      let s1 ← floatCell st 1
      let s2 ← floatCell st 2
      let s3 ← floatCell st 3
      let s4 ← floatCell st 4
      let rest ← forLoop st.index 4 body (st.index + 1) 5
      some (Event.curveTo s0 s1 s2 s3 0 s4 :: rest)
    else forLoop st.index 4 body (st.index + 1) 0
  some ({ st with index := 0 }, ev)

/-- Case `op_hhcurveto`. -/
def exec_hhcurveto (st : CFF_Stack) : Option (CFF_Stack × List Event) := do
  let body := fun (i : Nat) => do
    let a ← floatCell st i
    let b ← floatCell st (i + 1)
    let c ← floatCell st (i + 2)
    let d ← floatCell st (i + 3)
    some [Event.curveTo a 0 b c d 0]
  let ev ←
    if st.index % 4 = 1 then do
      let s0 ← floatCell st 0
      let s1 ← floatCell st 1
      let s2 ← floatCell st 2
      let s3 ← floatCell st 3
      let s4 ← floatCell st 4
      let rest ← forLoop st.index 4 body (st.index + 1) 5
      some (Event.curveTo s1 s0 s2 s3 s4 0 :: rest)
    else forLoop st.index 4 body (st.index + 1) 0
  some ({ st with index := 0 }, ev)

/-- The value of `cnt_bezier` in `op_vhcurveto` and `op_hvcurveto`; the
quotient `(stack->index - 5) / 4` is an `int` stored in a `uint32_t`. -/
def cntBezier (st : CFF_Stack) : Nat :=
  if st.index % 4 = 1 then toU32 (Int.tdiv ((st.index : Int) - 5) 4) else st.index / 4

/-- The curve with a vertical first tangent and a horizontal last tangent,
`curveTo(0, s[i], s[i+1], s[i+2], s[i+3], 0)`. -/
def curveVH (st : CFF_Stack) (i : Nat) : Option (List Event) := do
  let a ← floatCell st i
  let b ← floatCell st (i + 1)
  let c ← floatCell st (i + 2)
  let d ← floatCell st (i + 3)
  some [Event.curveTo 0 a b c d 0]

/-- The curve with a horizontal first tangent and a vertical last tangent,
`curveTo(s[i], 0, s[i+1], s[i+2], 0, s[i+3])`. -/
def curveHV (st : CFF_Stack) (i : Nat) : Option (List Event) := do
  let a ← floatCell st i
  let b ← floatCell st (i + 1)
  let c ← floatCell st (i + 2)
  let d ← floatCell st (i + 3)
  some [Event.curveTo a 0 b c 0 d]

/-- The tail `curveTo(0, s[n-5], s[n-4], s[n-3], s[n-2], s[n-1])`. -/
def tailV (st : CFF_Stack) : Option (List Event) := do
  let a ← floatCellI st ((st.index : Int) - 5)
  let b ← floatCellI st ((st.index : Int) - 4)
  let c ← floatCellI st ((st.index : Int) - 3)
  let d ← floatCellI st ((st.index : Int) - 2)
  let e ← floatCellI st ((st.index : Int) - 1)
  some [Event.curveTo 0 a b c d e]

/-- The tail `curveTo(s[n-5], 0, s[n-4], s[n-3], s[n-1], s[n-2])`. -/
def tailH (st : CFF_Stack) : Option (List Event) := do
  let a ← floatCellI st ((st.index : Int) - 5)
  let b ← floatCellI st ((st.index : Int) - 4)
  let c ← floatCellI st ((st.index : Int) - 3)
  let d ← floatCellI st ((st.index : Int) - 2)
  let e ← floatCellI st ((st.index : Int) - 1)
  some [Event.curveTo a 0 b c e d]

/-- Case `op_vhcurveto`. -/
def exec_vhcurveto (st : CFF_Stack) : Option (CFF_Stack × List Event) := do
  let bound := toU32 (4 * (cntBezier st : Int))
  let ev ← forLoop bound 4
    (fun i => if (i / 4) % 2 = 0 then curveVH st i else curveHV st i) (bound + 1) 0
  let t5 ← if st.index % 8 = 5 then tailV st else some []
  let t1 ← if st.index % 8 = 1 then tailH st else some []
  some ({ st with index := 0 }, (ev ++ t5 ++ t1))

/-- Case `op_hvcurveto`. -/
def exec_hvcurveto (st : CFF_Stack) : Option (CFF_Stack × List Event) := do
  let bound := toU32 (4 * (cntBezier st : Int))
  let ev ← forLoop bound 4
    (fun i => if (i / 4) % 2 = 0 then curveHV st i else curveVH st i) (bound + 1) 0
  let t5 ← if st.index % 8 = 5 then tailH st else some []
  let t1 ← if st.index % 8 = 1 then tailV st else some []
  some ({ st with index := 0 }, (ev ++ t5 ++ t1))

/-- The second call of `op_hflex`:
`curveTo(stack[4], 0, stack[5], -stack[2], stack[6], 0)`. -/
def hflexSecond (st : CFF_Stack) : Option (List Event) := do
  let f4 ← floatCell st 4
  let f5 ← floatCell st 5
  let s2 ← cell st 2
  let n2 ← toFloat (-s2)
  let f6 ← floatCell st 6
  some [Event.curveTo f4 0 f5 n2 f6 0]

/-- Case `op_hflex`. -/
def exec_hflex (st : CFF_Stack) : Option (CFF_Stack × List Event) :=
  if st.index < 7 then some (skipOp st)
  else do
    let f0 ← floatCell st 0
    let f1 ← floatCell st 1
    let f2 ← floatCell st 2
    let f3 ← floatCell st 3
    let c2 ← hflexSecond st
    some ({ st with index := 0 }, (Event.curveTo f0 0 f1 f2 f3 0 :: c2))

/-- Case `op_flex`. -/
def exec_flex (st : CFF_Stack) : Option (CFF_Stack × List Event) :=
  if st.index < 12 then some (skipOp st)
  else do
    let c1 ← curve6 st 0
    let c2 ← curve6 st 6
    some ({ st with index := 0 }, (c1 ++ c2))

/-- The `double` sum `stack[1] + stack[3] + stack[7]` of `op_hflex1`, rounded
after each addition. -/
def hflex1Sum (st : CFF_Stack) : Option ℚ := do
  let s1 ← cell st 1
  let s3 ← cell st 3
  let s7 ← cell st 7
  let t ← toDouble (s1 + s3)
  toDouble (t + s7)

/-- The second call of `op_hflex1`:
`curveTo(stack[5], 0, stack[6], stack[7], stack[8], -(stack[1] + stack[3] + stack[7]))`. -/
def hflex1Second (st : CFF_Stack) : Option (List Event) := do
  let dy ← hflex1Sum st
  let f5 ← floatCell st 5
  let f6 ← floatCell st 6
  let f7 ← floatCell st 7
  let f8 ← floatCell st 8
  let y ← toFloat (-dy)
  some [Event.curveTo f5 0 f6 f7 f8 y]

/-- Case `op_hflex1`. -/
def exec_hflex1 (st : CFF_Stack) : Option (CFF_Stack × List Event) :=
  if st.index < 9 then some (skipOp st)
  else do
    let f0 ← floatCell st 0
    let f1 ← floatCell st 1
    let f2 ← floatCell st 2
    let f3 ← floatCell st 3
    let f4 ← floatCell st 4
    let c2 ← hflex1Second st
    some ({ st with index := 0 }, (Event.curveTo f0 f1 f2 f3 f4 0 :: c2))

/-- The `double` sum `a + b + c + d + e`, added from the left and rounded
after each addition. -/
def sum5 (a b c d e : ℚ) : Option ℚ := do
  let t1 ← toDouble (a + b)
  let t2 ← toDouble (t1 + c)
  let t3 ← toDouble (t2 + d)
  toDouble (t3 + e)

/-- The sum `stack[i] + stack[i + 2] + stack[i + 4] + stack[i + 6] + stack[i + 8]`
of `op_flex1`. -/
def flex1Sum (st : CFF_Stack) (i : Nat) : Option ℚ := do
  let a ← cell st i
  let b ← cell st (i + 2)
  let c ← cell st (i + 4)
  let d ← cell st (i + 6)
  let e ← cell st (i + 8)
  sum5 a b c d e

/-- The second call of `op_flex1`,
`curveTo(stack[6], stack[7], stack[8], stack[9], dx, dy)`, for the final values
of the `double` variables `dx` and `dy`. -/
def flex1Second (st : CFF_Stack) (dx dy : ℚ) : Option (List Event) := do
  let f6 ← floatCell st 6
  let f7 ← floatCell st 7
  let f8 ← floatCell st 8
  let f9 ← floatCell st 9
  let x ← toFloat dx
  let y ← toFloat dy
  some [Event.curveTo f6 f7 f8 f9 x y]

/-- Case `op_flex1`; `dx` and `dy` are `double` variables, their final values
are converted to `float` by the call of `curveTo`. -/
def exec_flex1 (st : CFF_Stack) : Option (CFF_Stack × List Event) :=
  if st.index < 11 then some (skipOp st)
  else do
    let dx ← flex1Sum st 0
    let dy ← flex1Sum st 1
    let s10 ← cell st 10
    let c1 ← curve6 st 0
    let c2 ← if |dx| > |dy| then flex1Second st s10 (-dy) else flex1Second st (-dx) s10
    some ({ st with index := 0 }, (c1 ++ c2))

/-- The binary operators `and`, `or`, `add`, `sub`, `div`, `eq`, `mul`:
`stack[index - 2] = f(stack[index - 2], stack[index - 1])`, then `index -= 1`;
`f` answers `none` when its `double` result is not a finite number. -/
def exec_binary (f : ℚ → ℚ → Option ℚ) (st : CFF_Stack) : Option (CFF_Stack × List Event) :=
  if st.index < 2 then some (skipOp st)
  else do
    let below ← cell st (st.index - 2)
    let top ← cell st (st.index - 1)
    let r ← f below top
    let st1 ← setCell st (st.index - 2) r
    some ({ st1 with index := st.index - 1 }, [])

/-- The unary operators `not`, `abs`, `neg`, `sqrt`:
`stack[index - 1] = f(stack[index - 1])`. -/
def exec_unary (f : ℚ → ℚ) (st : CFF_Stack) : Option (CFF_Stack × List Event) :=
  if st.index < 1 then some (skipOp st)
  else do
    let num ← cell st (st.index - 1)
    let st1 ← setCell st (st.index - 1) (f num)
    some (st1, [])

/-- Case `op_drop`. -/
def exec_drop (st : CFF_Stack) : Option (CFF_Stack × List Event) :=
  if st.index < 1 then some (skipOp st)
  else some ({ st with index := st.index - 1 }, [])

/-- Case `op_put`; the subscript `i % type2_transient_array` is the C
remainder of an `int32_t`. -/
def exec_put (st : CFF_Stack) : Option (CFF_Stack × List Event) :=
  if st.index < 2 then some (skipOp st)
  else do
    let val ← cell st (st.index - 2)
    let d ← cell st (st.index - 1)
    let st1 ← setTransient st (Int.tmod (toInt32 d) type2_transient_array) val
    some ({ st1 with index := st.index - 2 }, [])

/-- Case `op_get`. -/
def exec_get (st : CFF_Stack) : Option (CFF_Stack × List Event) :=
  if st.index < 1 then some (skipOp st)
  else do
    let d ← cell st (st.index - 1)
    let v ← getTransient st (Int.tmod (toInt32 d) type2_transient_array)
    let st1 ← setCell st (st.index - 1) v
    some (st1, [])

/-- Case `op_ifelse`. -/
def exec_ifelse (st : CFF_Stack) : Option (CFF_Stack × List Event) :=
  if st.index < 4 then some (skipOp st)
  else do
    let v2 ← cell st (st.index - 1)
    let v1 ← cell st (st.index - 2)
    let s2 ← cell st (st.index - 3)
    let s1 ← cell st (st.index - 4)
    let st1 ← setCell st (st.index - 4) (if v1 ≤ v2 then s1 else s2)
    some ({ st1 with index := st.index - 3 }, [])

/-- Case `op_random`. -/
def exec_random (env : Env) (out : List Event) (st : CFF_Stack) :
    Option (CFF_Stack × List Event) := do
  let st1 ← setCell st st.index (env.getrand out)
  some ({ st1 with index := st.index + 1 }, [])

/-- Case `op_dup`. -/
def exec_dup (st : CFF_Stack) : Option (CFF_Stack × List Event) :=
  if st.index < 1 then some (skipOp st)
  else do
    let v ← cell st (st.index - 1)
    let st1 ← setCell st st.index v
    some ({ st1 with index := st.index + 1 }, [])

/-- Case `op_exch`. -/
def exec_exch (st : CFF_Stack) : Option (CFF_Stack × List Event) :=
  if st.index < 2 then some (skipOp st)
  else do
    let num1 ← cell st (st.index - 1)
    let num2 ← cell st (st.index - 2)
    let st1 ← setCell st (st.index - 1) num2
    let st2 ← setCell st1 (st.index - 2) num1
    some (st2, [])

/-- Case `op_index`; `n` and `j` are `uint8_t`, and `% n` with `n = 0` is
undefined. -/
def exec_index (st : CFF_Stack) : Option (CFF_Stack × List Event) :=
  if st.index < 2 then some (skipOp st)
  else
    let n := toU8 ((st.index : Int) - 1)
    if n = 0 then none
    else do
      let d ← cell st n
      let j := toU8 ((n : Int) - 1 - ((toU8 (truncQ d) % n : Nat) : Int))
      let v ← cell st j
      let st1 ← setCell st n v
      some (st1, [])

/-- Case `op_roll`; `j` and `n` are `int`, `first` and `last` are `uint8_t`,
and so are the arguments of `reverseStack`. -/
def exec_roll (st : CFF_Stack) : Option (CFF_Stack × List Event) :=
  if st.index < 2 then some (skipOp st)
  else do
    let dj ← cell st (st.index - 1)
    let dn ← cell st (st.index - 2)
    let n := toInt32 dn
    if (st.index : Int) < 2 + n then some (skipOp st)
    else if n = 0 then none
    else
      let j0 := Int.tmod (-(toInt32 dj)) n
      let j := if j0 < 0 then j0 + n else j0
      if j = 0 then some (skipOp st)
      else do
        let last := toU8 ((st.index : Int) - 3)
        let first := toU8 ((st.index : Int) - 2 - n)
        let c1 ← reverseStack st.stack 256 first last
        let c2 ← reverseStack c1 256 (toU8 ((last : Int) - j + 1)) last
        let c3 ← reverseStack c2 256 first (toU8 ((last : Int) - j))
        some ({ st with stack := c3, index := st.index - 2 }, [])

/-- The bytes of subroutine `bias + subr` of an INDEX:
`idx.data + idx.offset[bias + subr] - 1` and
`idx.offset[bias + subr + 1] - idx.offset[bias + subr]`, the subscripts and
the length computed in `uint32_t`. -/
def subrBytes (idx : CFF_Index) (bias subr : Nat) : Option (Nat × Nat) := do
  let o0 ← idx.offset[toU32 ((bias : Int) + subr)]?
  let o1 ← idx.offset[toU32 ((bias : Int) + subr + 1)]?
  if o0 = 0 then none
  else some (o0 - 1, toU32 ((o1 : Int) - o0))

/-- Cases `op_callsubr` and `op_callgsubr` on the INDEX `idx` with its bias:
the pop `stack->stack[--(stack->index)].d`, converted to `uint32_t`, and the
recursive call; a failed `CHECK_STACK_TOP` leaves by `break`. -/
def exec_call (idx : CFF_Index) (bias : Nat) (st : CFF_Stack) (advance : Nat) : Option Step :=
  if st.index < 1 then some (Step.next st [] advance)
  else do
    let d ← cell st (st.index - 1)
    let (data, len) ← subrBytes idx bias (toU32 (truncQ d))
    some (Step.call idx.data data len { st with index := st.index - 1 })

/-- The cases of the inner `switch (val.i)` that end in `break` with
`advance` untouched: the new state and the events sent to the builder.  An
operator without a case does nothing. -/
def execPlain (env : Env) (op : Nat) (st : CFF_Stack) (out : List Event) :
    Option (CFF_Stack × List Event) :=
  if op = op_hstem ∨ op = op_vstem ∨ op = op_hstemhm ∨ op = op_vstemhm then exec_stem op st
  else if op = op_vmoveto then exec_vmoveto st
  else if op = op_rmoveto then exec_rmoveto st
  else if op = op_hmoveto then exec_hmoveto st
  else if op = op_endchar then exec_endchar st
  else if op = op_rlineto then exec_rlineto st
  else if op = op_vlineto then exec_vlineto st
  else if op = op_hlineto then exec_hlineto st
  else if op = op_rrcurveto then exec_rrcurveto st
  else if op = op_rcurveline then exec_rcurveline st
  else if op = op_rlinecurve then exec_rlinecurve st
  else if op = op_vvcurveto then exec_vvcurveto st
  else if op = op_hhcurveto then exec_hhcurveto st
  else if op = op_vhcurveto then exec_vhcurveto st
  else if op = op_hvcurveto then exec_hvcurveto st
  else if op = op_hflex then exec_hflex st
  else if op = op_flex then exec_flex st
  else if op = op_hflex1 then exec_hflex1 st
  else if op = op_flex1 then exec_flex1 st
  else if op = op_and then
    exec_binary (fun num2 num1 => some (if num1 ≠ 0 ∧ num2 ≠ 0 then 1 else 0)) st
  else if op = op_or then
    exec_binary (fun num2 num1 => some (if num1 ≠ 0 ∨ num2 ≠ 0 then 1 else 0)) st
  else if op = op_not then exec_unary (fun num => if num ≠ 0 then 0 else 1) st
  else if op = op_abs then exec_unary (fun num => if num < 0 then -num else num) st
  else if op = op_add then exec_binary (fun num2 num1 => toDouble (num1 + num2)) st
  else if op = op_sub then exec_binary (fun num1 num2 => toDouble (num1 - num2)) st
  else if op = op_div then
    exec_binary (fun num1 num2 => if num2 = 0 then none else toDouble (num1 / num2)) st
  else if op = op_neg then exec_unary (fun num => -num) st
  else if op = op_eq then
    exec_binary (fun num2 num1 => some (if num1 = num2 then 1 else 0)) st
  else if op = op_drop then exec_drop st
  else if op = op_put then exec_put st
  else if op = op_get then exec_get st
  else if op = op_ifelse then exec_ifelse st
  else if op = op_random then exec_random env out st
  else if op = op_mul then exec_binary (fun num2 num1 => toDouble (num1 * num2)) st
  else if op = op_sqrt then exec_unary env.sqrt st
  else if op = op_dup then exec_dup st
  else if op = op_exch then exec_exch st
  else if op = op_index then exec_index st
  else if op = op_roll then exec_roll st
  else some (st, [])

/-- The inner `switch (val.i)` of `parse_outline_callback`: one operator `op`
read at `start` with token length `advance`, in state `st`, `out` being the
events sent so far.  The mask operators add `maskLength` to `advance`,
`op_return` returns, the call operators recurse, every other case is in
`execPlain`. -/
def execOperator (env : Env) (gsubr lsubr : CFF_Index) (buf : List Nat) (start advance : Nat)
    (op : Nat) (st : CFF_Stack) (out : List Event) : Option Step :=
  if op = op_hintmask ∨ op = op_cntrmask then
    (exec_mask op buf (start + advance) st).map
      (fun r => Step.next r.1 r.2.1 (advance + r.2.2))
  else if op = op_return then some Step.ret
  else if op = op_callsubr then
    exec_call lsubr (compute_subr_bias (lsubr.count % 65536)) st advance
  else if op = op_callgsubr then
    exec_call gsubr (compute_subr_bias (gsubr.count % 65536)) st advance
  else (execPlain env op st out).map (fun r => Step.next r.1 r.2 advance)

/-- Case `CS2_OPERAND` / `CS2_FRACTION`:
`stack->stack[(stack->index)++] = val`. -/
def pushOperand (st : CFF_Stack) (d : ℚ) : Option CFF_Stack :=
  (setCell st st.index d).map (fun st1 => { st1 with index := st.index + 1 })

/-! ## The interpreter -/

/-- How a run of the interpreter ends: `done` when the invocation returns, with
the final state and all events sent to the builder; `fault` on an access
outside an array and on a number that is not finite; `outOfFuel` when `fuel`
steps and calls did not suffice. -/
inductive Outcome where
  | done (st : CFF_Stack) (out : List Event)
  | fault
  | outOfFuel
  deriving DecidableEq, Repr

/-- The loop `while (start < data + len)` of `parse_outline_callback`, `stop`
being `data + len`.  `fuel` bounds the depth of the unfolding (loop
iterations and nested calls); C has no such bound. -/
def parse_outline_loop (env : Env) (gsubr lsubr : CFF_Index) :
    Nat → List Nat → Nat → Nat → CFF_Stack → List Event → Outcome
  | 0, _, _, _, _, _ => Outcome.outOfFuel
  | fuel + 1, buf, start, stop, st, out =>
    if start < stop then
      match decode_cs2_token buf start with
      | none => Outcome.fault
      | some (advance, Token.operator op) =>
        match execOperator env gsubr lsubr buf start advance op st out with
        | none => Outcome.fault
        | some (Step.next st1 ev adv) =>
          parse_outline_loop env gsubr lsubr fuel buf (start + adv) stop st1 (out ++ ev)
        | some Step.ret => Outcome.done st out
        | some (Step.call cbuf data len st1) =>
          match parse_outline_loop env gsubr lsubr fuel cbuf data (data + len) st1 out with
          | Outcome.done st2 out2 =>
            parse_outline_loop env gsubr lsubr fuel buf (start + advance) stop st2 out2
          | r => r
      | some (advance, Token.operand d) =>
        match pushOperand st d with
        | none => Outcome.fault
        | some st1 => parse_outline_loop env gsubr lsubr fuel buf (start + advance) stop st1 out
      | some (advance, Token.fraction d) =>
        match pushOperand st d with
        | none => Outcome.fault
        | some st1 => parse_outline_loop env gsubr lsubr fuel buf (start + advance) stop st1 out
    else Outcome.done st out

/-- The function `parse_outline_callback(data, len, gsubr, lsubr, stack,
outline, methods)`; the program is `buf[data .. data + len]`, `out` holds the
events already sent to `outline`. -/
def parse_outline_callback (env : Env) (fuel : Nat) (buf : List Nat) (data len : Nat)
    (gsubr lsubr : CFF_Index) (st : CFF_Stack) (out : List Event) : Outcome :=
  parse_outline_loop env gsubr lsubr fuel buf data (data + len) st out

/-- The default callbacks: `callback_nopgetrand` returns 0; `sqrt` is left
as the integer square root of numerator and denominator. -/
def nopEnv : Env := { getrand := fun _ => 0, sqrt := fun q => Rat.sqrt q }

/-- A zeroed `CFF_Stack` with `cap` operand cells and 32 transient cells. -/
def freshStack (cap : Nat) : CFF_Stack :=
  { stack := List.replicate cap 0, transient := List.replicate 32 0, index := 0, stem := 0 }

/-- The empty INDEX written by `empty_index`. -/
def emptyIndex : CFF_Index := { count := 0, offset := [], data := [] }

/-! ## Notions used to state the theorems -/

/-- The operators whose case opens with `CHECK_STACK_TOP(op, n)`, each with the
depth `n` of that check. -/
def checkedOps : List (Nat × Nat) :=
  [(op_vmoveto, 1), (op_rmoveto, 2), (op_hmoveto, 1), (op_hflex, 7), (op_flex, 12),
   (op_hflex1, 9), (op_flex1, 11), (op_and, 2), (op_or, 2), (op_not, 1), (op_abs, 1),
   (op_add, 2), (op_sub, 2), (op_div, 2), (op_neg, 1), (op_eq, 2), (op_drop, 1), (op_put, 2),
   (op_get, 1), (op_ifelse, 4), (op_mul, 2), (op_sqrt, 1), (op_dup, 1), (op_exch, 2),
   (op_index, 2), (op_roll, 2), (op_callsubr, 1), (op_callgsubr, 1)]

/-- The operand `stack->stack[i].d` as a total function of `i`; it is the cell
content for `i` inside the cell array. -/
def operandAt (st : CFF_Stack) (i : Nat) : ℚ := (st.stack[i]?).getD 0

/-- A buffer none of whose bytes is the code of `callsubr` or `callgsubr`. -/
def callFree (buf : List Nat) : Prop :=
  ∀ b ∈ buf, b % 256 ≠ op_callsubr ∧ b % 256 ≠ op_callgsubr

/-- The operand `stack->stack[i].d` as a `float`, which is how a builder
method receives it. -/
def floatAt (st : CFF_Stack) (i : Nat) : ℚ := roundFloat (operandAt st i)

/-- Whether each of the operands `stack[0 .. index - 1]` rounds to a finite
`float`. -/
def floatOperands (st : CFF_Stack) : Bool :=
  (List.range st.index).all (fun i => inFloatRange (operandAt st i))

/-- The running base of the stem hints, in `float` arithmetic: `B_0 = 0` and
`B_(i+1) = B_i + (p_i + w_i)`, for the operand pairs `(p_i, w_i)`, the inner
sum and the outer sum each rounded to `float`. -/
def hintBaseSpec (p w : Nat → ℚ) : Nat → ℚ
  | 0 => 0
  | i + 1 => roundFloat (hintBaseSpec p w i + roundFloat (p i + w i))

/-- The hints of `k` operand pairs: `setHint(isVertical, p_i + B_i, w_i)` for
`i = 0 .. k - 1`, in order, the sum `p_i + B_i` rounded to `float`. -/
def stemHintsSpec (isVertical : Bool) (p w : Nat → ℚ) (k : Nat) : List Event :=
  (List.range k).map (fun i =>
    Event.setHint isVertical (roundFloat (p i + hintBaseSpec p w i)) (w i))

/-- The position `p_i` of the `i`-th operand pair after the optional width, as
a `float`. -/
def pairPos (st : CFF_Stack) (i : Nat) : ℚ := floatAt st (st.index % 2 + 2 * i)

/-- The width `w_i` of the `i`-th operand pair after the optional width, as a
`float`. -/
def pairWidth (st : CFF_Stack) (i : Nat) : ℚ := floatAt st (st.index % 2 + 2 * i + 1)

/-- Whether the three `float` sums of each round of the hint loop, `p_i + B_i`,
`p_i + w_i` and `B_i + (p_i + w_i)`, round to finite `float`s. -/
def stemRange (st : CFF_Stack) : Bool :=
  (List.range (st.index / 2)).all (fun i =>
    inFloatRange (pairPos st i + hintBaseSpec (pairPos st) (pairWidth st) i) &&
    inFloatRange (pairPos st i + pairWidth st i) &&
    inFloatRange (hintBaseSpec (pairPos st) (pairWidth st) i +
      roundFloat (pairPos st i + pairWidth st i)))

/-- The byte `p[i]` as a total function of `i`; it is the byte read for `i`
inside the buffer. -/
def byteAt (buf : List Nat) (i : Nat) : Nat := (buf[i]?).getD 0 % 256

/-! ## Example data -/

/-- A Local Subr INDEX of count 5 whose first entry is `8C 16` (push 1,
`hmoveto`) and whose other entries are a lone `return`. -/
def demoSubrs5 : CFF_Index :=
  { count := 5, offset := [1, 3, 4, 5, 6, 7], data := [0x8c, 0x16, 0x0b, 0x0b, 0x0b, 0x0b] }

/-- A Local Subr INDEX with one entry, the single byte `0E` (`endchar`). -/
def demoSubrEndchar : CFF_Index := { count := 1, offset := [1, 2], data := [0x0e] }

/-- A Local Subr INDEX of eleven entries: entry `i < 10` is `push (i + 1 - 107)`,
`callsubr`, which calls entry `i + 1`; entry 10 is `8C 16` (push 1, `hmoveto`). -/
def demoSubrChain : CFF_Index :=
  { count := 11
    offset := [1, 3, 5, 7, 9, 11, 13, 15, 17, 19, 21, 23]
    data := [0x21, 0x0a, 0x22, 0x0a, 0x23, 0x0a, 0x24, 0x0a, 0x25, 0x0a, 0x26, 0x0a,
             0x27, 0x0a, 0x28, 0x0a, 0x29, 0x0a, 0x2a, 0x0a, 0x8c, 0x16] }

/-- A Local Subr INDEX with one entry, `20 0A`: push -107, `callsubr`, a call
of the entry itself. -/
def demoSubrSelf : CFF_Index := { count := 1, offset := [1, 3], data := [0x20, 0x0a] }

/-! ## Notions used to state the curve, flex and storage theorems -/

/-- Curve `i` of `hvcurveto` / `vhcurveto` for a stack of depth `4k` or
`4k + 1`: with `(a, b, c, d) = stack[4i .. 4i+3]` as `float`s the curve is
`curveTo(a,0, b,c, 0,d)` when it starts horizontally and `curveTo(0,a, b,c, d,0)`
when it starts vertically, the zero end coordinate of the last curve being
replaced by the trailing operand `e = stack[n-1]`, as a `float`, when the depth
is `4k + 1`. -/
def cornerCurve (st : CFF_Stack) (horizontalFirst : Bool) (k i : Nat) : Event :=
  let a := floatAt st (4 * i)
  let b := floatAt st (4 * i + 1)
  let c := floatAt st (4 * i + 2)
  let d := floatAt st (4 * i + 3)
  let e := if st.index = 4 * k + 1 ∧ i + 1 = k then floatAt st (st.index - 1) else 0
  if horizontalFirst then Event.curveTo a 0 b c e d else Event.curveTo 0 a b c d e

/-- The sum `a + b + c + d + e` in `double` arithmetic: added from the left,
rounded to `double` after each addition. -/
def doubleSum5 (a b c d e : ℚ) : ℚ :=
  roundDouble (roundDouble (roundDouble (roundDouble (a + b) + c) + d) + e)

/-- Whether each of the four additions of `doubleSum5` rounds to a finite
`double`. -/
def doubleSum5Range (a b c d e : ℚ) : Bool :=
  inDoubleRange (a + b) && inDoubleRange (roundDouble (a + b) + c) &&
    inDoubleRange (roundDouble (roundDouble (a + b) + c) + d) &&
    inDoubleRange (roundDouble (roundDouble (roundDouble (a + b) + c) + d) + e)

/-- The `double` sum `dx = s0 + s2 + s4 + s6 + s8` of `flex1`. -/
def flex1dx (st : CFF_Stack) : ℚ :=
  doubleSum5 (operandAt st 0) (operandAt st 2) (operandAt st 4) (operandAt st 6)
    (operandAt st 8)

/-- The `double` sum `dy = s1 + s3 + s5 + s7 + s9` of `flex1`. -/
def flex1dy (st : CFF_Stack) : ℚ :=
  doubleSum5 (operandAt st 1) (operandAt st 3) (operandAt st 5) (operandAt st 7)
    (operandAt st 9)

/-- Whether the eight additions behind `dx` and `dy` of `flex1` round to
finite `double`s. -/
def flex1SumsRange (st : CFF_Stack) : Bool :=
  doubleSum5Range (operandAt st 0) (operandAt st 2) (operandAt st 4) (operandAt st 6)
      (operandAt st 8) &&
    doubleSum5Range (operandAt st 1) (operandAt st 3) (operandAt st 5) (operandAt st 7)
      (operandAt st 9)

/-- Modelled from the spec: `caryll_blt16u`, the big-endian 16-bit value at
`data + p`; the function is not among the sources. -/
def caryll_blt16u (data : List Nat) (p : Nat) : Option Nat := do
  let b0 ← rdByte data p
  let b1 ← rdByte data (p + 1)
  some (b0 * 256 + b1)

/-- Modelled from the spec: `caryll_blt32u`, the big-endian 32-bit value at
`data + p`; the function is not among the sources. -/
def caryll_blt32u (data : List Nat) (p : Nat) : Option Nat := do
  let b0 ← rdByte data p
  let b1 ← rdByte data (p + 1)
  let b2 ← rdByte data (p + 2)
  let b3 ← rdByte data (p + 3)
  some (((b0 * 256 + b1) * 256 + b2) * 256 + b3)

/-- The bytes `memcpy(dst, data + p, n)` copies. -/
def copyBytes (data : List Nat) (p n : Nat) : Option (List Nat) :=
  (List.range n).mapM (fun i => rdByte data (p + i))

/-- The fields of `table_OS_2` that `caryll_read_OS_2` assigns, and
`usUpperOpticalPointSize`, which `caryll_OS_2_to_json` reads.  Each field holds
the unsigned value stored by the reader (the struct is declared in `OS_2.h`,
not among the sources). -/
structure table_OS_2 where
  version : Nat
  xAvgCharWidth : Nat
  usWeightClass : Nat
  usWidthClass : Nat
  fsType : Nat
  ySubscriptXSize : Nat
  ySubscriptYSize : Nat
  ySubscriptXOffset : Nat
  ySubscriptYOffset : Nat
  ySupscriptXSize : Nat
  ySupscriptYSize : Nat
  ySupscriptXOffset : Nat
  ySupscriptYOffset : Nat
  yStrikeoutSize : Nat
  yStrikeoutPosition : Nat
  sFamilyClass : Nat
  panose : List Nat
  ulUnicodeRange1 : Nat
  ulUnicodeRange2 : Nat
  ulUnicodeRange3 : Nat
  ulUnicodeRange4 : Nat
  achVendID : List Nat
  fsSelection : Nat
  usFirstCharIndex : Nat
  usLastCharIndex : Nat
  sTypoAscender : Nat
  sTypoDescender : Nat
  sTypoLineGap : Nat
  usWinAscent : Nat
  usWinDescent : Nat
  ulCodePageRange1 : Nat
  ulCodePageRange2 : Nat
  sxHeight : Nat
  sCapHeight : Nat
  usDefaultChar : Nat
  usBreakChar : Nat
  usMaxContext : Nat
  usLowerOpticalPointSize : Nat
  usUpperOpticalPointSize : Nat

/-- The table after `calloc(1, sizeof(table_OS_2))` and the assignment of
`version`. -/
def zeroed_OS_2 (version : Nat) : table_OS_2 :=
  { version := version, xAvgCharWidth := 0, usWeightClass := 0, usWidthClass := 0, fsType := 0,
    ySubscriptXSize := 0, ySubscriptYSize := 0, ySubscriptXOffset := 0, ySubscriptYOffset := 0,
    ySupscriptXSize := 0, ySupscriptYSize := 0, ySupscriptXOffset := 0, ySupscriptYOffset := 0,
    yStrikeoutSize := 0, yStrikeoutPosition := 0, sFamilyClass := 0,
    panose := List.replicate 10 0,
    ulUnicodeRange1 := 0, ulUnicodeRange2 := 0, ulUnicodeRange3 := 0, ulUnicodeRange4 := 0,
    achVendID := List.replicate 4 0,
    fsSelection := 0, usFirstCharIndex := 0, usLastCharIndex := 0, sTypoAscender := 0,
    sTypoDescender := 0, sTypoLineGap := 0, usWinAscent := 0, usWinDescent := 0,
    ulCodePageRange1 := 0, ulCodePageRange2 := 0, sxHeight := 0, sCapHeight := 0,
    usDefaultChar := 0, usBreakChar := 0, usMaxContext := 0, usLowerOpticalPointSize := 0,
    usUpperOpticalPointSize := 0 }

/-- The assignments of the version 1 block from `xAvgCharWidth` to `ySubscriptYOffset`. -/
def read_OS_2_v1a (data : List Nat) (os_2 : table_OS_2) : Option table_OS_2 := do
  let xAvgCharWidth ← caryll_blt16u data 2
  let usWeightClass ← caryll_blt16u data 4
  let usWidthClass ← caryll_blt16u data 6
  let fsType ← caryll_blt16u data 8
  let ySubscriptXSize ← caryll_blt16u data 10
  let ySubscriptYSize ← caryll_blt16u data 12
  let ySubscriptXOffset ← caryll_blt16u data 14
  let ySubscriptYOffset ← caryll_blt16u data 16
  some { os_2 with
    xAvgCharWidth := xAvgCharWidth, usWeightClass := usWeightClass,
    usWidthClass := usWidthClass, fsType := fsType,
    ySubscriptXSize := ySubscriptXSize, ySubscriptYSize := ySubscriptYSize,
    ySubscriptXOffset := ySubscriptXOffset, ySubscriptYOffset := ySubscriptYOffset }

/-- The assignments of the version 1 block from `ySupscriptXSize` to `panose`. -/
def read_OS_2_v1b (data : List Nat) (os_2 : table_OS_2) : Option table_OS_2 := do
  let ySupscriptXSize ← caryll_blt16u data 18
  let ySupscriptYSize ← caryll_blt16u data 20
  let ySupscriptXOffset ← caryll_blt16u data 22
  let ySupscriptYOffset ← caryll_blt16u data 24
  let yStrikeoutSize ← caryll_blt16u data 26
  let yStrikeoutPosition ← caryll_blt16u data 28
  let sFamilyClass ← caryll_blt16u data 30
  let panose ← copyBytes data 32 10
  some { os_2 with
    ySupscriptXSize := ySupscriptXSize, ySupscriptYSize := ySupscriptYSize,
    ySupscriptXOffset := ySupscriptXOffset, ySupscriptYOffset := ySupscriptYOffset,
    yStrikeoutSize := yStrikeoutSize, yStrikeoutPosition := yStrikeoutPosition,
    sFamilyClass := sFamilyClass, panose := panose }

/-- The assignments of the version 1 block from `ulUnicodeRange1` to `usLastCharIndex`. -/
def read_OS_2_v1c (data : List Nat) (os_2 : table_OS_2) : Option table_OS_2 := do
  let ulUnicodeRange1 ← caryll_blt32u data 42
  let ulUnicodeRange2 ← caryll_blt32u data 46
  let ulUnicodeRange3 ← caryll_blt32u data 50
  let ulUnicodeRange4 ← caryll_blt32u data 54
  let achVendID ← copyBytes data 58 4
  let fsSelection ← caryll_blt16u data 62
  let usFirstCharIndex ← caryll_blt16u data 64
  let usLastCharIndex ← caryll_blt16u data 66
  some { os_2 with
    ulUnicodeRange1 := ulUnicodeRange1, ulUnicodeRange2 := ulUnicodeRange2,
    ulUnicodeRange3 := ulUnicodeRange3, ulUnicodeRange4 := ulUnicodeRange4,
    achVendID := achVendID, fsSelection := fsSelection,
    usFirstCharIndex := usFirstCharIndex, usLastCharIndex := usLastCharIndex }

/-- The assignments of the version 1 block from `sTypoAscender` to `ulCodePageRange2`. -/
def read_OS_2_v1d (data : List Nat) (os_2 : table_OS_2) : Option table_OS_2 := do
  let sTypoAscender ← caryll_blt16u data 68
  let sTypoDescender ← caryll_blt16u data 70
  let sTypoLineGap ← caryll_blt16u data 72
  let usWinAscent ← caryll_blt16u data 74
  let usWinDescent ← caryll_blt16u data 76
  let ulCodePageRange1 ← caryll_blt32u data 78
  let ulCodePageRange2 ← caryll_blt32u data 82
  some { os_2 with
    sTypoAscender := sTypoAscender, sTypoDescender := sTypoDescender,
    sTypoLineGap := sTypoLineGap, usWinAscent := usWinAscent,
    usWinDescent := usWinDescent, ulCodePageRange1 := ulCodePageRange1,
    ulCodePageRange2 := ulCodePageRange2 }

/-- The block `if (os_2->version >= 1) { ... }`. -/
def read_OS_2_v1 (data : List Nat) (os_2 : table_OS_2) : Option table_OS_2 := do
  let os_2 ← read_OS_2_v1a data os_2
  let os_2 ← read_OS_2_v1b data os_2
  let os_2 ← read_OS_2_v1c data os_2
  read_OS_2_v1d data os_2

/-- The block `if (os_2->version >= 2) { ... }`. -/
def read_OS_2_v2 (data : List Nat) (os_2 : table_OS_2) : Option table_OS_2 := do
  let sxHeight ← caryll_blt16u data 86
  let sCapHeight ← caryll_blt16u data 88
  let usDefaultChar ← caryll_blt16u data 90
  let usBreakChar ← caryll_blt16u data 92
  let usMaxContext ← caryll_blt16u data 94
  some { os_2 with
    sxHeight := sxHeight, sCapHeight := sCapHeight, usDefaultChar := usDefaultChar,
    usBreakChar := usBreakChar, usMaxContext := usMaxContext }

/-- The block `if (os_2->version >= 5) { ... }`: both assignments go to
`usLowerOpticalPointSize`. -/
def read_OS_2_v5 (data : List Nat) (os_2 : table_OS_2) : Option table_OS_2 := do
  let v96 ← caryll_blt16u data 96
  let os_2 := { os_2 with usLowerOpticalPointSize := v96 }
  let v98 ← caryll_blt16u data 98
  some { os_2 with usLowerOpticalPointSize := v98 }

/-- The body of `FOR_TABLE('OS/2', table)` for one table `(data, length)`:
`none` is an access outside `data`, `some none` is the exit through
`OS_2_CORRUPTED`, `some (some t)` is `return os_2`. -/
def read_OS_2_table (data : List Nat) (length : Nat) : Option (Option table_OS_2) :=
  if length < 2 then some none
  else do
    let version ← caryll_blt16u data 0
    let os_2 := zeroed_OS_2 version
    if version = 0 ∨ (version ≥ 1 ∧ length < 86) then some none
    else do
      let os_2 ← if version ≥ 1 then read_OS_2_v1 data os_2 else some os_2
      if version ≥ 2 ∧ length < 96 then some none
      else do
        let os_2 ← if version ≥ 2 then read_OS_2_v2 data os_2 else some os_2
        if version ≥ 5 ∧ length < 100 then some none
        else do
          let os_2 ← if version ≥ 5 then read_OS_2_v5 data os_2 else some os_2
          some (some os_2)

/-- The function `caryll_read_OS_2`; the macro `FOR_TABLE` is not among the
sources, and the packet is given as the list of its tables of tag `OS/2`, each
with its `data` and `length`: the body runs on each in turn until one returns
a table, and the result is `NULL` (`some none`) when none does. -/
def caryll_read_OS_2 : List (List Nat × Nat) → Option (Option table_OS_2)
  | [] => some none
  | (data, length) :: rest =>
    match read_OS_2_table data length with
    | none => none
    | some (some os_2) => some (some os_2)
    | some none => caryll_read_OS_2 rest

/-! ## The container decoder (`parse_encoding`, `parse_cff_bytecode`,
`CFF_stream_open`, `parse_subr`)

The helpers `gu1`, `gu2`, `parse_index`, `count_index`, `empty_index`,
`parse_dict_key`, `parse_charset` and `parse_fdselect`, the types of `libcff.h`
and its constants are not among the sources.  The byte readers and the
constants are modelled from the specification; the other helpers are the
fields of `CffEnv`, total functions as their C signatures have it, so that the
theorems hold for every implementation of them.  A read of the driver outside
an array answers `none`. -/

/-- Modelled from the spec: `gu1(data, p)`, the byte at `data + p` ("read
1-byte big-endian unsigned integers"); it is given no length. -/
def gu1 (data : List Nat) (p : Nat) : Option Nat := rdByte data p

/-- Modelled from the spec: `gu2(data, p)`, the big-endian 16-bit value at
`data + p`; it is given no length. -/
def gu2 (data : List Nat) (p : Nat) : Option Nat := do
  let b0 ← rdByte data p
  let b1 ← rdByte data (p + 1)
  some (b0 * 256 + b1)

/-- The byte `data[i]` for a C `int` subscript. -/
def rdByteI (data : List Nat) (i : Int) : Option Nat :=
  if 0 ≤ i then rdByte data i.toNat else none

/-- The union `CFF_Encoding` with its tag `t`: `f0` is `ncodes` and `code`,
`f1` is `nranges` and the `(first, nleft)` pairs of `range1`, `ns` is `nsup`
and the `(code, glyph)` pairs of `supplement`. -/
inductive CFF_Encoding where
  | standard
  | expert
  | unspeced
  | format0 (ncodes : Nat) (code : List Nat)
  | format1 (nranges : Nat) (range1 : List (Nat × Nat))
  | supplement (nsup : Nat) (supplement : List (Nat × Nat))
  deriving DecidableEq, Repr

/-- Modelled from the spec: the constant `CFF_ENC_STANDARD` of `libcff.h`, the
offset 0 that stands for the Standard encoding (Technical Note 5176). -/
def CFF_ENC_STANDARD : Int := 0

/-- Modelled from the spec: the constant `CFF_ENC_EXPERT` of `libcff.h`, the
offset 1 that stands for the Expert encoding (Technical Note 5176). -/
def CFF_ENC_EXPERT : Int := 1

/-- The function `parse_encoding(cff, offset, enc)` on `data = cff->raw_data`;
the result is the value written to `*enc`.  The subscripts with the
`uint32_t` counter `i` are computed in `uint32_t`. -/
def parse_encoding (data : List Nat) (offset : Int) : Option CFF_Encoding :=
  if offset = CFF_ENC_STANDARD then some CFF_Encoding.standard
  else if offset = CFF_ENC_EXPERT then some CFF_Encoding.expert
  else do
    let format ← rdByteI data offset
    if format = 0 then do
      let ncodes ← rdByteI data (offset + 1)
      let code ← (List.range ncodes).mapM (fun (i : Nat) => rdByte data (toU32 (offset + 2 + i)))
      some (CFF_Encoding.format0 ncodes code)
    else if format = 1 then do
      let nranges ← rdByteI data (offset + 1)
      let range1 ← (List.range nranges).mapM (fun (i : Nat) => do
        let first ← rdByte data (toU32 (offset + 2 + i * 2))
        let nleft ← rdByte data (toU32 (offset + 3 + i * 2))
        some (first, nleft))
      some (CFF_Encoding.format1 nranges range1)
    else do
      let nsup ← rdByteI data offset
      let supplement ← (List.range nsup).mapM (fun (i : Nat) => do
        let code ← rdByte data (toU32 (offset + 1 + i * 3))
        let glyph ← gu2 data (toU32 (offset + 2 + i * 3))
        some (code, glyph))
      some (CFF_Encoding.supplement nsup supplement)

/-- The union `CFF_FDSelect` with its tag `t`, as `parse_subr` reads it: `f0`
is the array `fds`, `f3` is `nranges`, the `(first, fd)` pairs of `range3` and
`sentinel`. -/
inductive CFF_FDSelect where
  | format0 (fds : List Nat)
  | format3 (nranges : Nat) (range3 : List (Nat × Nat)) (sentinel : Nat)
  | unspeced
  deriving DecidableEq, Repr

/-- Modelled from the spec: the union `CFF_Charset` ("Format0 (per-glyph SIDs),
Format1 (ranges of 8-bit nLeft), Format2 (ranges of 16-bit nLeft)") with the
tag `CFF_CHARSET_UNSPECED`; the driver only stores it. -/
inductive CFF_Charset where
  | unspeced
  | format0 (glyph : List Nat)
  | format1 (range1 : List (Nat × Nat))
  | format2 (range2 : List (Nat × Nat))
  deriving DecidableEq, Repr

/-- Modelled from the spec: the Top DICT and Private DICT operators of
Technical Note 5176 that the driver looks up; a two-byte operator `12 X` is
`0x0c00 + X`. -/
def op_charset : Nat := 15

/-- See `op_charset`. -/
def op_Encoding : Nat := 16

/-- See `op_charset`. -/
def op_CharStrings : Nat := 17

/-- See `op_charset`. -/
def op_Private : Nat := 18

/-- See `op_charset`. -/
def op_Subrs : Nat := 19

/-- See `op_charset`. -/
def op_FDArray : Nat := 0x0c24

/-- See `op_charset`. -/
def op_FDSelect : Nat := 0x0c25

/-- The helpers of the container decoder that are not among the sources.
`parse_index data pos` is the INDEX written to the third argument of
`parse_index`; `count_index` is the byte size of an INDEX; `data_null idx` says
whether the pointer `idx.data` is `NULL` (the list `data` of `CFF_Index` holds
the bytes behind the pointer and cannot tell); `parse_dict_key buf start len op
idx` is the field `.i` of `parse_dict_key(buf + start, len, op, idx)`;
`parse_charset` and `parse_fdselect` give the value written to their last
argument. -/
structure CffEnv where
  parse_index : List Nat → Nat → CFF_Index
  count_index : CFF_Index → Nat
  data_null : CFF_Index → Bool
  parse_dict_key : List Nat → Int → Int → Nat → Nat → Int
  parse_charset : List Nat → Int → Nat → CFF_Charset
  parse_fdselect : List Nat → Int → Nat → CFF_FDSelect

/-- The struct `cff->head`. -/
structure CFF_Header where
  major : Nat
  minor : Nat
  hdrSize : Nat
  offSize : Nat
  deriving DecidableEq, Repr

/-- The struct `CFF_File`.  The three unions are `none` as long as nothing has
been written to them after `calloc`. -/
structure CFF_File where
  raw_data : List Nat
  raw_length : Nat
  cnt_glyph : Nat
  head : CFF_Header
  name : CFF_Index
  top_dict : CFF_Index
  string : CFF_Index
  global_subr : CFF_Index
  char_strings : CFF_Index
  encodings : Option CFF_Encoding
  charsets : Option CFF_Charset
  fdselect : Option CFF_FDSelect
  font_dict : CFF_Index
  local_subr : CFF_Index
  deriving DecidableEq, Repr

/-- The lookup `parse_dict_key(cff->top_dict.data, cff->top_dict.offset[1] -
cff->top_dict.offset[0], op, idx).i` in the first Top DICT, for the current
value `top_dict` of `cff->top_dict`; the length is a `uint32_t` difference. -/
def topDictKey (env : CffEnv) (top_dict : CFF_Index) (op idx : Nat) : Option Int := do
  let o1 ← top_dict.offset[1]?
  let o0 ← top_dict.offset[0]?
  some (env.parse_dict_key top_dict.data 0 (toU32 (Int.ofNat o1 - Int.ofNat o0)) op idx)

/-- The statement `if (offset != -1) parse_encoding(cff, offset,
&cff->encodings); else cff->encodings.t = CFF_ENC_UNSPECED;`: the value of
`cff->encodings` after it. -/
def encodingFor (raw : List Nat) (offset : Int) : Option CFF_Encoding :=
  if offset ≠ -1 then parse_encoding raw offset else some CFF_Encoding.unspeced

/-- The block `if (cff->top_dict.data != NULL) { ... }` of
`parse_cff_bytecode`: CharStrings, Encodings, Charsets, FDSelect and the Font
Dict INDEX. -/
def parse_top_dict_tables (env : CffEnv) (cff : CFF_File) : Option CFF_File := do
  let offset ← topDictKey env cff.top_dict op_CharStrings 0
  let cff :=
    if offset ≠ -1 then
      { cff with
        char_strings := env.parse_index cff.raw_data (toU32 offset),
        cnt_glyph := (env.parse_index cff.raw_data (toU32 offset)).count }
    else { cff with char_strings := emptyIndex }
  let offset ← topDictKey env cff.top_dict op_Encoding 0
  let enc ← encodingFor cff.raw_data offset
  let cff := { cff with encodings := some enc }
  let offset ← topDictKey env cff.top_dict op_charset 0
  let cff :=
    { cff with
      charsets := some (if offset ≠ -1 then
          env.parse_charset cff.raw_data offset cff.char_strings.count
        else CFF_Charset.unspeced) }
  let offset ← topDictKey env cff.top_dict op_FDSelect 0
  let cff :=
    { cff with
      fdselect := some (if offset ≠ -1 then
          env.parse_fdselect cff.raw_data offset cff.char_strings.count
        else CFF_FDSelect.unspeced) }
  let offset ← topDictKey env cff.top_dict op_FDArray 0
  some { cff with
    font_dict := if offset ≠ -1 then env.parse_index cff.raw_data (toU32 offset)
      else emptyIndex }

/-- The block `/* Private and Local Subr */` of `parse_cff_bytecode`. -/
def parse_private (env : CffEnv) (cff : CFF_File) : Option CFF_File := do
  let private_len ← if env.data_null cff.top_dict then some (-1)
    else topDictKey env cff.top_dict op_Private 0
  let private_off ← if env.data_null cff.top_dict then some (-1)
    else topDictKey env cff.top_dict op_Private 1
  if private_off ≠ -1 ∧ private_len ≠ -1 then
    if env.parse_dict_key cff.raw_data private_off private_len op_Subrs 0 ≠ -1 then
      some { cff with
        local_subr := env.parse_index cff.raw_data
          (toU32 (private_off +
            env.parse_dict_key cff.raw_data private_off private_len op_Subrs 0)) }
    else some { cff with local_subr := emptyIndex }
  else some { cff with local_subr := emptyIndex }

/-- The function `parse_cff_bytecode(cff)`; the positions `pos` are
`uint32_t`. -/
def parse_cff_bytecode (env : CffEnv) (cff : CFF_File) : Option CFF_File := do
  let major ← gu1 cff.raw_data 0
  let minor ← gu1 cff.raw_data 1
  let hdrSize ← gu1 cff.raw_data 2
  let offSize ← gu1 cff.raw_data 3
  let cff := { cff with head := ⟨major, minor, hdrSize, offSize⟩ }
  let cff := { cff with name := env.parse_index cff.raw_data cff.head.hdrSize }
  let cff :=
    { cff with
      top_dict := env.parse_index cff.raw_data
        ((4 + env.count_index cff.name) % 4294967296) }
  let cff :=
    { cff with
      string := env.parse_index cff.raw_data
        ((4 + env.count_index cff.name + env.count_index cff.top_dict) % 4294967296) }
  let cff :=
    { cff with
      global_subr := env.parse_index cff.raw_data
        ((4 + env.count_index cff.name + env.count_index cff.top_dict +
          env.count_index cff.string) % 4294967296) }
  let cff ← if env.data_null cff.top_dict then some cff else parse_top_dict_tables env cff
  parse_private env cff

/-- The `CFF_File` after `calloc`, the copy of the `len` bytes and
`file->cnt_glyph = 0`. -/
def newFile (raw : List Nat) (len : Nat) : CFF_File :=
  { raw_data := raw, raw_length := len, cnt_glyph := 0, head := ⟨0, 0, 0, 0⟩,
    name := emptyIndex, top_dict := emptyIndex, string := emptyIndex,
    global_subr := emptyIndex, char_strings := emptyIndex, encodings := none,
    charsets := none, fdselect := none, font_dict := emptyIndex, local_subr := emptyIndex }

/-- The function `CFF_stream_open(data, len)`: `memcpy` reads `len` bytes of
`data`; the result is the file the returned pointer points to. -/
def CFF_stream_open (env : CffEnv) (data : List Nat) (len : Nat) : Option CFF_File :=
  if len ≤ data.length then parse_cff_bytecode env (newFile (data.take len) len) else none

/-- The loop `for (int i = 0; i < select.f3.nranges - 1; i++)` of `parse_subr`
over the values `is` of `i`, `fd` being the current value of the variable. -/
def fdRangeLoop (idx : Nat) (range3 : List (Nat × Nat)) : List Nat → Nat → Option Nat
  | [], fd => some fd
  | i :: is, fd => do
    let r ← range3[i]?
    if idx ≥ r.1 then do
      let r1 ← range3[i + 1]?
      if idx < r1.1 then fdRangeLoop idx range3 is (r.2 % 256)
      else fdRangeLoop idx range3 is fd
    else fdRangeLoop idx range3 is fd

/-- The `switch (select.t)` of `parse_subr`: the value of the `uint8_t`
variable `fd` after it. -/
def selectFd (idx : Nat) (select : CFF_FDSelect) : Option Nat :=
  match select with
  | CFF_FDSelect.format0 fds => (fds[idx]?).map (fun fd => fd % 256)
  | CFF_FDSelect.format3 nranges range3 sentinel => do
    let fd ← fdRangeLoop idx range3 (List.range (nranges - 1)) 0
    let last ← if nranges = 0 then none else range3[nranges - 1]?
    if idx ≥ last.1 ∧ idx < sentinel then some (last.2 % 256) else some fd
  | CFF_FDSelect.unspeced => some 0

/-- The function `parse_subr(idx, raw, fdarray, select, subr)`: the value
returned and the INDEX written to `*subr`. -/
def parse_subr (env : CffEnv) (idx : Nat) (raw : List Nat) (fdarray : CFF_Index)
    (select : CFF_FDSelect) : Option (Nat × CFF_Index) := do
  let fd ← selectFd idx select
  let o0 ← fdarray.offset[fd]?
  let o1 ← fdarray.offset[fd + 1]?
  let off_private :=
    env.parse_dict_key fdarray.data (Int.ofNat o0 - 1) (toU32 (Int.ofNat o1 - Int.ofNat o0)) op_Private 1
  let len_private :=
    env.parse_dict_key fdarray.data (Int.ofNat o0 - 1) (toU32 (Int.ofNat o1 - Int.ofNat o0)) op_Private 0
  if off_private ≠ -1 ∧ len_private ≠ -1 then
    if env.parse_dict_key raw off_private len_private op_Subrs 0 ≠ -1 then
      some (fd, env.parse_index raw
        (toU32 (off_private + env.parse_dict_key raw off_private len_private op_Subrs 0)))
    else some (fd, emptyIndex)
  else some (fd, emptyIndex)

/-! ## Notions used to state the container theorems -/

/-- The field `first` of `range3[i]`, as a total function of `i`. -/
def rangeFirst (range3 : List (Nat × Nat)) (i : Nat) : Nat := ((range3[i]?).getD (0, 0)).1

/-- The field `fd` of `range3[i]`, as a total function of `i`. -/
def rangeFd (range3 : List (Nat × Nat)) (i : Nat) : Nat := ((range3[i]?).getD (0, 0)).2

/-- The upper bound of range `r` of an FDSelect Format 3: the `first` of the
next range, and the sentinel for the last range. -/
def rangeUpper (range3 : List (Nat × Nat)) (sentinel r : Nat) : Nat :=
  if r + 1 < range3.length then rangeFirst range3 (r + 1) else sentinel

/-- The Name INDEX as `parse_cff_bytecode` frames it: parsed at `hdrSize`, the
byte 2 of the raw data. -/
def nameOf (env : CffEnv) (raw : List Nat) : CFF_Index := env.parse_index raw (byteAt raw 2)

/-- The Top DICT INDEX as `parse_cff_bytecode` frames it: parsed at
`4 + count_index(name)`. -/
def topDictOf (env : CffEnv) (raw : List Nat) : CFF_Index :=
  env.parse_index raw ((4 + env.count_index (nameOf env raw)) % 4294967296)

/-- The String INDEX as `parse_cff_bytecode` frames it. -/
def stringOf (env : CffEnv) (raw : List Nat) : CFF_Index :=
  env.parse_index raw
    ((4 + env.count_index (nameOf env raw) + env.count_index (topDictOf env raw)) % 4294967296)

/-- The Global Subr INDEX as `parse_cff_bytecode` frames it. -/
def globalSubrOf (env : CffEnv) (raw : List Nat) : CFF_Index :=
  env.parse_index raw
    ((4 + env.count_index (nameOf env raw) + env.count_index (topDictOf env raw) +
      env.count_index (stringOf env raw)) % 4294967296)

/-- The result of the lookup of `(op, idx)` in the first Top DICT, as a total
function: `parse_dict_key(top_dict.data, top_dict.offset[1] - top_dict.offset[0],
op, idx).i`. -/
def topKey (env : CffEnv) (raw : List Nat) (op idx : Nat) : Int :=
  env.parse_dict_key (topDictOf env raw).data 0
    (toU32 (Int.ofNat (((topDictOf env raw).offset[1]?).getD 0) -
      Int.ofNat (((topDictOf env raw).offset[0]?).getD 0))) op idx

/-- The result of the lookup of `Subrs` in the Private DICT, the `len` bytes at
`off` of the raw data. -/
def subrsKey (env : CffEnv) (raw : List Nat) (off len : Int) : Int :=
  env.parse_dict_key raw off len op_Subrs 0

/-- The Local Subr INDEX that `parse_cff_bytecode` stores for the Private
operands `len` and `off`. -/
def localSubrFor (env : CffEnv) (raw : List Nat) (len off : Int) : CFF_Index :=
  if off ≠ -1 ∧ len ≠ -1 then
    if subrsKey env raw off len ≠ -1 then
      env.parse_index raw (toU32 (off + subrsKey env raw off len))
    else emptyIndex
  else emptyIndex

/-- The file after the header and the four top-level INDEXes. -/
def framedFile (env : CffEnv) (raw : List Nat) (len : Nat) : CFF_File :=
  { newFile raw len with
    head := ⟨byteAt raw 0, byteAt raw 1, byteAt raw 2, byteAt raw 3⟩
    name := nameOf env raw
    top_dict := topDictOf env raw
    string := stringOf env raw
    global_subr := globalSubrOf env raw }

/-- The file `CFF_stream_open` returns when the Top DICT INDEX has data and
the Encoding is `enc`. -/
def openedFile (env : CffEnv) (raw : List Nat) (len : Nat) (enc : CFF_Encoding) : CFF_File :=
  { framedFile env raw len with
    char_strings :=
      if topKey env raw op_CharStrings 0 ≠ -1 then
        env.parse_index raw (toU32 (topKey env raw op_CharStrings 0))
      else emptyIndex
    cnt_glyph :=
      if topKey env raw op_CharStrings 0 ≠ -1 then
        (env.parse_index raw (toU32 (topKey env raw op_CharStrings 0))).count
      else 0
    encodings := some enc
    charsets := some
      (if topKey env raw op_charset 0 ≠ -1 then
        env.parse_charset raw (topKey env raw op_charset 0)
          (if topKey env raw op_CharStrings 0 ≠ -1 then
            (env.parse_index raw (toU32 (topKey env raw op_CharStrings 0))).count
          else emptyIndex.count)
      else CFF_Charset.unspeced)
    fdselect := some
      (if topKey env raw op_FDSelect 0 ≠ -1 then
        env.parse_fdselect raw (topKey env raw op_FDSelect 0)
          (if topKey env raw op_CharStrings 0 ≠ -1 then
            (env.parse_index raw (toU32 (topKey env raw op_CharStrings 0))).count
          else emptyIndex.count)
      else CFF_FDSelect.unspeced)
    font_dict :=
      if topKey env raw op_FDArray 0 ≠ -1 then
        env.parse_index raw (toU32 (topKey env raw op_FDArray 0))
      else emptyIndex
    local_subr :=
      localSubrFor env raw (topKey env raw op_Private 0) (topKey env raw op_Private 1) }

/-! ## An example environment and example files -/

/-- Whether a list of offsets is non-decreasing. -/
def nonDecreasing : List Nat → Bool
  | a :: b :: rest => decide (a ≤ b) && nonDecreasing (b :: rest)
  | _ => true

/-- Modelled from the spec: the INDEX reader for an INDEX at `pos` whose
offsets are one byte wide ("count (16-bit), offSize, an offset array of
count+1 entries, and a contiguous data blob", the first offset 1, the offsets
non-decreasing); the answer is `none` for any other input. -/
def readIndex1 (data : List Nat) (pos : Nat) : Option CFF_Index := do
  let count ← gu2 data pos
  if count = 0 then some emptyIndex
  else do
    let offSize ← gu1 data (pos + 2)
    if offSize ≠ 1 then none
    else do
      let offset ← (List.range (count + 1)).mapM (fun (i : Nat) => gu1 data (pos + 3 + i))
      let last ← offset[count]?
      if offset[0]? = some 1 ∧ nonDecreasing offset = true ∧
          pos + 3 + (count + 1) + (last - 1) ≤ data.length then
        some { count := count, offset := offset,
               data := (data.drop (pos + 3 + (count + 1))).take (last - 1) }
      else none

/-- Modelled from the spec: the byte size of an INDEX with one-byte offsets,
"2 + 1 + (count+1)*offSize + (offset[count]-1) (or 2 when empty)". -/
def sizeIndex1 (idx : CFF_Index) : Nat :=
  if idx.count = 0 then 2 else 3 + (idx.count + 1) + (((idx.offset[idx.count]?).getD 1) - 1)

/-- Modelled from the spec: the DICT lookup over the bytes `buf[pos .. stop]`
for integer operands ("32..246 → b0 - 139", the two-byte forms, "28 + i16" and
"29 + i32") and the operators (one byte `0..21`, or `12 X` as `0x0c00 + X`):
operands are collected, an operator that matches `op` returns operand
`which`, any other operator clears them, and the end of the blob gives `-1`.
Real operands (byte 30) are not read: the lookup ends there with `-1`. -/
def dictLoop (buf : List Nat) (stop op which : Nat) : Nat → Nat → List Int → Int
  | 0, _, _ => -1
  | fuel + 1, pos, operands =>
    if stop ≤ pos then -1
    else if 32 ≤ byteAt buf pos ∧ byteAt buf pos ≤ 246 then
      dictLoop buf stop op which fuel (pos + 1) (operands ++ [(byteAt buf pos : Int) - 139])
    else if 247 ≤ byteAt buf pos ∧ byteAt buf pos ≤ 250 then
      dictLoop buf stop op which fuel (pos + 2)
        (operands ++ [((byteAt buf pos : Int) - 247) * 256 + byteAt buf (pos + 1) + 108])
    else if 251 ≤ byteAt buf pos ∧ byteAt buf pos ≤ 254 then
      dictLoop buf stop op which fuel (pos + 2)
        (operands ++ [-((byteAt buf pos : Int) - 251) * 256 - byteAt buf (pos + 1) - 108])
    else if byteAt buf pos = 28 then
      dictLoop buf stop op which fuel (pos + 3)
        (operands ++ [toI16 (byteAt buf (pos + 1) * 256 + byteAt buf (pos + 2))])
    else if byteAt buf pos = 29 then
      dictLoop buf stop op which fuel (pos + 5)
        (operands ++ [toI32 (((byteAt buf (pos + 1) * 256 + byteAt buf (pos + 2)) * 256 +
          byteAt buf (pos + 3)) * 256 + byteAt buf (pos + 4))])
    else if byteAt buf pos = 12 then
      if 0x0c00 + byteAt buf (pos + 1) = op then operands.getD which (-1)
      else dictLoop buf stop op which fuel (pos + 2) []
    else if byteAt buf pos ≤ 21 then
      if byteAt buf pos = op then operands.getD which (-1)
      else dictLoop buf stop op which fuel (pos + 1) []
    else -1

/-- An implementation of the helpers: the INDEX reader `readIndex1` (the empty
INDEX for what it does not read), its size `sizeIndex1`, `data` is `NULL`
for an INDEX of count 0, the DICT lookup `dictLoop`, and charset and FDSelect
readers that answer with an empty Format 0. -/
def demoEnv : CffEnv :=
  { parse_index := fun data pos => (readIndex1 data pos).getD emptyIndex
    count_index := sizeIndex1
    data_null := fun idx => idx.count == 0
    parse_dict_key := fun buf start len op idx =>
      if start < 0 ∨ len < 0 then -1
      else dictLoop buf (start.toNat + len.toNat) op idx (len.toNat + 1) start.toNat []
    parse_charset := fun _ _ _ => CFF_Charset.format0 []
    parse_fdselect := fun _ _ _ => CFF_FDSelect.format0 [] }

/-- A CFF of 31 bytes with `hdrSize = 4`: header `01 00 04 01`; Name INDEX
with the one name `41` at 4; Top DICT INDEX at 10 whose DICT `8D A1 12` is
`Private` with length 2 and offset 22; empty String and Global Subr INDEXes at
18 and 20; the Private DICT `8E 13` (`Subrs` at 3) at 22; a Local Subr INDEX
with the one subroutine `0B` at 25. -/
def demoCff : List Nat :=
  [0x01, 0x00, 0x04, 0x01,
   0x00, 0x01, 0x01, 0x01, 0x02, 0x41,
   0x00, 0x01, 0x01, 0x01, 0x04, 0x8D, 0xA1, 0x12,
   0x00, 0x00,
   0x00, 0x00,
   0x8E, 0x13, 0x00,
   0x00, 0x01, 0x01, 0x01, 0x02, 0x0B]

/-- A CFF of 17 bytes laid out for `hdrSize = 5`: header `01 00 05 01` and a
fifth header byte; an empty Name INDEX at 5; a Top DICT INDEX at 7 with the
one DICT `8B`; empty String and Global Subr INDEXes at 13 and 15. -/
def demoCffHdr5 : List Nat :=
  [0x01, 0x00, 0x05, 0x01, 0xEE,
   0x00, 0x00,
   0x00, 0x01, 0x01, 0x01, 0x02, 0x8B,
   0x00, 0x00,
   0x00, 0x00]

/-! ## Theorems -/

/-- C1: for every 16-bit subroutine count `c`, `compute_subr_bias c` is 107
when `c < 1240`, 1131 when `1240 ≤ c < 33900`, and 32768 otherwise. -/
theorem compute_subr_bias_spec (c : Nat) (hc : c < 65536) :
    (c < 1240 → compute_subr_bias c = 107) ∧
    (1240 ≤ c ∧ c < 33900 → compute_subr_bias c = 1131) ∧
    (33900 ≤ c → compute_subr_bias c = 32768) := by
  have _ := hc
  unfold compute_subr_bias
  refine ⟨fun h => by simp [h], fun h => ?_, fun h => ?_⟩
  · have h1 : ¬ c < 1240 := by omega
    simp [h1, h.2]
  · have h1 : ¬ c < 1240 := by omega
    have h2 : ¬ c < 33900 := by omega
    simp [h1, h2]

/-- C1, instance: the counts 5, 1240, 33899, 33900 and 65535. -/
theorem compute_subr_bias_spec_witness :
    (5 < 65536 ∧ compute_subr_bias 5 = 107) ∧ compute_subr_bias 1240 = 1131 ∧
    compute_subr_bias 33899 = 1131 ∧ compute_subr_bias 33900 = 32768 ∧
    compute_subr_bias 65535 = 32768 :=
  ⟨⟨by decide, (compute_subr_bias_spec 5 (by decide)).1 (by decide)⟩,
   (compute_subr_bias_spec 1240 (by decide)).2.1 (by decide),
   (compute_subr_bias_spec 33899 (by decide)).2.1 (by decide),
   (compute_subr_bias_spec 33900 (by decide)).2.2 (by decide),
   (compute_subr_bias_spec 65535 (by decide)).2.2 (by decide)⟩

/-! ### Subroutine calls -/


theorem truncQ_intCast (k : Int) : truncQ (k : ℚ) = k := by
  simp [truncQ]

theorem toU32_bias (bias : Nat) (k : Int) (i : Nat) (hi : k + bias = i) (h : i < 65536) :
    toU32 ((bias : Int) + (toU32 k : Nat)) = i ∧ toU32 ((bias : Int) + (toU32 k : Nat) + 1) = i + 1 := by
  unfold toU32
  omega

theorem decode_operator_byte (buf : List Nat) (start b : Nat) (h : buf[start]? = some b)
    (hb : b < 32) (h12 : b ≠ 12) (h28 : b ≠ 28) :
    decode_cs2_token buf start = some (1, Token.operator b) := by
  have hb256 : b % 256 = b := Nat.mod_eq_of_lt (by omega)
  simp [decode_cs2_token, rdByte, h, hb256, h12, h28, hb]

theorem execOperator_callsubr (env : Env) (gsubr lsubr : CFF_Index) (buf : List Nat)
    (start advance : Nat) (st : CFF_Stack) (out : List Event) :
    execOperator env gsubr lsubr buf start advance op_callsubr st out =
      exec_call lsubr (compute_subr_bias (lsubr.count % 65536)) st advance := rfl

theorem execOperator_callgsubr (env : Env) (gsubr lsubr : CFF_Index) (buf : List Nat)
    (start advance : Nat) (st : CFF_Stack) (out : List Event) :
    execOperator env gsubr lsubr buf start advance op_callgsubr st out =
      exec_call gsubr (compute_subr_bias (gsubr.count % 65536)) st advance := rfl

theorem exec_call_eq (idx : CFF_Index) (st : CFF_Stack) (advance : Nat) (k : Int) (i o0 o1 : Nat)
    (hdepth : 1 ≤ st.index) (htop : cell st (st.index - 1) = some (k : ℚ))
    (hcount : idx.count < 65536)
    (hi : k + compute_subr_bias idx.count = i) (hin : i < idx.count)
    (h0 : idx.offset[i]? = some o0) (h1 : idx.offset[i + 1]? = some o1)
    (ho0 : 1 ≤ o0) (ho : o0 ≤ o1) (ho1 : o1 < 4294967296) :
    exec_call idx (compute_subr_bias (idx.count % 65536)) st advance =
      some (Step.call idx.data (o0 - 1) (o1 - o0) { st with index := st.index - 1 }) := by
  have hc : idx.count % 65536 = idx.count := Nat.mod_eq_of_lt hcount
  have hb := toU32_bias (compute_subr_bias idx.count) k i hi (by omega)
  have hd : ¬ st.index < 1 := by omega
  have ho0' : o0 ≠ 0 := by omega
  have hlen : toU32 ((o1 : Int) - o0) = o1 - o0 := by unfold toU32; omega
  simp [exec_call, hd, htop, truncQ_intCast, subrBytes, hc, hb.1, hb.2, h0, h1, ho0', hlen]

theorem loop_step_biased_call (env : Env) (gsubr lsubr idx : CFF_Index) (op fuel : Nat)
    (buf : List Nat) (start stop : Nat) (st : CFF_Stack) (out : List Event)
    (k : Int) (i o0 o1 : Nat)
    (hsel : (op = op_callsubr ∧ idx = lsubr) ∨ (op = op_callgsubr ∧ idx = gsubr))
    (hstart : start < stop) (hop : buf[start]? = some op)
    (hdepth : 1 ≤ st.index) (htop : cell st (st.index - 1) = some (k : ℚ))
    (hcount : idx.count < 65536) (hi : k + compute_subr_bias idx.count = i)
    (hin : i < idx.count) (h0 : idx.offset[i]? = some o0) (h1 : idx.offset[i + 1]? = some o1)
    (ho0 : 1 ≤ o0) (ho : o0 ≤ o1) (ho1 : o1 < 4294967296) :
    parse_outline_loop env gsubr lsubr (fuel + 1) buf start stop st out =
      match parse_outline_loop env gsubr lsubr fuel idx.data (o0 - 1) (o1 - 1)
          { st with index := st.index - 1 } out with
      | Outcome.done st2 out2 => parse_outline_loop env gsubr lsubr fuel buf (start + 1) stop st2 out2
      | r => r := by
  have hstop : o0 - 1 + (o1 - o0) = o1 - 1 := by omega
  have hex := exec_call_eq idx st 1 k i o0 o1 hdepth htop hcount hi hin h0 h1 ho0 ho ho1
  rcases hsel with ⟨rfl, rfl⟩ | ⟨rfl, rfl⟩
  · have hdec := decode_operator_byte buf start op_callsubr hop (by decide) (by decide) (by decide)
    rw [parse_outline_loop]
    simp only [hstart, if_true, hdec, execOperator_callsubr, hex, hstop]
  · have hdec := decode_operator_byte buf start op_callgsubr hop (by decide) (by decide) (by decide)
    rw [parse_outline_loop]
    simp only [hstart, if_true, hdec, execOperator_callgsubr, hex, hstop]

/-- C2: in a state of depth at least 1 whose top operand is the integer `k`,
with `i = k + bias(count)` a valid entry of the Local Subr INDEX (Global Subr
INDEX for `callgsubr`, flag `g`), the call operator pops that one operand, runs
the interpreter on the bytes `data[offset[i]-1 .. offset[i+1]-1]` of entry `i`
with the same stack, and then goes on with the token after the operator. -/
theorem callsubr_runs_biased_entry (env : Env) (gsubr lsubr : CFF_Index) (g : Bool)
    (fuel : Nat) (buf : List Nat) (start stop : Nat) (st : CFF_Stack) (out : List Event)
    (k : Int) (i o0 o1 : Nat)
    (hstart : start < stop)
    (hop : buf[start]? = some (if g then op_callgsubr else op_callsubr))
    (hdepth : 1 ≤ st.index) (htop : cell st (st.index - 1) = some (k : ℚ))
    (hcount : (if g then gsubr else lsubr).count < 65536)
    (hi : k + compute_subr_bias (if g then gsubr else lsubr).count = i)
    (hin : i < (if g then gsubr else lsubr).count)
    (h0 : (if g then gsubr else lsubr).offset[i]? = some o0)
    (h1 : (if g then gsubr else lsubr).offset[i + 1]? = some o1)
    (ho0 : 1 ≤ o0) (ho : o0 ≤ o1) (ho1 : o1 < 4294967296) :
    parse_outline_loop env gsubr lsubr (fuel + 1) buf start stop st out =
      match parse_outline_loop env gsubr lsubr fuel (if g then gsubr else lsubr).data
          (o0 - 1) (o1 - 1) { st with index := st.index - 1 } out with
      | Outcome.done st2 out2 => parse_outline_loop env gsubr lsubr fuel buf (start + 1) stop st2 out2
      | r => r := by
  cases g with
  | false =>
    simp only [Bool.false_eq_true, if_false] at *
    exact loop_step_biased_call env gsubr lsubr lsubr op_callsubr fuel buf start stop st out
      k i o0 o1 (Or.inl ⟨rfl, rfl⟩) hstart hop hdepth htop hcount hi hin h0 h1 ho0 ho ho1
  | true =>
    simp only [if_true] at *
    exact loop_step_biased_call env gsubr lsubr gsubr op_callgsubr fuel buf start stop st out
      k i o0 o1 (Or.inr ⟨rfl, rfl⟩) hstart hop hdepth htop hcount hi hin h0 h1 ho0 ho ho1

/-- C2, instance: with count 5 the bias is 107 and `callsubr` on the operand
`-107` runs entry 0, which here emits `newContour` and `lineTo(1, 0)`. -/
theorem callsubr_runs_biased_entry_witness :
    parse_outline_loop nopEnv emptyIndex demoSubrs5 5 [0x0a] 0 1
        { freshStack 4 with stack := [-107, 0, 0, 0], index := 1 } [] =
      Outcome.done { freshStack 4 with stack := [1, 0, 0, 0] }
        [Event.newContour, Event.lineTo 1 0] :=
  (callsubr_runs_biased_entry nopEnv emptyIndex demoSubrs5 false 4 [0x0a] 0 1
    { freshStack 4 with stack := [-107, 0, 0, 0], index := 1 } [] (-107) 0 1 3
    (by decide) (by decide) (by decide) (by decide!) (by decide) (by decide) (by decide)
    (by decide) (by decide) (by decide) (by decide) (by decide)).trans (by decide!)

/-! ### Stack underflow -/

theorem exec_call_underflow (idx : CFF_Index) (bias : Nat) (st : CFF_Stack) (advance : Nat)
    (h : st.index < 1) : exec_call idx bias st advance = some (Step.next st [] advance) := by
  simp [exec_call, h]

theorem exec_binary_underflow (f : ℚ → ℚ → Option ℚ) (st : CFF_Stack) (h : st.index < 2) :
    exec_binary f st = some (st, []) := by
  simp [exec_binary, h, skipOp]

theorem exec_unary_underflow (f : ℚ → ℚ) (st : CFF_Stack) (h : st.index < 1) :
    exec_unary f st = some (st, []) := by
  simp [exec_unary, h, skipOp]

theorem map_next_of_skip (advance : Nat) (st : CFF_Stack)
    (r : Option (CFF_Stack × List Event)) (h : r = some (st, [])) :
    r.map (fun r => Step.next r.1 r.2 advance) = some (Step.next st [] advance) := by
  subst h; rfl

theorem execOperator_underflow (env : Env) (gsubr lsubr : CFF_Index) (buf : List Nat)
    (start advance op : Nat) (st : CFF_Stack) (out : List Event) (n : Nat)
    (harity : (op, n) ∈ checkedOps) (hunder : st.index < n) :
    execOperator env gsubr lsubr buf start advance op st out = some (Step.next st [] advance) := by
  simp only [checkedOps, List.mem_cons, Prod.mk.injEq, List.mem_singleton, List.not_mem_nil,
    or_false] at harity
  rcases harity with ⟨rfl, rfl⟩ | harity
  · exact map_next_of_skip advance st (exec_vmoveto st) (by simp [exec_vmoveto, hunder, skipOp])
  rcases harity with ⟨rfl, rfl⟩ | harity
  · exact map_next_of_skip advance st (exec_rmoveto st) (by simp [exec_rmoveto, hunder, skipOp])
  rcases harity with ⟨rfl, rfl⟩ | harity
  · exact map_next_of_skip advance st (exec_hmoveto st) (by simp [exec_hmoveto, hunder, skipOp])
  rcases harity with ⟨rfl, rfl⟩ | harity
  · exact map_next_of_skip advance st (exec_hflex st) (by simp [exec_hflex, hunder, skipOp])
  rcases harity with ⟨rfl, rfl⟩ | harity
  · exact map_next_of_skip advance st (exec_flex st) (by simp [exec_flex, hunder, skipOp])
  rcases harity with ⟨rfl, rfl⟩ | harity
  · exact map_next_of_skip advance st (exec_hflex1 st) (by simp [exec_hflex1, hunder, skipOp])
  rcases harity with ⟨rfl, rfl⟩ | harity
  · exact map_next_of_skip advance st (exec_flex1 st) (by simp [exec_flex1, hunder, skipOp])
  rcases harity with ⟨rfl, rfl⟩ | harity
  · exact map_next_of_skip advance st _ (exec_binary_underflow _ st hunder)
  rcases harity with ⟨rfl, rfl⟩ | harity
  · exact map_next_of_skip advance st _ (exec_binary_underflow _ st hunder)
  rcases harity with ⟨rfl, rfl⟩ | harity
  · exact map_next_of_skip advance st _ (exec_unary_underflow _ st hunder)
  rcases harity with ⟨rfl, rfl⟩ | harity
  · exact map_next_of_skip advance st _ (exec_unary_underflow _ st hunder)
  rcases harity with ⟨rfl, rfl⟩ | harity
  · exact map_next_of_skip advance st _ (exec_binary_underflow _ st hunder)
  rcases harity with ⟨rfl, rfl⟩ | harity
  · exact map_next_of_skip advance st _ (exec_binary_underflow _ st hunder)
  rcases harity with ⟨rfl, rfl⟩ | harity
  · exact map_next_of_skip advance st _ (exec_binary_underflow _ st hunder)
  rcases harity with ⟨rfl, rfl⟩ | harity
  · exact map_next_of_skip advance st _ (exec_unary_underflow _ st hunder)
  rcases harity with ⟨rfl, rfl⟩ | harity
  · exact map_next_of_skip advance st _ (exec_binary_underflow _ st hunder)
  rcases harity with ⟨rfl, rfl⟩ | harity
  · exact map_next_of_skip advance st (exec_drop st) (by simp [exec_drop, hunder, skipOp])
  rcases harity with ⟨rfl, rfl⟩ | harity
  · exact map_next_of_skip advance st (exec_put st) (by simp [exec_put, hunder, skipOp])
  rcases harity with ⟨rfl, rfl⟩ | harity
  · exact map_next_of_skip advance st (exec_get st) (by simp [exec_get, hunder, skipOp])
  rcases harity with ⟨rfl, rfl⟩ | harity
  · exact map_next_of_skip advance st (exec_ifelse st) (by simp [exec_ifelse, hunder, skipOp])
  rcases harity with ⟨rfl, rfl⟩ | harity
  · exact map_next_of_skip advance st _ (exec_binary_underflow _ st hunder)
  rcases harity with ⟨rfl, rfl⟩ | harity
  · exact map_next_of_skip advance st _ (exec_unary_underflow _ st hunder)
  rcases harity with ⟨rfl, rfl⟩ | harity
  · exact map_next_of_skip advance st (exec_dup st) (by simp [exec_dup, hunder, skipOp])
  rcases harity with ⟨rfl, rfl⟩ | harity
  · exact map_next_of_skip advance st (exec_exch st) (by simp [exec_exch, hunder, skipOp])
  rcases harity with ⟨rfl, rfl⟩ | harity
  · exact map_next_of_skip advance st (exec_index st) (by simp [exec_index, hunder, skipOp])
  rcases harity with ⟨rfl, rfl⟩ | harity
  · exact map_next_of_skip advance st (exec_roll st) (by simp [exec_roll, hunder, skipOp])
  rcases harity with ⟨rfl, rfl⟩ | harity
  · exact exec_call_underflow _ _ st advance hunder
  obtain ⟨rfl, rfl⟩ := harity
  exact exec_call_underflow _ _ st advance hunder

theorem execOperator_roll_underflow (env : Env) (gsubr lsubr : CFF_Index) (buf : List Nat)
    (start advance : Nat) (st : CFF_Stack) (out : List Event) (dj dn : ℚ)
    (hj : cell st (st.index - 1) = some dj) (hn : cell st (st.index - 2) = some dn)
    (hunder : (st.index : Int) < 2 + toInt32 dn) :
    execOperator env gsubr lsubr buf start advance op_roll st out =
      some (Step.next st [] advance) := by
  refine map_next_of_skip advance st (exec_roll st) ?_
  unfold exec_roll
  by_cases h2 : st.index < 2
  · simp [h2, skipOp]
  · simp [h2, hj, hn, hunder, skipOp]

theorem loop_step_next (env : Env) (gsubr lsubr : CFF_Index) (fuel : Nat) (buf : List Nat)
    (start stop advance adv op : Nat) (st st1 : CFF_Stack) (out ev : List Event)
    (hstart : start < stop)
    (hdec : decode_cs2_token buf start = some (advance, Token.operator op))
    (hex : execOperator env gsubr lsubr buf start advance op st out = some (Step.next st1 ev adv)) :
    parse_outline_loop env gsubr lsubr (fuel + 1) buf start stop st out =
      parse_outline_loop env gsubr lsubr fuel buf (start + adv) stop st1 (out ++ ev) := by
  rw [parse_outline_loop]
  simp only [hstart, if_true, hdec, hex]

/-- C5: when a depth-checked operator (`checkedOps`) is decoded in a state
whose depth is below the depth of its `CHECK_STACK_TOP`, and also when `roll`
finds fewer than `2 + n` operands, the operator sends nothing to the builder,
leaves the whole VM state (operand cells, depth, transient cells, stem
counter) as it was, and the loop goes on with the token after the operator. -/
theorem underflow_skips_operator (env : Env) (gsubr lsubr : CFF_Index) (fuel : Nat)
    (buf : List Nat) (start stop advance op : Nat) (st : CFF_Stack) (out : List Event)
    (hstart : start < stop)
    (hdec : decode_cs2_token buf start = some (advance, Token.operator op))
    (hunder : (∃ n, (op, n) ∈ checkedOps ∧ st.index < n) ∨
      (op = op_roll ∧ ∃ dj dn, cell st (st.index - 1) = some dj ∧
        cell st (st.index - 2) = some dn ∧ (st.index : Int) < 2 + toInt32 dn)) :
    execOperator env gsubr lsubr buf start advance op st out = some (Step.next st [] advance) ∧
    parse_outline_loop env gsubr lsubr (fuel + 1) buf start stop st out =
      parse_outline_loop env gsubr lsubr fuel buf (start + advance) stop st out := by
  have hex : execOperator env gsubr lsubr buf start advance op st out =
      some (Step.next st [] advance) := by
    rcases hunder with ⟨n, hn, hlt⟩ | ⟨rfl, dj, dn, hj, hn, hlt⟩
    · exact execOperator_underflow env gsubr lsubr buf start advance op st out n hn hlt
    · exact execOperator_roll_underflow env gsubr lsubr buf start advance st out dj dn hj hn hlt
  refine ⟨hex, ?_⟩
  have h := loop_step_next env gsubr lsubr fuel buf start stop advance advance op st st out []
    hstart hdec hex
  simpa using h

/-- C5, instance: `add` (bytes `0C 0A`) on a stack of depth 1 is skipped and
the program ends with the state it started in. -/
theorem underflow_skips_operator_witness :
    execOperator nopEnv emptyIndex emptyIndex [12, 10] 0 2 op_add
        { freshStack 4 with index := 1 } [] =
      some (Step.next { freshStack 4 with index := 1 } [] 2) ∧
    parse_outline_loop nopEnv emptyIndex emptyIndex 2 [12, 10] 0 2
        { freshStack 4 with index := 1 } [] =
      parse_outline_loop nopEnv emptyIndex emptyIndex 1 [12, 10] (0 + 2) 2
        { freshStack 4 with index := 1 } [] :=
  underflow_skips_operator nopEnv emptyIndex emptyIndex 1 [12, 10] 0 2 2 op_add
    { freshStack 4 with index := 1 } [] (by decide) (by decide)
    (Or.inl ⟨2, by decide, by decide⟩)

/-! ### The moveto operators -/

theorem cell_eq_operandAt (st : CFF_Stack) (i : Nat) (h : i < st.stack.length) :
    cell st i = some (operandAt st i) := by
  simp [cell, operandAt, List.getElem?_eq_getElem h]

theorem toFloat_eq (q : ℚ) (h : inFloatRange q = true) : toFloat q = some (roundFloat q) := by
  simp [toFloat, h]

theorem toDouble_eq (q : ℚ) (h : inDoubleRange q = true) :
    toDouble q = some (roundDouble q) := by
  simp [toDouble, h]

theorem floatCell_eq (st : CFF_Stack) (i : Nat) (h : i < st.stack.length)
    (hr : inFloatRange (operandAt st i) = true) : floatCell st i = some (floatAt st i) := by
  simp [floatCell, cell_eq_operandAt st i h, toFloat_eq _ hr, floatAt]

theorem floatOperands_get (st : CFF_Stack) (h : floatOperands st = true) (i : Nat)
    (hi : i < st.index) : inFloatRange (operandAt st i) = true := by
  unfold floatOperands at h
  rw [List.all_eq_true] at h
  exact h i (List.mem_range.mpr hi)

theorem widthIf_eq (st : CFF_Stack) (c : Bool) (i : Nat) (h : i < st.stack.length)
    (hr : inFloatRange (operandAt st i) = true) :
    widthIf st c i = some (if c then [Event.setWidth (floatAt st i)] else []) := by
  cases c <;> simp [widthIf, floatCell_eq st i h hr]

/-- C8, as the code has it: on a stack of depth `n ≥ 1` (inside the cell array,
the operands within the range of `float`) `hmoveto` sends `setWidth(stack[n-2])`
exactly when `n > 1`, then `newContour`, then `lineTo(stack[n-1], 0)`, and
leaves depth 0; `vmoveto` does the same with `lineTo(0, stack[n-1])`; for
`n ≥ 2`, `rmoveto` sends `setWidth(stack[n-3])` exactly when `n > 2`, then
`newContour`, then `lineTo(stack[n-2], stack[n-1])`, and leaves depth 0.  Every
operand arrives converted to `float` (`floatAt`), the type of the parameters.
Nothing else of the state changes and `advance` is kept. -/
theorem moveto_events (env : Env) (gsubr lsubr : CFF_Index) (buf : List Nat)
    (start advance : Nat) (st : CFF_Stack) (out : List Event)
    (hn : 1 ≤ st.index) (hcap : st.index ≤ st.stack.length)
    (hr : floatOperands st = true) :
    execOperator env gsubr lsubr buf start advance op_hmoveto st out =
      some (Step.next { st with index := 0 }
        ((if st.index > 1 then [Event.setWidth (floatAt st (st.index - 2))] else []) ++
          [Event.newContour, Event.lineTo (floatAt st (st.index - 1)) 0]) advance) ∧
    execOperator env gsubr lsubr buf start advance op_vmoveto st out =
      some (Step.next { st with index := 0 }
        ((if st.index > 1 then [Event.setWidth (floatAt st (st.index - 2))] else []) ++
          [Event.newContour, Event.lineTo 0 (floatAt st (st.index - 1))]) advance) ∧
    (2 ≤ st.index →
      execOperator env gsubr lsubr buf start advance op_rmoveto st out =
        some (Step.next { st with index := 0 }
          ((if st.index > 2 then [Event.setWidth (floatAt st (st.index - 3))] else []) ++
            [Event.newContour,
              Event.lineTo (floatAt st (st.index - 2)) (floatAt st (st.index - 1))])
          advance)) := by
  have h1 : ¬ st.index < 1 := by omega
  have hrg := floatOperands_get st hr
  have c1 := floatCell_eq st (st.index - 1) (by omega) (hrg _ (by omega))
  refine ⟨?_, ?_, fun h2 => ?_⟩
  · have e : execOperator env gsubr lsubr buf start advance op_hmoveto st out =
        (exec_hmoveto st).map (fun r => Step.next r.1 r.2 advance) := rfl
    rw [e]
    by_cases hw : st.index > 1
    · have w := widthIf_eq st true (st.index - 2) (by omega) (hrg _ (by omega))
      simp [exec_hmoveto, h1, w, c1, hw]
    · simp [exec_hmoveto, h1, widthIf, c1, hw]
  · have e : execOperator env gsubr lsubr buf start advance op_vmoveto st out =
        (exec_vmoveto st).map (fun r => Step.next r.1 r.2 advance) := rfl
    rw [e]
    by_cases hw : st.index > 1
    · have w := widthIf_eq st true (st.index - 2) (by omega) (hrg _ (by omega))
      simp [exec_vmoveto, h1, w, c1, hw]
    · simp [exec_vmoveto, h1, widthIf, c1, hw]
  · have e : execOperator env gsubr lsubr buf start advance op_rmoveto st out =
        (exec_rmoveto st).map (fun r => Step.next r.1 r.2 advance) := rfl
    rw [e]
    have h2' : ¬ st.index < 2 := by omega
    have c2 := floatCell_eq st (st.index - 2) (by omega) (hrg _ (by omega))
    by_cases hw : st.index > 2
    · have w := widthIf_eq st true (st.index - 3) (by omega) (hrg _ (by omega))
      simp [exec_rmoveto, h2', w, c1, c2, hw]
    · simp [exec_rmoveto, h2', widthIf, c1, c2, hw]

/-- C8, instance: depth 3 with the operands 7, 10 and 2147483647/65536, the
last of which is not a `float` and arrives as 32768. -/
theorem moveto_events_witness :
    execOperator nopEnv emptyIndex emptyIndex [] 0 1 op_hmoveto
        { freshStack 4 with stack := [7, 10, 2147483647 / 65536, 0], index := 3 } [] =
      some (Step.next { freshStack 4 with stack := [7, 10, 2147483647 / 65536, 0] }
        [Event.setWidth 10, Event.newContour, Event.lineTo 32768 0] 1) ∧
    execOperator nopEnv emptyIndex emptyIndex [] 0 1 op_vmoveto
        { freshStack 4 with stack := [7, 10, 2147483647 / 65536, 0], index := 3 } [] =
      some (Step.next { freshStack 4 with stack := [7, 10, 2147483647 / 65536, 0] }
        [Event.setWidth 10, Event.newContour, Event.lineTo 0 32768] 1) ∧
    execOperator nopEnv emptyIndex emptyIndex [] 0 1 op_rmoveto
        { freshStack 4 with stack := [7, 10, 2147483647 / 65536, 0], index := 3 } [] =
      some (Step.next { freshStack 4 with stack := [7, 10, 2147483647 / 65536, 0] }
        [Event.setWidth 7, Event.newContour, Event.lineTo 10 32768] 1) :=
  have h := moveto_events nopEnv emptyIndex emptyIndex [] 0 1
    { freshStack 4 with stack := [7, 10, 2147483647 / 65536, 0], index := 3 } []
    (by decide) (by decide) (by decide!)
  ⟨h.1.trans (by decide!), h.2.1.trans (by decide!), (h.2.2 (by decide)).trans (by decide!)⟩

/-- C8 fails as stated: the program `FF 7F FF FF FF 8B 15` pushes the 16.16
operand 2147483647/65536 and 0 and runs `rmoveto`; the stack holds
2147483647/65536, and `lineTo` receives 32768, the nearest `float`, not the
operand. -/
theorem moveto_argument_is_rounded :
    parse_outline_callback nopEnv 4 [0xFF, 0x7F, 0xFF, 0xFF, 0xFF, 0x8B, 0x15] 0 7
        emptyIndex emptyIndex (freshStack 4) [] =
      Outcome.done { freshStack 4 with stack := [2147483647 / 65536, 0, 0, 0] }
        [Event.newContour, Event.lineTo 32768 0] := by
  decide!

/-! ### `endchar` -/

/-- C6, as the code has it: `endchar` sends `setWidth(stack[index-1])`, the
operand converted to `float`, when the stack is not empty (the operand inside
the cell array and within the range of `float`), changes nothing of the VM
state (the operands stay on the stack) and does not end the program: the loop
goes on with the token after `endchar`. -/
theorem endchar_continues (env : Env) (gsubr lsubr : CFF_Index) (fuel : Nat)
    (buf : List Nat) (start stop : Nat) (st : CFF_Stack) (out : List Event)
    (hstart : start < stop) (hop : buf[start]? = some op_endchar)
    (hcap : st.index ≤ st.stack.length)
    (hr : st.index > 0 → inFloatRange (operandAt st (st.index - 1)) = true) :
    parse_outline_loop env gsubr lsubr (fuel + 1) buf start stop st out =
      parse_outline_loop env gsubr lsubr fuel buf (start + 1) stop st
        (out ++ if st.index > 0 then [Event.setWidth (floatAt st (st.index - 1))] else []) := by
  have hdec := decode_operator_byte buf start op_endchar hop (by decide) (by decide) (by decide)
  refine loop_step_next env gsubr lsubr fuel buf start stop 1 1 op_endchar st st out _
    hstart hdec ?_
  have e : execOperator env gsubr lsubr buf start 1 op_endchar st out =
      (exec_endchar st).map (fun r => Step.next r.1 r.2 1) := rfl
  rw [e]
  by_cases hw : st.index > 0
  · have w := widthIf_eq st true (st.index - 1) (by omega) (hr hw)
    simp [exec_endchar, w, hw]
  · simp [exec_endchar, widthIf, hw]

/-- C6, instance: after `endchar` on the stack `[19680461/65536]`, whose width
arrives as the `float` 4920115/16384, the tokens `8C 16` (push 1, `hmoveto`) are
still interpreted. -/
theorem endchar_continues_witness :
    parse_outline_loop nopEnv emptyIndex emptyIndex 4 [0x0e, 0x8c, 0x16] 0 3
        { freshStack 4 with stack := [19680461 / 65536, 0, 0, 0], index := 1 } [] =
      Outcome.done { freshStack 4 with stack := [19680461 / 65536, 1, 0, 0] }
        [Event.setWidth (4920115 / 16384), Event.setWidth (4920115 / 16384), Event.newContour,
          Event.lineTo 1 0] :=
  (endchar_continues nopEnv emptyIndex emptyIndex 3 [0x0e, 0x8c, 0x16] 0 3
    { freshStack 4 with stack := [19680461 / 65536, 0, 0, 0], index := 1 } [] (by decide)
    (by decide) (by decide) (fun _ => by decide!)).trans (by decide!)

/-- C6 fails as stated: in the program `0E 8C 16` the tokens after `endchar`
are interpreted and send `newContour` and `lineTo(1, 0)`; and when `endchar`
is executed inside a subroutine (program `20 0A 8C 16`, entry 0 = `0E`), the
caller goes on after the call in the same way. -/
theorem endchar_does_not_terminate :
    parse_outline_callback nopEnv 4 [0x0e, 0x8c, 0x16] 0 3 emptyIndex emptyIndex
        (freshStack 48) [] =
      Outcome.done { freshStack 48 with stack := 1 :: List.replicate 47 0 }
        [Event.newContour, Event.lineTo 1 0] ∧
    parse_outline_callback nopEnv 5 [0x20, 0x0a, 0x8c, 0x16] 0 4 emptyIndex demoSubrEndchar
        (freshStack 48) [] =
      Outcome.done { freshStack 48 with stack := 1 :: List.replicate 47 0 }
        [Event.newContour, Event.lineTo 1 0] := by
  constructor <;> decide!

/-! ### The scenario `F7 56 F7 78 15` -/

/-- C7 fails as stated: with the operator numbering of Technical Note 5177 the
byte `15` is `rmoveto`, so `F7 56 F7 78 15` on a fresh state sends `newContour`
and `lineTo(194, 228)`, and no `setWidth`. -/
theorem scenario_F7_56_F7_78_15 :
    parse_outline_callback nopEnv 4 [0xF7, 0x56, 0xF7, 0x78, 0x15] 0 5 emptyIndex emptyIndex
        (freshStack 48) [] =
      Outcome.done { freshStack 48 with stack := 194 :: 228 :: List.replicate 46 0 }
        [Event.newContour, Event.lineTo 194 228] := by
  decide!

/-- C7, amended: the program `F7 56 F7 78 16` (two operands, then `hmoveto` =
`16`) on a fresh state sends `setWidth(194)`, `newContour`, `lineTo(228, 0)` in
that order, 194 and 228 being the first and second decoded operands, and
leaves depth 0. -/
theorem scenario_F7_56_F7_78_16 :
    decode_cs2_token [0xF7, 0x56, 0xF7, 0x78, 0x16] 0 = some (2, Token.operand 194) ∧
    decode_cs2_token [0xF7, 0x56, 0xF7, 0x78, 0x16] 2 = some (2, Token.operand 228) ∧
    decode_cs2_token [0xF7, 0x56, 0xF7, 0x78, 0x16] 4 = some (1, Token.operator op_hmoveto) ∧
    parse_outline_callback nopEnv 4 [0xF7, 0x56, 0xF7, 0x78, 0x16] 0 5 emptyIndex emptyIndex
        (freshStack 48) [] =
      Outcome.done { freshStack 48 with stack := 194 :: 228 :: List.replicate 46 0 }
        [Event.setWidth 194, Event.newContour, Event.lineTo 228 0] := by
  refine ⟨by decide!, by decide!, by decide!, by decide!⟩

/-! ### Operand pushes -/

theorem decode_operand_byte (buf : List Nat) (start b : Nat) (h : buf[start]? = some b)
    (h32 : 32 ≤ b) (h246 : b ≤ 246) :
    decode_cs2_token buf start = some (1, Token.operand ((b : ℚ) - 139)) := by
  have hb256 : b % 256 = b := Nat.mod_eq_of_lt (by omega)
  have h12 : b ≠ 12 := by omega
  have h28 : b ≠ 28 := by omega
  have hlt : ¬ b < 32 := by omega
  simp [decode_cs2_token, rdByte, h, hb256, h12, h28, hlt, h246]

theorem pushOperand_eq (st : CFF_Stack) (d : ℚ) (h : st.index < st.stack.length) :
    pushOperand st d =
      some { st with stack := st.stack.set st.index d, index := st.index + 1 } := by
  simp [pushOperand, setCell, h]

theorem loop_step_operand (env : Env) (gsubr lsubr : CFF_Index) (fuel : Nat) (buf : List Nat)
    (start stop advance : Nat) (st : CFF_Stack) (out : List Event) (d : ℚ)
    (hstart : start < stop)
    (hdec : decode_cs2_token buf start = some (advance, Token.operand d))
    (hroom : st.index < st.stack.length) :
    parse_outline_loop env gsubr lsubr (fuel + 1) buf start stop st out =
      parse_outline_loop env gsubr lsubr fuel buf (start + advance) stop
        { st with stack := st.stack.set st.index d, index := st.index + 1 } out := by
  rw [parse_outline_loop]
  simp only [hstart, if_true, hdec, pushOperand_eq st d hroom]

theorem push_run (env : Env) (gsubr lsubr : CFF_Index) (rest : List Nat) :
    ∀ (pre : List Nat) (st : CFF_Stack) (out : List Event),
      (∀ b ∈ rest, 32 ≤ b ∧ b ≤ 246) → st.index + rest.length ≤ st.stack.length →
      parse_outline_loop env gsubr lsubr (rest.length + 1) (pre ++ rest) pre.length
          (pre.length + rest.length) st out =
        Outcome.done
          { st with
            stack := st.stack.take st.index ++ rest.map (fun (b : Nat) => (b : ℚ) - 139) ++
              st.stack.drop (st.index + rest.length),
            index := st.index + rest.length } out := by
  induction rest with
  | nil =>
    intro pre st out _ _
    rw [parse_outline_loop]
    simp
  | cons b rest ih =>
    intro pre st out hb hcap
    have hb0 := hb b (List.mem_cons_self b rest)
    have hlen : st.index < st.stack.length := by simp at hcap; omega
    have hget : (pre ++ b :: rest)[pre.length]? = some b := by
      rw [List.getElem?_append_right (Nat.le_refl _)]; simp
    have hdec := decode_operand_byte (pre ++ b :: rest) pre.length b hget hb0.1 hb0.2
    have hstep := loop_step_operand env gsubr lsubr (rest.length + 1) (pre ++ b :: rest)
      pre.length (pre.length + (b :: rest).length) 1 st out _ (by simp) hdec hlen
    have hih := ih (pre ++ [b])
      ⟨st.stack.set st.index ((b : ℚ) - 139), st.transient, st.index + 1, st.stem⟩ out
      (fun c hc => hb c (List.mem_cons_of_mem b hc)) (by simp at hcap ⊢; omega)
    have e1 : pre ++ b :: rest = (pre ++ [b]) ++ rest := by simp
    have e2 : pre.length + 1 = (pre ++ [b]).length := by simp
    have e3 : (pre ++ [b]).length + rest.length = pre.length + (rest.length + 1) := by
      simp; omega
    rw [e3, ← e1, ← e2] at hih
    simp only [List.length_cons] at hstep ⊢
    rw [hstep, hih]
    have t1 : (st.stack.set st.index ((b : ℚ) - 139)).take (st.index + 1) =
        st.stack.take st.index ++ [(b : ℚ) - 139] := by
      have t0 : (st.stack.set st.index ((b : ℚ) - 139)).take st.index =
          st.stack.take st.index := by
        rw [List.set_take]
        exact List.set_eq_of_length_le (by simp)
      rw [List.take_succ, t0]
      simp [hlen]
    have t2 : (st.stack.set st.index ((b : ℚ) - 139)).drop (st.index + 1 + rest.length) =
        st.stack.drop (st.index + (rest.length + 1)) := by
      rw [List.drop_set_of_lt _ _ (by omega)]
      congr 1; omega
    simp only [t1, t2, List.map_cons, List.append_assoc, List.singleton_append, List.length_cons]
    congr 2
    omega

/-- C4, as the code has it: the push of an operand is not guarded by any depth
check.  A program of `n` one-byte operand tokens (bytes 32..246), started on
an empty stack whose cell array has room for them, ends with depth `n`, the
operands `b - 139` in the first `n` cells, whatever `n` is. -/
theorem operands_pushed_at_any_depth (env : Env) (gsubr lsubr : CFF_Index) (bytes : List Nat)
    (cap : Nat) (hbytes : ∀ b ∈ bytes, 32 ≤ b ∧ b ≤ 246) (hcap : bytes.length ≤ cap) :
    parse_outline_callback env (bytes.length + 1) bytes 0 bytes.length gsubr lsubr
        (freshStack cap) [] =
      Outcome.done
        { freshStack cap with
          stack := bytes.map (fun (b : Nat) => (b : ℚ) - 139) ++ List.replicate (cap - bytes.length) 0,
          index := bytes.length } [] := by
  have h := push_run env gsubr lsubr bytes [] (freshStack cap) []  hbytes
    (by simp [freshStack]; exact hcap)
  simp only [List.nil_append, List.length_nil, Nat.zero_add] at h
  unfold parse_outline_callback
  rw [Nat.zero_add, h]
  simp [freshStack]

/-- C4 fails as stated: 49 operand tokens `8C` on a fresh state with a cell
array of 256 cells end with depth 49, the 49th operand stored in cell 48. -/
theorem forty_nine_operands_pushed :
    parse_outline_callback nopEnv 50 (List.replicate 49 0x8c) 0 49 emptyIndex emptyIndex
        (freshStack 256) [] =
      Outcome.done
        { freshStack 256 with
          stack := List.replicate 49 1 ++ List.replicate 207 0,
          index := 49 } [] := by
  decide!

/-- C4, instance: the 49 operand tokens `8C` on a cell array of 256 cells. -/
theorem operands_pushed_at_any_depth_witness :
    parse_outline_callback nopEnv ((List.replicate 49 0x8c).length + 1) (List.replicate 49 0x8c)
        0 (List.replicate 49 0x8c).length emptyIndex emptyIndex (freshStack 256) [] =
      Outcome.done
        { freshStack 256 with
          stack := (List.replicate 49 0x8c).map (fun (b : Nat) => (b : ℚ) - 139) ++
            List.replicate (256 - (List.replicate 49 0x8c).length) 0,
          index := (List.replicate 49 0x8c).length } [] :=
  operands_pushed_at_any_depth nopEnv emptyIndex emptyIndex (List.replicate 49 0x8c) 256
    (by decide) (by decide)

/-! ### Nesting of subroutine calls and termination -/

theorem decode_advance_pos (buf : List Nat) (start advance : Nat) (tok : Token)
    (h : decode_cs2_token buf start = some (advance, tok)) : 1 ≤ advance := by
  unfold decode_cs2_token at h
  revert h
  cases rdByte buf start with
  | none => simp
  | some b0 =>
    simp only
    split_ifs
    · cases rdByte buf (start + 1) <;> simp
      omega
    · cases rdByte buf (start + 1) <;> cases rdByte buf (start + 2) <;> simp
      omega
    · simp; omega
    · simp; omega
    · cases rdByte buf (start + 1) <;> simp
      omega
    · cases rdByte buf (start + 1) <;> simp
      omega
    · cases rdByte buf (start + 1) <;> cases rdByte buf (start + 2) <;>
        cases rdByte buf (start + 3) <;> cases rdByte buf (start + 4) <;> simp
      omega

theorem decode_operator_callFree (buf : List Nat) (start advance op : Nat)
    (hfree : callFree buf)
    (h : decode_cs2_token buf start = some (advance, Token.operator op)) :
    op ≠ op_callsubr ∧ op ≠ op_callgsubr := by
  unfold decode_cs2_token rdByte at h
  revert h
  cases hb : buf[start]? with
  | none => simp
  | some b =>
    have hmem : b ∈ buf := List.getElem?_mem hb
    have hb' := hfree b hmem
    simp only [Option.map_some']
    split_ifs
    · cases buf[start + 1]? <;> simp [op_callsubr, op_callgsubr]
      omega
    · cases buf[start + 1]? <;> cases buf[start + 2]? <;> simp
    · simp only [Option.some.injEq, Prod.mk.injEq, Token.operator.injEq, and_imp]
      intro _ h2
      subst h2
      exact hb'
    · simp
    · cases buf[start + 1]? <;> simp
    · cases buf[start + 1]? <;> simp
    · cases buf[start + 1]? <;> cases buf[start + 2]? <;>
        cases buf[start + 3]? <;> cases buf[start + 4]? <;> simp

theorem execOperator_no_call (env : Env) (gsubr lsubr : CFF_Index) (buf : List Nat)
    (start advance op : Nat) (st : CFF_Stack) (out : List Event) (s : Step)
    (h1 : op ≠ op_callsubr) (h2 : op ≠ op_callgsubr)
    (h : execOperator env gsubr lsubr buf start advance op st out = some s) :
    s = Step.ret ∨ ∃ st1 ev adv, s = Step.next st1 ev adv ∧ advance ≤ adv := by
  unfold execOperator at h
  split_ifs at h
  · cases hm : exec_mask op buf (start + advance) st with
    | none => simp [hm] at h
    | some r =>
      simp [hm] at h
      exact Or.inr ⟨r.1, r.2.1, advance + r.2.2, h.symm, by omega⟩
  · simp at h
    exact Or.inl h.symm
  · cases hm : execPlain env op st out with
    | none => simp [hm] at h
    | some r =>
      simp [hm] at h
      exact Or.inr ⟨r.1, r.2, advance, h.symm, by omega⟩

/-- C3, as the code has it: no nesting bound is enforced, and what ensures
termination is the absence of calls.  On a buffer none of whose bytes is a call
operator (`0A`, `1D`) the loop over `buf[start .. stop]` ends, with `done` or
`fault`, within `stop - start` tokens. -/
theorem execute_terminates_without_calls (env : Env) (gsubr lsubr : CFF_Index) (fuel : Nat)
    (buf : List Nat) (start stop : Nat) (st : CFF_Stack) (out : List Event)
    (hfree : callFree buf) (hfuel : stop - start < fuel) :
    parse_outline_loop env gsubr lsubr fuel buf start stop st out ≠ Outcome.outOfFuel := by
  induction fuel generalizing start st out with
  | zero => omega
  | succ fuel ih =>
    rw [parse_outline_loop]
    by_cases hs : start < stop
    · simp only [hs, if_true]
      cases hd : decode_cs2_token buf start with
      | none => simp
      | some p =>
        obtain ⟨advance, tok⟩ := p
        have hadv := decode_advance_pos buf start advance tok hd
        cases tok with
        | operator op =>
          have hop := decode_operator_callFree buf start advance op hfree hd
          cases hx : execOperator env gsubr lsubr buf start advance op st out with
          | none => simp [hx]
          | some s =>
            rcases execOperator_no_call env gsubr lsubr buf start advance op st out s
              hop.1 hop.2 hx with rfl | ⟨st1, ev, adv, rfl, hle⟩
            · simp [hx]
            · simp only [hx]
              exact ih (start + adv) st1 (out ++ ev) (by omega)
        | operand d =>
          cases hp : pushOperand st d with
          | none => simp [hp]
          | some st1 =>
            simp only [hp]
            exact ih (start + advance) st1 out (by omega)
        | fraction d =>
          cases hp : pushOperand st d with
          | none => simp [hp]
          | some st1 =>
            simp only [hp]
            exact ih (start + advance) st1 out (by omega)
    · simp [hs]

/-- C3, instance: the call-free program `F7 56 F7 78 16`. -/
theorem execute_terminates_without_calls_witness :
    parse_outline_loop nopEnv emptyIndex emptyIndex 6 [0xF7, 0x56, 0xF7, 0x78, 0x16] 0 5
      (freshStack 48) [] ≠ Outcome.outOfFuel :=
  execute_terminates_without_calls nopEnv emptyIndex emptyIndex 6
    [0xF7, 0x56, 0xF7, 0x78, 0x16] 0 5 (freshStack 48) [] (by unfold callFree; decide)
    (by decide)

theorem self_call_runs_out (fuel : Nat) :
    ∀ (st : CFF_Stack) (out : List Event), st.index < st.stack.length →
      parse_outline_loop nopEnv emptyIndex demoSubrSelf fuel [0x20, 0x0a] 0 2 st out =
        Outcome.outOfFuel := by
  induction fuel using Nat.strong_induction_on with
  | _ fuel ih =>
    intro st out hlen
    match fuel with
    | 0 => rfl
    | 1 =>
      rw [loop_step_operand nopEnv emptyIndex demoSubrSelf 0 [0x20, 0x0a] 0 2 1 st out
        (-107) (by decide) (by decide!) hlen]
      rfl
    | fuel + 2 =>
      rw [loop_step_operand nopEnv emptyIndex demoSubrSelf (fuel + 1) [0x20, 0x0a] 0 2 1 st out
        (-107) (by decide) (by decide!) hlen]
      have hcall := loop_step_biased_call nopEnv emptyIndex demoSubrSelf demoSubrSelf
        op_callsubr fuel [0x20, 0x0a] (0 + 1) 2
        ⟨st.stack.set st.index (-107), st.transient, st.index + 1, st.stem⟩ out (-107) 0 1 3
        (Or.inl ⟨rfl, rfl⟩) (by decide) (by decide) (by simp) (by simp [cell, hlen])
        (by decide) (by decide) (by decide) (by decide) (by decide) (by decide) (by decide)
        (by decide)
      rw [hcall]
      have hrec := ih fuel (by omega)
        ⟨st.stack.set st.index (-107), st.transient, st.index + 1 - 1, st.stem⟩ out
        (by simpa using hlen)
      have hd : demoSubrSelf.data = [0x20, 0x0a] := rfl
      rw [hd, hrec]

/-- C3 fails as stated: the program `20 0A` on `demoSubrChain` nests eleven
calls and the entry reached by the eleventh is executed (it sends
`newContour`, `lineTo(1, 0)`), no failure being raised; and on `demoSubrSelf`,
whose only entry calls itself, no amount of fuel lets the run return. -/
theorem nesting_not_bounded :
    parse_outline_callback nopEnv 40 [0x20, 0x0a] 0 2 emptyIndex demoSubrChain
        (freshStack 48) [] =
      Outcome.done { freshStack 48 with stack := 1 :: List.replicate 47 0 }
        [Event.newContour, Event.lineTo 1 0] ∧
    ¬ ∃ fuel st out,
        parse_outline_callback nopEnv fuel [0x20, 0x0a] 0 2 emptyIndex demoSubrSelf
          (freshStack 48) [] = Outcome.done st out := by
  refine ⟨by decide!, ?_⟩
  rintro ⟨fuel, st, out, h⟩
  have hrun := self_call_runs_out fuel (freshStack 48) [] (by decide)
  unfold parse_outline_callback at h
  rw [hrun] at h
  exact Outcome.noConfusion h

/-! ### The stem operators -/

theorem stemRange_get (st : CFF_Stack) (h : stemRange st = true) (i : Nat)
    (hi : i < st.index / 2) :
    inFloatRange (pairPos st i + hintBaseSpec (pairPos st) (pairWidth st) i) = true ∧
    inFloatRange (pairPos st i + pairWidth st i) = true ∧
    inFloatRange (hintBaseSpec (pairPos st) (pairWidth st) i +
      roundFloat (pairPos st i + pairWidth st i)) = true := by
  unfold stemRange at h
  rw [List.all_eq_true] at h
  have h3 := h i (List.mem_range.mpr hi)
  simp only [Bool.and_eq_true] at h3
  exact ⟨h3.1.1, h3.1.2, h3.2⟩

theorem stemRound_eq (pos width hintBase : ℚ) (h1 : inFloatRange (pos + hintBase) = true)
    (h2 : inFloatRange (pos + width) = true)
    (h3 : inFloatRange (hintBase + roundFloat (pos + width)) = true) :
    stemRound pos width hintBase =
      some (roundFloat (pos + hintBase), roundFloat (hintBase + roundFloat (pos + width))) := by
  simp [stemRound, toFloat_eq _ h1, toFloat_eq _ h2, toFloat_eq _ h3]

theorem stemLoop_eq (st : CFF_Stack) (isVertical : Bool) (hcap : st.index ≤ st.stack.length)
    (hidx : st.index ≤ 65535) (hr : floatOperands st = true) (hs : stemRange st = true)
    (m : Nat) :
    ∀ (i fuel : Nat), i + m = st.index / 2 → m + 1 ≤ fuel →
      stemLoop st isVertical fuel (st.index % 2 + 2 * i)
          (hintBaseSpec (pairPos st) (pairWidth st) i) =
        some ((List.range' i m).map (fun i =>
          Event.setHint isVertical
            (roundFloat (pairPos st i + hintBaseSpec (pairPos st) (pairWidth st) i))
            (pairWidth st i))) := by
  induction m with
  | zero =>
    intro i fuel hi hf
    obtain ⟨f, rfl⟩ : ∃ f, fuel = f + 1 := ⟨fuel - 1, by omega⟩
    have hj : ¬ st.index % 2 + 2 * i < st.index := by omega
    simp [stemLoop, hj]
  | succ m ih =>
    intro i fuel hi hf
    obtain ⟨f, rfl⟩ : ∃ f, fuel = f + 1 := ⟨fuel - 1, by omega⟩
    have hj : st.index % 2 + 2 * i < st.index := by omega
    have c0 : floatCell st (st.index % 2 + 2 * i) = some (pairPos st i) :=
      floatCell_eq st _ (by omega) (floatOperands_get st hr _ (by omega))
    have c1 : floatCell st (st.index % 2 + 2 * i + 1) = some (pairWidth st i) :=
      floatCell_eq st _ (by omega) (floatOperands_get st hr _ (by omega))
    obtain ⟨r1, r2, r3⟩ := stemRange_get st hs i (by omega)
    have hround := stemRound_eq _ _ _ r1 r2 r3
    have hnext := ih (i + 1) f (by omega) (by omega)
    have e : toU16 (st.index % 2 + 2 * i + 2) = st.index % 2 + 2 * (i + 1) := by
      unfold toU16
      omega
    have hb : hintBaseSpec (pairPos st) (pairWidth st) (i + 1) =
        roundFloat (hintBaseSpec (pairPos st) (pairWidth st) i +
          roundFloat (pairPos st i + pairWidth st i)) := rfl
    rw [hb] at hnext
    rw [stemLoop]
    simp only [hj, if_true, c0, c1, hround, e, hnext, List.range'_succ, List.map_cons,
      Option.bind_eq_bind, Option.some_bind]

theorem stemLoop_spec (st : CFF_Stack) (isVertical : Bool) (hcap : st.index ≤ st.stack.length)
    (hidx : st.index ≤ 65535) (hr : floatOperands st = true) (hs : stemRange st = true) :
    stemLoop st isVertical (st.index + 1) (st.index % 2) 0 =
      some (stemHintsSpec isVertical (pairPos st) (pairWidth st) (st.index / 2)) := by
  have h := stemLoop_eq st isVertical hcap hidx hr hs (st.index / 2) 0 (st.index + 1)
    (by omega) (by omega)
  simp only [Nat.mul_zero, Nat.add_zero, hintBaseSpec] at h
  rw [h, stemHintsSpec, List.range_eq_range']

/-- C9, as the code has it: for `op` one of `hstem`, `vstem`, `hstemhm`,
`vstemhm` and a stack of depth `n ≤ 65535` (inside the cell array), the
operator sends `setWidth(stack[0])` exactly when `n` is odd, then for
`i = 0 .. n/2 - 1`, in order, `setHint(isVertical, p_i + B_i, w_i)` with
`(p_i, w_i)` the `i`-th operand pair after the optional width, `B_0 = 0`,
`B_(i+1) = B_i + (p_i + w_i)`, and `isVertical` true exactly for `vstem` and
`vstemhm`; the stem counter grows by `n/2` and the depth becomes 0.  The
operands are converted to `float` and each of the sums is a `float` sum,
rounded to `float` (`roundFloat`); the operands and the sums are taken to stay
within the range of `float`. -/
theorem stem_events (env : Env) (gsubr lsubr : CFF_Index) (buf : List Nat)
    (start advance op : Nat) (st : CFF_Stack) (out : List Event)
    (hop : op = op_hstem ∨ op = op_vstem ∨ op = op_hstemhm ∨ op = op_vstemhm)
    (hcap : st.index ≤ st.stack.length) (hidx : st.index ≤ 65535)
    (hr : floatOperands st = true) (hs : stemRange st = true) :
    execOperator env gsubr lsubr buf start advance op st out =
      some (Step.next { st with stem := st.stem + st.index / 2, index := 0 }
        ((if st.index % 2 = 1 then [Event.setWidth (floatAt st 0)] else []) ++
          stemHintsSpec (decide (op = op_vstem ∨ op = op_vstemhm)) (pairPos st) (pairWidth st)
            (st.index / 2)) advance) := by
  have e : execOperator env gsubr lsubr buf start advance op st out =
      (exec_stem op st).map (fun r => Step.next r.1 r.2 advance) := by
    rcases hop with rfl | rfl | rfl | rfl <;> rfl
  rw [e, exec_stem, stemLoop_spec st _ hcap hidx hr hs]
  by_cases hodd : st.index % 2 = 1
  · have w := widthIf_eq st true 0 (by omega) (floatOperands_get st hr 0 (by omega))
    have hne : (st.index % 2 != 0) = true := by simp [hodd]
    simp [hne, w, hodd]
  · have hne : (st.index % 2 != 0) = false := by
      have : st.index % 2 = 0 := by omega
      simp [this]
    simp [hne, widthIf, hodd]

/-- C9, instance: `vstem` on the stack `[100, 16777216, 1, 1, 1]` (depth 5):
the base after the first pair is the `float` sum `16777216 + 1 = 16777216`, and
so is the position `1 + 16777216` of the second hint. -/
theorem stem_events_witness :
    execOperator nopEnv emptyIndex emptyIndex [] 0 1 op_vstem
        { freshStack 6 with stack := [100, 16777216, 1, 1, 1, 0], index := 5 } [] =
      some (Step.next { freshStack 6 with stack := [100, 16777216, 1, 1, 1, 0], stem := 2 }
        [Event.setWidth 100, Event.setHint true 16777216 1, Event.setHint true 16777216 1] 1) :=
  (stem_events nopEnv emptyIndex emptyIndex [] 0 1 op_vstem
    { freshStack 6 with stack := [100, 16777216, 1, 1, 1, 0], index := 5 } []
    (Or.inr (Or.inl rfl)) (by decide) (by decide) (by decide!) (by decide!)).trans (by decide!)

/-- C9 fails as stated: the program `1C 7F FF 8B FF 00 00 00 01 8B 01` pushes
32767, 0, 1/65536, 0 and runs `hstem`.  With `p_1 = 1/65536` and
`B_1 = 32767` the second hint of C9 is at `p_1 + B_1 = 2147418113/65536`; the
code adds in `float` and sends 32767. -/
theorem stem_hint_position_is_rounded :
    parse_outline_callback nopEnv 6
        [0x1C, 0x7F, 0xFF, 0x8B, 0xFF, 0x00, 0x00, 0x00, 0x01, 0x8B, 0x01] 0 11
        emptyIndex emptyIndex (freshStack 4) [] =
      Outcome.done { freshStack 4 with stack := [32767, 0, 1 / 65536, 0], stem := 2 }
        [Event.setHint false 32767 0, Event.setHint false 32767 0] := by
  decide!

/-! ### The mask operators -/

theorem rdByte_eq_byteAt (buf : List Nat) (i : Nat) (h : i < buf.length) :
    rdByte buf i = some (byteAt buf i) := by
  simp [rdByte, byteAt, List.getElem?_eq_getElem h]

theorem setMaskByte_length (mask : List Bool) (byte maskByte : Nat) :
    (setMaskByte mask byte maskByte).length = mask.length := by
  simp [setMaskByte]

theorem setMaskByte_get_same (mask : List Bool) (byte maskByte k : Nat)
    (hlen : byte * 8 + 7 < mask.length) (hk : k < 8) :
    (setMaskByte mask byte maskByte)[byte * 8 + k]? = some (maskByte.testBit (7 - k)) := by
  unfold setMaskByte
  interval_cases k <;> simp [List.getElem?_set] <;> omega

theorem setMaskByte_get_other (mask : List Bool) (byte maskByte e : Nat) (he : e < byte * 8) :
    (setMaskByte mask byte maskByte)[e]? = mask[e]? := by
  unfold setMaskByte
  simp only [List.getElem?_set]
  repeat rw [if_neg (by omega)]

theorem maskLoop_spec (buf : List Nat) (base maskLength : Nat)
    (hbuf : base + maskLength ≤ buf.length) (m : Nat) :
    ∀ (byte fuel : Nat) (mask : List Bool), byte + m = maskLength → m + 1 ≤ fuel →
      maskLength * 8 ≤ mask.length →
      ∃ res, maskLoop buf base maskLength fuel byte mask = some res ∧
        res.length = mask.length ∧
        (∀ e, e < byte * 8 → res[e]? = mask[e]?) ∧
        (∀ b k, byte ≤ b → b < maskLength → k < 8 →
          res[b * 8 + k]? = some ((byteAt buf (base + b)).testBit (7 - k))) := by
  induction m with
  | zero =>
    intro byte fuel mask hb hf _
    obtain ⟨f, rfl⟩ : ∃ f, fuel = f + 1 := ⟨fuel - 1, by omega⟩
    have hj : ¬ byte < maskLength := by omega
    refine ⟨mask, by simp [maskLoop, hj], rfl, fun _ _ => rfl, fun b k h1 h2 _ => ?_⟩
    omega
  | succ m ih =>
    intro byte fuel mask hb hf hlen
    obtain ⟨f, rfl⟩ : ∃ f, fuel = f + 1 := ⟨fuel - 1, by omega⟩
    have hj : byte < maskLength := by omega
    have hrd := rdByte_eq_byteAt buf (base + byte) (by omega)
    obtain ⟨res, hres, hl, hlow, hhigh⟩ := ih (byte + 1) f
      (setMaskByte mask byte (byteAt buf (base + byte))) (by omega) (by omega)
      (by rw [setMaskByte_length]; exact hlen)
    refine ⟨res, ?_, ?_, ?_, ?_⟩
    · rw [maskLoop]
      simp only [hj, if_true, hrd, hres]
    · rw [hl, setMaskByte_length]
    · intro e he
      rw [hlow e (by omega), setMaskByte_get_other _ _ _ _ he]
    · intro b k h1 h2 hk
      by_cases hbb : b = byte
      · subst hbb
        rw [hlow (b * 8 + k) (by omega)]
        exact setMaskByte_get_same _ _ _ _ (by omega) hk
      · exact hhigh b k (by omega) h2 hk

theorem loop_step_mask (env : Env) (gsubr lsubr : CFF_Index) (fuel : Nat) (buf : List Nat)
    (start stop op : Nat) (st : CFF_Stack) (out : List Event)
    (hstart : start < stop)
    (hop : op = op_hintmask ∨ op = op_cntrmask) (hbyte : buf[start]? = some op)
    (hcap : st.index ≤ st.stack.length) (hidx : st.index ≤ 65535)
    (hr : floatOperands st = true) (hs : stemRange st = true)
    (hbytes : start + 1 + (st.stem + st.index / 2 + 7) / 8 ≤ buf.length) :
    ∃ (w hints : List Event) (mask : List Bool),
      widthIf st (st.index % 2 != 0) 0 = some w ∧
      stemLoop st (decide (st.stem > 0)) (st.index + 1) (st.index % 2) 0 = some hints ∧
      mask.length = st.stem + st.index / 2 + 7 ∧
      (∀ b k, b < (st.stem + st.index / 2 + 7) / 8 → k < 8 →
        mask[8 * b + k]? = some ((byteAt buf (start + 1 + b)).testBit (7 - k))) ∧
      parse_outline_loop env gsubr lsubr (fuel + 1) buf start stop st out =
        parse_outline_loop env gsubr lsubr fuel buf
          (start + (1 + (st.stem + st.index / 2 + 7) / 8)) stop
          { st with stem := st.stem + st.index / 2, index := 0 }
          (out ++ (w ++ hints ++ [Event.setMask (decide (op = op_cntrmask)) mask])) := by
  obtain ⟨mask, hloop, hlen, _, hbits⟩ := maskLoop_spec buf (start + 1)
    ((st.stem + st.index / 2 + 7) / 8) hbytes ((st.stem + st.index / 2 + 7) / 8) 0
    ((st.stem + st.index / 2 + 7) / 8 + 1) (List.replicate (st.stem + st.index / 2 + 7) false)
    (by omega) (by omega) (by simp; omega)
  have hh := stemLoop_spec st (decide (st.stem > 0)) hcap hidx hr hs
  have hw : ∃ w, widthIf st (st.index % 2 != 0) 0 = some w := by
    by_cases hodd : st.index % 2 = 1
    · exact ⟨_, widthIf_eq st _ 0 (by omega) (floatOperands_get st hr 0 (by omega))⟩
    · have hne : (st.index % 2 != 0) = false := by
        have : st.index % 2 = 0 := by omega
        simp [this]
      exact ⟨[], by simp [widthIf, hne]⟩
  obtain ⟨w, hw⟩ := hw
  refine ⟨w, _, mask, hw, hh, by simpa using hlen, fun b k hb hk => ?_, ?_⟩
  · have := hbits b k (by omega) hb hk
    rwa [Nat.mul_comm] at this
  · have hdec : decode_cs2_token buf start = some (1, Token.operator op) := by
      rcases hop with rfl | rfl
      · exact decode_operator_byte buf start op_hintmask hbyte (by decide) (by decide) (by decide)
      · exact decode_operator_byte buf start op_cntrmask hbyte (by decide) (by decide) (by decide)
    refine loop_step_next env gsubr lsubr fuel buf start stop 1 _ op st _ out _ hstart hdec ?_
    have e : execOperator env gsubr lsubr buf start 1 op st out =
        (exec_mask op buf (start + 1) st).map (fun r => Step.next r.1 r.2.1 (1 + r.2.2)) := by
      rcases hop with rfl | rfl <;> rfl
    rw [e, exec_mask]
    simp only [hw, hh, hloop, Option.bind_eq_bind, Option.some_bind, Option.map_some',
      List.append_assoc]

/-- C10: for `hintmask` and `cntrmask` read at `start`, with `s` the stem
counter after adding `index / 2`, and the `(s + 7) / 8` mask bytes present in
the buffer: the operator consumes exactly those bytes after the operator byte
(the loop goes on at `start + 1 + (s + 7) / 8`), the mask handed to `setMask`
has entry `8 * b + k` equal to bit `7 - k` of mask byte `b`, for every
`b < (s + 7) / 8` and `k < 8`, `isContourMask` is true exactly for `cntrmask`,
the stem counter becomes `s` and the depth 0.  Before `setMask` the operator
sends the events `w` of the optional width and the events `hints` of the hint
loop over its operands, which are taken to lie inside the cell array and to
stay within the range of `float`. -/
theorem mask_events (env : Env) (gsubr lsubr : CFF_Index) (fuel : Nat) (buf : List Nat)
    (start stop op : Nat) (st : CFF_Stack) (out : List Event)
    (hstart : start < stop)
    (hop : op = op_hintmask ∨ op = op_cntrmask) (hbyte : buf[start]? = some op)
    (hcap : st.index ≤ st.stack.length) (hidx : st.index ≤ 65535)
    (hr : floatOperands st = true) (hs : stemRange st = true)
    (hbytes : start + 1 + (st.stem + st.index / 2 + 7) / 8 ≤ buf.length) :
    ∃ (w hints : List Event) (mask : List Bool),
      widthIf st (st.index % 2 != 0) 0 = some w ∧
      stemLoop st (decide (st.stem > 0)) (st.index + 1) (st.index % 2) 0 = some hints ∧
      (∀ b k, b < (st.stem + st.index / 2 + 7) / 8 → k < 8 →
        mask[8 * b + k]? = some ((byteAt buf (start + 1 + b)).testBit (7 - k))) ∧
      parse_outline_loop env gsubr lsubr (fuel + 1) buf start stop st out =
        parse_outline_loop env gsubr lsubr fuel buf
          (start + (1 + (st.stem + st.index / 2 + 7) / 8)) stop
          { st with stem := st.stem + st.index / 2, index := 0 }
          (out ++ (w ++ hints ++ [Event.setMask (decide (op = op_cntrmask)) mask])) := by
  obtain ⟨w, hints, mask, hw, hh, _, hbits, hrun⟩ := loop_step_mask env gsubr lsubr fuel buf
    start stop op st out hstart hop hbyte hcap hidx hr hs hbytes
  exact ⟨w, hints, mask, hw, hh, hbits, hrun⟩

/-- C10, instance: `hintmask` (byte `13`) with stem counter 8 and the operands
3, 4 on the stack (a ninth stem) reads the two mask bytes `A5 80`, and the next
token is at offset 3. -/
theorem mask_events_witness :
    ∃ (w hints : List Event) (mask : List Bool),
      widthIf { freshStack 4 with stack := [3, 4, 0, 0], index := 2, stem := 8 }
        (2 % 2 != 0) 0 = some w ∧
      stemLoop { freshStack 4 with stack := [3, 4, 0, 0], index := 2, stem := 8 }
        (decide (8 > 0)) (2 + 1) (2 % 2) 0 = some hints ∧
      (∀ b k, b < (8 + 2 / 2 + 7) / 8 → k < 8 →
        mask[8 * b + k]? = some ((byteAt [0x13, 0xA5, 0x80, 0x0b] (0 + 1 + b)).testBit (7 - k))) ∧
      parse_outline_loop nopEnv emptyIndex emptyIndex (1 + 1) [0x13, 0xA5, 0x80, 0x0b] 0 4
          { freshStack 4 with stack := [3, 4, 0, 0], index := 2, stem := 8 } [] =
        parse_outline_loop nopEnv emptyIndex emptyIndex 1 [0x13, 0xA5, 0x80, 0x0b]
          (0 + (1 + (8 + 2 / 2 + 7) / 8)) 4
          { freshStack 4 with stack := [3, 4, 0, 0], index := 0, stem := 8 + 2 / 2 }
          ([] ++ (w ++ hints ++ [Event.setMask (decide (op_hintmask = op_cntrmask)) mask])) :=
  mask_events nopEnv emptyIndex emptyIndex 1 [0x13, 0xA5, 0x80, 0x0b] 0 4 op_hintmask
    { freshStack 4 with stack := [3, 4, 0, 0], index := 2, stem := 8 } [] (by decide)
    (Or.inl rfl) (by decide) (by decide) (by decide) (by decide!) (by decide!) (by decide)

/-! ### The mask array and the end of the program -/

/-- C11, as the code has it: the array handed to `setMask` by `hintmask` or
`cntrmask` is the one allocated by `NEW_N(mask, stack->stem + 7)`: it has
`s + 7` cells, `s` being the running stem count (the stems declared by the
operator's own operands included), not `s` cells; its first `8 * ((s + 7) / 8)`
cells are the bits of the mask bytes, most significant bit first.  The
operands are taken to lie inside the cell array and to stay within the range
of `float`, the mask bytes to be present in the buffer. -/
theorem mask_array_length (env : Env) (gsubr lsubr : CFF_Index) (fuel : Nat) (buf : List Nat)
    (start stop op : Nat) (st : CFF_Stack) (out : List Event)
    (hstart : start < stop)
    (hop : op = op_hintmask ∨ op = op_cntrmask) (hbyte : buf[start]? = some op)
    (hcap : st.index ≤ st.stack.length) (hidx : st.index ≤ 65535)
    (hr : floatOperands st = true) (hs : stemRange st = true)
    (hbytes : start + 1 + (st.stem + st.index / 2 + 7) / 8 ≤ buf.length) :
    ∃ (ev : List Event) (mask : List Bool),
      mask.length = st.stem + st.index / 2 + 7 ∧
      (∀ b k, b < (st.stem + st.index / 2 + 7) / 8 → k < 8 →
        mask[8 * b + k]? = some ((byteAt buf (start + 1 + b)).testBit (7 - k))) ∧
      parse_outline_loop env gsubr lsubr (fuel + 1) buf start stop st out =
        parse_outline_loop env gsubr lsubr fuel buf
          (start + (1 + (st.stem + st.index / 2 + 7) / 8)) stop
          { st with stem := st.stem + st.index / 2, index := 0 }
          (out ++ (ev ++ [Event.setMask (decide (op = op_cntrmask)) mask])) := by
  obtain ⟨w, hints, mask, _, _, hlen, hbits, hrun⟩ := loop_step_mask env gsubr lsubr fuel buf
    start stop op st out hstart hop hbyte hcap hidx hr hs hbytes
  exact ⟨w ++ hints, mask, hlen, hbits, hrun⟩

/-- C11, instance: `hintmask` in a state with stem counter 1 and an empty
stack, followed by the mask byte `80`. -/
theorem mask_array_length_witness :
    ∃ (ev : List Event) (mask : List Bool),
      mask.length = 1 + 0 / 2 + 7 ∧
      (∀ b k, b < (1 + 0 / 2 + 7) / 8 → k < 8 →
        mask[8 * b + k]? = some ((byteAt [0x13, 0x80] (0 + 1 + b)).testBit (7 - k))) ∧
      parse_outline_loop nopEnv emptyIndex emptyIndex (1 + 1) [0x13, 0x80] 0 2
          { freshStack 4 with stem := 1 } [] =
        parse_outline_loop nopEnv emptyIndex emptyIndex 1 [0x13, 0x80]
          (0 + (1 + (1 + 0 / 2 + 7) / 8)) 2
          { freshStack 4 with stem := 1 + 0 / 2, index := 0 }
          ([] ++ (ev ++ [Event.setMask (decide (op_hintmask = op_cntrmask)) mask])) :=
  mask_array_length nopEnv emptyIndex emptyIndex 1 [0x13, 0x80] 0 2 op_hintmask
    { freshStack 4 with stem := 1 } [] (by decide) (Or.inl rfl) (by decide) (by decide)
    (by decide) (by decide!) (by decide!) (by decide)

/-- C11 fails as stated: the program `8C 8D 01 13 80` declares one stem
(`hstem` on the operands 1, 2) and `hintmask` then hands `setMask` an array
of eight cells, not of one. -/
theorem mask_longer_than_stem_count :
    parse_outline_callback nopEnv 5 [0x8c, 0x8d, 0x01, 0x13, 0x80] 0 5 emptyIndex emptyIndex
        (freshStack 4) [] =
      Outcome.done { freshStack 4 with stack := [1, 2, 0, 0], stem := 1 }
        [Event.setHint false 1 2,
          Event.setMask false [true, false, false, false, false, false, false, false]] := by
  decide!

/-- C12, as the code has it: the mask bytes are read at `start + 1 + b` whether
or not that lies inside the program.  When the program ends before the mask is
complete (`stop` is at most the end of the mask) and the buffer goes on, the
missing mask bytes are the bytes that follow the program in the buffer, and the
invocation ends normally after `setMask`.  The operands are taken to lie inside
the cell array and to stay within the range of `float`. -/
theorem mask_read_past_program_end (env : Env) (gsubr lsubr : CFF_Index) (fuel : Nat)
    (buf : List Nat) (start stop op : Nat) (st : CFF_Stack) (out : List Event)
    (hstart : start < stop)
    (hop : op = op_hintmask ∨ op = op_cntrmask) (hbyte : buf[start]? = some op)
    (hcap : st.index ≤ st.stack.length) (hidx : st.index ≤ 65535)
    (hr : floatOperands st = true) (hs : stemRange st = true)
    (hbytes : start + 1 + (st.stem + st.index / 2 + 7) / 8 ≤ buf.length)
    (hend : stop ≤ start + 1 + (st.stem + st.index / 2 + 7) / 8) :
    ∃ (ev : List Event) (mask : List Bool),
      (∀ b k, b < (st.stem + st.index / 2 + 7) / 8 → k < 8 →
        mask[8 * b + k]? = some ((byteAt buf (start + 1 + b)).testBit (7 - k))) ∧
      parse_outline_loop env gsubr lsubr (fuel + 2) buf start stop st out =
        Outcome.done { st with stem := st.stem + st.index / 2, index := 0 }
          (out ++ (ev ++ [Event.setMask (decide (op = op_cntrmask)) mask])) := by
  obtain ⟨w, hints, mask, _, _, _, hbits, hrun⟩ := loop_step_mask env gsubr lsubr (fuel + 1)
    buf start stop op st out hstart hop hbyte hcap hidx hr hs hbytes
  refine ⟨w ++ hints, mask, hbits, ?_⟩
  rw [hrun, parse_outline_loop]
  have hs : ¬ start + (1 + (st.stem + st.index / 2 + 7) / 8) < stop := by omega
  simp only [hs, if_false]

/-- C12, instance: the program is the single byte `13` of the buffer `13 FF`,
the stem counter is 8; the mask byte is read at offset 1, after the program. -/
theorem mask_read_past_program_end_witness :
    ∃ (ev : List Event) (mask : List Bool),
      (∀ b k, b < (8 + 0 / 2 + 7) / 8 → k < 8 →
        mask[8 * b + k]? = some ((byteAt [0x13, 0xff] (0 + 1 + b)).testBit (7 - k))) ∧
      parse_outline_loop nopEnv emptyIndex emptyIndex (0 + 2) [0x13, 0xff] 0 1
          { freshStack 4 with stem := 8 } [] =
        Outcome.done { freshStack 4 with stem := 8 + 0 / 2, index := 0 }
          ([] ++ (ev ++ [Event.setMask (decide (op_hintmask = op_cntrmask)) mask])) :=
  mask_read_past_program_end nopEnv emptyIndex emptyIndex 0 [0x13, 0xff] 0 1 op_hintmask
    { freshStack 4 with stem := 8 } [] (by decide) (Or.inl rfl) (by decide) (by decide)
    (by decide) (by decide!) (by decide!) (by decide) (by decide)

/-- C12 fails as stated: of the buffer `8C 8D 01 13 FF` the program is the
first four bytes, so it ends right after `hintmask`; the run reads the mask
byte at offset 4, outside the program, hands `setMask` its bits and returns
normally. -/
theorem mask_byte_read_outside_program :
    parse_outline_callback nopEnv 5 [0x8c, 0x8d, 0x01, 0x13, 0xff] 0 4 emptyIndex emptyIndex
        (freshStack 4) [] =
      Outcome.done { freshStack 4 with stack := [1, 2, 0, 0], stem := 1 }
        [Event.setHint false 1 2,
          Event.setMask false [true, true, true, true, true, true, true, true]] := by
  decide!

/-! ### `hlineto` and `vlineto` -/

theorem forLoop_eq (bound step : Nat) (body : Nat → Option (List Event))
    (g : Nat → List Event) (m : Nat) :
    ∀ (i fuel : Nat), bound ≤ i + step * m →
      (∀ j, j < m → i + step * j < bound ∧ body (i + step * j) = some (g (i + step * j))) →
      m + 1 ≤ fuel →
      forLoop bound step body fuel i = some ((List.range' i m step).flatMap g) := by
  induction m with
  | zero =>
    intro i fuel hb _ hf
    obtain ⟨f, rfl⟩ : ∃ f, fuel = f + 1 := ⟨fuel - 1, by omega⟩
    have hi : ¬ i < bound := by simpa using hb
    simp [forLoop, hi]
  | succ m ih =>
    intro i fuel hb hbody hf
    obtain ⟨f, rfl⟩ : ∃ f, fuel = f + 1 := ⟨fuel - 1, by omega⟩
    have h0 := hbody 0 (by omega)
    simp only [Nat.mul_zero, Nat.add_zero] at h0
    have hrest := ih (i + step) f (by rw [Nat.mul_succ] at hb; omega)
      (fun j hj => by
        have := hbody (j + 1) (by omega)
        rw [Nat.mul_succ] at this
        have e : i + step + step * j = i + (step * j + step) := by omega
        rw [e]
        exact this)
      (by omega)
    rw [forLoop]
    simp only [h0.1, if_true, h0.2, hrest, List.range'_succ, List.flatMap_cons]

theorem flatMap_pairs (f : Nat → Event) (m : Nat) :
    ∀ i, (List.range' i m 2).flatMap (fun j => [f j, f (j + 1)]) =
      (List.range' i (2 * m)).map f := by
  induction m with
  | zero => intro i; rfl
  | succ m ih =>
    intro i
    have e : 2 * (m + 1) = (2 * m + 1) + 1 := by omega
    rw [List.range'_succ, List.flatMap_cons, ih (i + 2), e, List.range'_succ, List.range'_succ]
    simp [Nat.add_assoc]

theorem lineLoop_eq (st : CFF_Stack) (f : Nat → Event) (body : Nat → Option (List Event))
    (i0 m : Nat) (hn : i0 + 2 * m = st.index)
    (hbody : ∀ i, i0 ≤ i → i + 1 < st.index → i % 2 = i0 % 2 → body i = some [f i, f (i + 1)]) :
    forLoop st.index 2 body (st.index + 1) i0 = some ((List.range' i0 (2 * m)).map f) := by
  rw [forLoop_eq st.index 2 body (fun j => [f j, f (j + 1)]) m i0 (st.index + 1) (by omega)
    (fun j hj => ⟨by omega, hbody (i0 + 2 * j) (by omega) (by omega) (by omega)⟩) (by omega)]
  rw [flatMap_pairs]

theorem range_of_odd (n : Nat) (h : n % 2 = 1) :
    List.range n = 0 :: List.range' 1 (2 * (n / 2)) := by
  have e : n = 2 * (n / 2) + 1 := by omega
  rw [List.range_eq_range']
  conv_lhs => rw [e]
  rw [List.range'_succ]

theorem range_of_even (n : Nat) (h : ¬ n % 2 = 1) :
    List.range n = List.range' 0 (2 * (n / 2)) := by
  have e : n = 2 * (n / 2) := by omega
  rw [List.range_eq_range']
  conv_lhs => rw [e]

/-- C13, as the code has it: on a stack of depth `n ≥ 0` (inside the cell
array, the operands within the range of `float`) `hlineto` sends exactly `n`
events, the `i`-th being `lineTo(stack[i], 0)` for even `i` and
`lineTo(0, stack[i])` for odd `i`; `vlineto` sends exactly `n` events, the
`i`-th being `lineTo(0, stack[i])` for even `i` and `lineTo(stack[i], 0)` for
odd `i`; every operand arrives converted to `float` (`floatAt`), the type of
the parameters; both leave depth 0 and nothing else changed. -/
theorem lineto_events (env : Env) (gsubr lsubr : CFF_Index) (buf : List Nat)
    (start advance : Nat) (st : CFF_Stack) (out : List Event)
    (hcap : st.index ≤ st.stack.length) (hr : floatOperands st = true) :
    execOperator env gsubr lsubr buf start advance op_hlineto st out =
      some (Step.next { st with index := 0 }
        ((List.range st.index).map (fun i =>
          if i % 2 = 0 then Event.lineTo (floatAt st i) 0
          else Event.lineTo 0 (floatAt st i))) advance) ∧
    execOperator env gsubr lsubr buf start advance op_vlineto st out =
      some (Step.next { st with index := 0 }
        ((List.range st.index).map (fun i =>
          if i % 2 = 0 then Event.lineTo 0 (floatAt st i)
          else Event.lineTo (floatAt st i) 0)) advance) := by
  have hcell : ∀ i, i < st.index → floatCell st i = some (floatAt st i) :=
    fun i hi => floatCell_eq st i (by omega) (floatOperands_get st hr i hi)
  constructor
  · have e : execOperator env gsubr lsubr buf start advance op_hlineto st out =
        (exec_hlineto st).map (fun r => Step.next r.1 r.2 advance) := rfl
    rw [e, exec_hlineto]
    by_cases hodd : st.index % 2 = 1
    · have hl := lineLoop_eq st
        (fun i => if i % 2 = 0 then Event.lineTo (floatAt st i) 0
          else Event.lineTo 0 (floatAt st i))
        (fun i => do
          let y ← floatCell st i
          let x ← floatCell st (i + 1)
          some [Event.lineTo 0 y, Event.lineTo x 0]) 1 (st.index / 2) (by omega)
        (fun i h1 h2 h3 => by
          have p1 : i % 2 = 1 := by omega
          have p2 : (i + 1) % 2 = 0 := by omega
          simp [hcell i (by omega), hcell (i + 1) h2, p1, p2])
      simp only [Option.bind_eq_bind] at hl
      simp [hodd, hcell 0 (by omega), hl, range_of_odd st.index hodd]
    · have hl := lineLoop_eq st
        (fun i => if i % 2 = 0 then Event.lineTo (floatAt st i) 0
          else Event.lineTo 0 (floatAt st i))
        (fun i => do
          let x ← floatCell st i
          let y ← floatCell st (i + 1)
          some [Event.lineTo x 0, Event.lineTo 0 y]) 0 (st.index / 2) (by omega)
        (fun i h1 h2 h3 => by
          have p1 : i % 2 = 0 := by omega
          have p2 : (i + 1) % 2 = 1 := by omega
          simp [hcell i (by omega), hcell (i + 1) h2, p1, p2])
      simp only [Option.bind_eq_bind] at hl
      simp [hodd, hl, range_of_even st.index hodd]
  · have e : execOperator env gsubr lsubr buf start advance op_vlineto st out =
        (exec_vlineto st).map (fun r => Step.next r.1 r.2 advance) := rfl
    rw [e, exec_vlineto]
    by_cases hodd : st.index % 2 = 1
    · have hl := lineLoop_eq st
        (fun i => if i % 2 = 0 then Event.lineTo 0 (floatAt st i)
          else Event.lineTo (floatAt st i) 0)
        (fun i => do
          let x ← floatCell st i
          let y ← floatCell st (i + 1)
          some [Event.lineTo x 0, Event.lineTo 0 y]) 1 (st.index / 2) (by omega)
        (fun i h1 h2 h3 => by
          have p1 : i % 2 = 1 := by omega
          have p2 : (i + 1) % 2 = 0 := by omega
          simp [hcell i (by omega), hcell (i + 1) h2, p1, p2])
      simp only [Option.bind_eq_bind] at hl
      simp [hodd, hcell 0 (by omega), hl, range_of_odd st.index hodd]
    · have hl := lineLoop_eq st
        (fun i => if i % 2 = 0 then Event.lineTo 0 (floatAt st i)
          else Event.lineTo (floatAt st i) 0)
        (fun i => do
          let y ← floatCell st i
          let x ← floatCell st (i + 1)
          some [Event.lineTo 0 y, Event.lineTo x 0]) 0 (st.index / 2) (by omega)
        (fun i h1 h2 h3 => by
          have p1 : i % 2 = 0 := by omega
          have p2 : (i + 1) % 2 = 1 := by omega
          simp [hcell i (by omega), hcell (i + 1) h2, p1, p2])
      simp only [Option.bind_eq_bind] at hl
      simp [hodd, hl, range_of_even st.index hodd]

/-- C13, instance: depth 3 with the operands 5, 2147483647/65536 and 7; the
second is not a `float` and arrives as 32768. -/
theorem lineto_events_witness :
    execOperator nopEnv emptyIndex emptyIndex [] 0 1 op_hlineto
        { freshStack 4 with stack := [5, 2147483647 / 65536, 7, 0], index := 3 } [] =
      some (Step.next { freshStack 4 with stack := [5, 2147483647 / 65536, 7, 0] }
        [Event.lineTo 5 0, Event.lineTo 0 32768, Event.lineTo 7 0] 1) ∧
    execOperator nopEnv emptyIndex emptyIndex [] 0 1 op_vlineto
        { freshStack 4 with stack := [5, 2147483647 / 65536, 7, 0], index := 3 } [] =
      some (Step.next { freshStack 4 with stack := [5, 2147483647 / 65536, 7, 0] }
        [Event.lineTo 0 5, Event.lineTo 32768 0, Event.lineTo 0 7] 1) :=
  have h := lineto_events nopEnv emptyIndex emptyIndex [] 0 1
    { freshStack 4 with stack := [5, 2147483647 / 65536, 7, 0], index := 3 } [] (by decide)
    (by decide!)
  ⟨h.1.trans (by decide!), h.2.trans (by decide!)⟩

/-- C13 fails as stated: the program `FF 7F FF FF FF 06` pushes the 16.16
operand 2147483647/65536 and runs `hlineto`; the stack holds 2147483647/65536,
and `lineTo` receives 32768, the nearest `float`, not the operand. -/
theorem lineto_argument_is_rounded :
    parse_outline_callback nopEnv 3 [0xFF, 0x7F, 0xFF, 0xFF, 0xFF, 0x06] 0 6
        emptyIndex emptyIndex (freshStack 4) [] =
      Outcome.done { freshStack 4 with stack := [2147483647 / 65536, 0, 0, 0] }
        [Event.lineTo 32768 0] := by
  decide!

/-! ### `hvcurveto` and `vhcurveto` -/

theorem cellI_eq_operandAt (st : CFF_Stack) (i : Nat) (z : Int) (hz : z = (i : Int))
    (h : i < st.stack.length) : cellI st z = some (operandAt st i) := by
  subst hz
  simp [cellI, operandAt, List.getElem?_eq_getElem h]

theorem floatCellI_eq (st : CFF_Stack) (i : Nat) (z : Int) (hz : z = (i : Int))
    (h : i < st.stack.length) (hr : inFloatRange (operandAt st i) = true) :
    floatCellI st z = some (floatAt st i) := by
  simp [floatCellI, cellI_eq_operandAt st i z hz h, toFloat_eq _ hr, floatAt]

theorem curveHV_eq (st : CFF_Stack) (i : Nat) (h : i + 3 < st.index)
    (hcap : st.index ≤ st.stack.length) (hr : floatOperands st = true) :
    curveHV st i = some [Event.curveTo (floatAt st i) 0 (floatAt st (i + 1))
      (floatAt st (i + 2)) 0 (floatAt st (i + 3))] := by
  have hg := floatOperands_get st hr
  simp [curveHV, floatCell_eq st i (by omega) (hg _ (by omega)),
    floatCell_eq st (i + 1) (by omega) (hg _ (by omega)),
    floatCell_eq st (i + 2) (by omega) (hg _ (by omega)),
    floatCell_eq st (i + 3) (by omega) (hg _ (by omega))]

theorem curveVH_eq (st : CFF_Stack) (i : Nat) (h : i + 3 < st.index)
    (hcap : st.index ≤ st.stack.length) (hr : floatOperands st = true) :
    curveVH st i = some [Event.curveTo 0 (floatAt st i) (floatAt st (i + 1))
      (floatAt st (i + 2)) (floatAt st (i + 3)) 0] := by
  have hg := floatOperands_get st hr
  simp [curveVH, floatCell_eq st i (by omega) (hg _ (by omega)),
    floatCell_eq st (i + 1) (by omega) (hg _ (by omega)),
    floatCell_eq st (i + 2) (by omega) (hg _ (by omega)),
    floatCell_eq st (i + 3) (by omega) (hg _ (by omega))]

theorem tailH_eq (st : CFF_Stack) (h5 : 5 ≤ st.index) (hcap : st.index ≤ st.stack.length)
    (hr : floatOperands st = true) :
    tailH st = some [Event.curveTo (floatAt st (st.index - 5)) 0 (floatAt st (st.index - 4))
      (floatAt st (st.index - 3)) (floatAt st (st.index - 1))
      (floatAt st (st.index - 2))] := by
  have hg := floatOperands_get st hr
  simp [tailH,
    floatCellI_eq st (st.index - 5) ((st.index : Int) - 5) (by omega) (by omega)
      (hg _ (by omega)),
    floatCellI_eq st (st.index - 4) ((st.index : Int) - 4) (by omega) (by omega)
      (hg _ (by omega)),
    floatCellI_eq st (st.index - 3) ((st.index : Int) - 3) (by omega) (by omega)
      (hg _ (by omega)),
    floatCellI_eq st (st.index - 2) ((st.index : Int) - 2) (by omega) (by omega)
      (hg _ (by omega)),
    floatCellI_eq st (st.index - 1) ((st.index : Int) - 1) (by omega) (by omega)
      (hg _ (by omega))]

theorem tailV_eq (st : CFF_Stack) (h5 : 5 ≤ st.index) (hcap : st.index ≤ st.stack.length)
    (hr : floatOperands st = true) :
    tailV st = some [Event.curveTo 0 (floatAt st (st.index - 5)) (floatAt st (st.index - 4))
      (floatAt st (st.index - 3)) (floatAt st (st.index - 2))
      (floatAt st (st.index - 1))] := by
  have hg := floatOperands_get st hr
  simp [tailV,
    floatCellI_eq st (st.index - 5) ((st.index : Int) - 5) (by omega) (by omega)
      (hg _ (by omega)),
    floatCellI_eq st (st.index - 4) ((st.index : Int) - 4) (by omega) (by omega)
      (hg _ (by omega)),
    floatCellI_eq st (st.index - 3) ((st.index : Int) - 3) (by omega) (by omega)
      (hg _ (by omega)),
    floatCellI_eq st (st.index - 2) ((st.index : Int) - 2) (by omega) (by omega)
      (hg _ (by omega)),
    floatCellI_eq st (st.index - 1) ((st.index : Int) - 1) (by omega) (by omega)
      (hg _ (by omega))]

theorem flatMap_quads (F : Nat → Event) (m : Nat) :
    ∀ i, (List.range' (4 * i) m 4).flatMap (fun j => [F (j / 4)]) =
      (List.range' i m).map F := by
  induction m with
  | zero => intro i; rfl
  | succ m ih =>
    intro i
    have e : 4 * i + 4 = 4 * (i + 1) := by omega
    have e2 : 4 * i / 4 = i := by omega
    rw [List.range'_succ, List.flatMap_cons, e, ih (i + 1), List.range'_succ, e2]
    simp

theorem cntBezier_eq (st : CFF_Stack) (k : Nat) (hk : 1 ≤ k)
    (hn : st.index = 4 * k ∨ st.index = 4 * k + 1) (h32 : st.index < 4294967296) :
    cntBezier st = (if st.index = 4 * k + 1 then k - 1 else k) ∧
    toU32 (4 * (cntBezier st : Int)) = 4 * (if st.index = 4 * k + 1 then k - 1 else k) := by
  rcases hn with h | h
  · have h1 : ¬ st.index % 4 = 1 := by omega
    have h2 : ¬ st.index = 4 * k + 1 := by omega
    have hc : cntBezier st = k := by
      unfold cntBezier
      rw [if_neg h1]
      omega
    rw [if_neg h2, hc]
    refine ⟨rfl, ?_⟩
    unfold toU32
    omega
  · have h1 : st.index % 4 = 1 := by omega
    have h3 : Int.tdiv ((st.index : Int) - 5) 4 = (k : Int) - 1 := by
      rw [Int.tdiv_eq_ediv (by omega) (by omega)]
      omega
    have hc : cntBezier st = k - 1 := by
      unfold cntBezier
      rw [if_pos h1, h3]
      unfold toU32
      omega
    rw [if_pos h, hc]
    refine ⟨rfl, ?_⟩
    unfold toU32
    omega

theorem cornerLoop_eq (st : CFF_Stack) (sel : Nat → Bool) (k cnt : Nat)
    (hcnt : 4 * cnt ≤ st.index) (hcap : st.index ≤ st.stack.length)
    (hr : floatOperands st = true)
    (hnotail : ∀ i, i < cnt → ¬ (st.index = 4 * k + 1 ∧ i + 1 = k))
    (body : Nat → Option (List Event))
    (hbody : ∀ i, i < cnt →
      body (4 * i) = if sel i then curveHV st (4 * i) else curveVH st (4 * i)) :
    forLoop (4 * cnt) 4 body (4 * cnt + 1) 0 =
      some ((List.range cnt).map (fun i => cornerCurve st (sel i) k i)) := by
  rw [forLoop_eq (4 * cnt) 4 body (fun j => [cornerCurve st (sel (j / 4)) k (j / 4)]) cnt 0
    (4 * cnt + 1) (by omega) ?_ (by omega)]
  · have h := flatMap_quads (fun i => cornerCurve st (sel i) k i) cnt 0
    simp only [Nat.mul_zero] at h
    rw [h, List.range_eq_range']
  · intro j hj
    have e0 : 0 + 4 * j = 4 * j := by omega
    have e1 : 4 * j / 4 = j := by omega
    refine ⟨by omega, ?_⟩
    rw [e0]
    beta_reduce
    rw [e1, hbody j hj]
    have hnt := hnotail j hj
    cases hs : sel j
    · simp [curveVH_eq st (4 * j) (by omega) hcap hr, cornerCurve, hnt]
    · simp [curveHV_eq st (4 * j) (by omega) hcap hr, cornerCurve, hnt]

theorem corner_events_aux (st : CFF_Stack) (sel : Nat → Bool) (k : Nat) (hk : 1 ≤ k)
    (hn : st.index = 4 * k ∨ st.index = 4 * k + 1)
    (hcap : st.index ≤ st.stack.length) (h32 : st.index < 4294967296)
    (hr : floatOperands st = true)
    (body : Nat → Option (List Event))
    (hbody : ∀ i, body (4 * i) = if sel i then curveHV st (4 * i) else curveVH st (4 * i))
    (t5 t1 : Option (List Event))
    (ht5 : st.index % 8 = 5 → sel (k - 1) = true ∧ t5 = tailH st ∨
      sel (k - 1) = false ∧ t5 = tailV st)
    (ht1 : st.index % 8 = 1 → sel (k - 1) = true ∧ t1 = tailH st ∨
      sel (k - 1) = false ∧ t1 = tailV st) :
    (do
      let ev ← forLoop (toU32 (4 * (cntBezier st : Int))) 4 body
        (toU32 (4 * (cntBezier st : Int)) + 1) 0
      let a ← if st.index % 8 = 5 then t5 else some []
      let b ← if st.index % 8 = 1 then t1 else some []
      some (({ st with index := 0 } : CFF_Stack), ev ++ a ++ b)) =
    some ({ st with index := 0 }, (List.range k).map (fun i => cornerCurve st (sel i) k i)) := by
  obtain ⟨_, hb⟩ := cntBezier_eq st k hk hn h32
  rw [hb]
  rcases hn with h | h
  · have h2 : ¬ st.index = 4 * k + 1 := by omega
    have h8a : ¬ st.index % 8 = 5 := by omega
    have h8b : ¬ st.index % 8 = 1 := by omega
    rw [if_neg h2, cornerLoop_eq st sel k k (by omega) hcap hr (fun i _ hh => h2 hh.1) body
      (fun i _ => hbody i)]
    simp [h8a, h8b]
  · rw [if_pos h, cornerLoop_eq st sel k (k - 1) (by omega) hcap hr
      (fun i hi hh => by omega) body
      (fun i _ => hbody i)]
    have hrange : List.range k = List.range (k - 1) ++ [k - 1] := by
      obtain ⟨m, rfl⟩ : ∃ m, k = m + 1 := ⟨k - 1, by omega⟩
      simp [List.range_succ]
    have hH := tailH_eq st (by omega) hcap hr
    have hV := tailV_eq st (by omega) hcap hr
    have e5 : st.index - 5 = 4 * (k - 1) := by omega
    have e4 : st.index - 4 = 4 * (k - 1) + 1 := by omega
    have e3 : st.index - 3 = 4 * (k - 1) + 2 := by omega
    have e2 : st.index - 2 = 4 * (k - 1) + 3 := by omega
    have ek : k - 1 + 1 = k := by omega
    rw [e5, e4, e3, e2] at hH hV
    have lastH : cornerCurve st true k (k - 1) =
        Event.curveTo (floatAt st (4 * (k - 1))) 0 (floatAt st (4 * (k - 1) + 1))
          (floatAt st (4 * (k - 1) + 2)) (floatAt st (st.index - 1))
          (floatAt st (4 * (k - 1) + 3)) := by
      simp [cornerCurve, h, ek]
    have lastV : cornerCurve st false k (k - 1) =
        Event.curveTo 0 (floatAt st (4 * (k - 1))) (floatAt st (4 * (k - 1) + 1))
          (floatAt st (4 * (k - 1) + 2)) (floatAt st (4 * (k - 1) + 3))
          (floatAt st (st.index - 1)) := by
      simp [cornerCurve, h, ek]
    rw [hrange]
    by_cases h8 : st.index % 8 = 5
    · have h8b : ¬ st.index % 8 = 1 := by omega
      rcases ht5 h8 with ⟨hs, rfl⟩ | ⟨hs, rfl⟩
      · simp [h8, h8b, hH, hs, lastH]
      · simp [h8, h8b, hV, hs, lastV]
    · have h8b : st.index % 8 = 1 := by omega
      rcases ht1 h8b with ⟨hs, rfl⟩ | ⟨hs, rfl⟩
      · simp [h8, h8b, hH, hs, lastH]
      · simp [h8, h8b, hV, hs, lastV]

/-- C14, as the code has it: on a stack of depth `n = 4k` or `n = 4k + 1` with
`k ≥ 1` (inside the cell array, the operands within the range of `float`),
`hvcurveto` sends exactly `k` `curveTo` events and leaves depth 0: with
`(a, b, c, d) = stack[4i .. 4i+3]`, curve `i` is `curveTo(a,0, b,c, 0,d)` for
even `i` and `curveTo(0,a, b,c, d,0)` for odd `i`, and when `n = 4k + 1` the
zero end coordinate of the last curve is replaced by `e = stack[n-1]`; every
operand arrives converted to `float` (`floatAt`), the type of the parameters.
`vhcurveto` is the same with even and odd `i` exchanged. -/
theorem corner_curve_events (env : Env) (gsubr lsubr : CFF_Index) (buf : List Nat)
    (start advance : Nat) (st : CFF_Stack) (out : List Event) (k : Nat)
    (hk : 1 ≤ k) (hn : st.index = 4 * k ∨ st.index = 4 * k + 1)
    (hcap : st.index ≤ st.stack.length) (h32 : st.index < 4294967296)
    (hr : floatOperands st = true) :
    execOperator env gsubr lsubr buf start advance op_hvcurveto st out =
      some (Step.next { st with index := 0 }
        ((List.range k).map (fun i => cornerCurve st (decide (i % 2 = 0)) k i)) advance) ∧
    execOperator env gsubr lsubr buf start advance op_vhcurveto st out =
      some (Step.next { st with index := 0 }
        ((List.range k).map (fun i => cornerCurve st (decide (i % 2 = 1)) k i)) advance) := by
  constructor
  · have e : execOperator env gsubr lsubr buf start advance op_hvcurveto st out =
        (exec_hvcurveto st).map (fun r => Step.next r.1 r.2 advance) := rfl
    have h := corner_events_aux st (fun i => decide (i % 2 = 0)) k hk hn hcap h32 hr
      (fun i => if (i / 4) % 2 = 0 then curveHV st i else curveVH st i)
      (fun i => by
        have e1 : 4 * i / 4 = i := by omega
        simp [e1])
      (tailH st) (tailV st)
      (fun h8 => Or.inl ⟨by simp; omega, rfl⟩)
      (fun h8 => Or.inr ⟨by simp; omega, rfl⟩)
    rw [e, exec_hvcurveto, h]
    rfl
  · have e : execOperator env gsubr lsubr buf start advance op_vhcurveto st out =
        (exec_vhcurveto st).map (fun r => Step.next r.1 r.2 advance) := rfl
    have h := corner_events_aux st (fun i => decide (i % 2 = 1)) k hk hn hcap h32 hr
      (fun i => if (i / 4) % 2 = 0 then curveVH st i else curveHV st i)
      (fun i => by
        have e1 : 4 * i / 4 = i := by omega
        by_cases hi : i % 2 = 0
        · have : ¬ i % 2 = 1 := by omega
          simp [e1, hi]
        · have : i % 2 = 1 := by omega
          simp [e1, this])
      (tailV st) (tailH st)
      (fun h8 => Or.inr ⟨by simp; omega, rfl⟩)
      (fun h8 => Or.inl ⟨by simp; omega, rfl⟩)
    rw [e, exec_vhcurveto, h]
    rfl

/-- C14, instance: depth 9 (`k = 2`) with the operands 1, 2, 3, 4, 5, 6, 7, 8
and 2147483647/65536; the last is not a `float` and arrives as 32768. -/
theorem corner_curve_events_witness :
    execOperator nopEnv emptyIndex emptyIndex [] 0 1 op_hvcurveto
        { freshStack 9 with
          stack := [1, 2, 3, 4, 5, 6, 7, 8, 2147483647 / 65536], index := 9 } [] =
      some (Step.next
        { freshStack 9 with stack := [1, 2, 3, 4, 5, 6, 7, 8, 2147483647 / 65536] }
        [Event.curveTo 1 0 2 3 0 4, Event.curveTo 0 5 6 7 8 32768] 1) ∧
    execOperator nopEnv emptyIndex emptyIndex [] 0 1 op_vhcurveto
        { freshStack 9 with
          stack := [1, 2, 3, 4, 5, 6, 7, 8, 2147483647 / 65536], index := 9 } [] =
      some (Step.next
        { freshStack 9 with stack := [1, 2, 3, 4, 5, 6, 7, 8, 2147483647 / 65536] }
        [Event.curveTo 0 1 2 3 4 0, Event.curveTo 5 0 6 7 32768 8] 1) :=
  have h := corner_curve_events nopEnv emptyIndex emptyIndex [] 0 1
    { freshStack 9 with stack := [1, 2, 3, 4, 5, 6, 7, 8, 2147483647 / 65536], index := 9 } [] 2
    (by decide) (Or.inr (by decide)) (by decide) (by decide) (by decide!)
  ⟨h.1.trans (by decide!), h.2.trans (by decide!)⟩

/-- C14 fails as stated: the program `FF 7F FF FF FF 8B 8B 8B 1F` pushes the
16.16 operand 2147483647/65536 and three zeros and runs `hvcurveto`; the stack
holds `a = 2147483647/65536`, and `curveTo` receives 32768, the nearest
`float`, as its first argument. -/
theorem corner_curve_argument_is_rounded :
    parse_outline_callback nopEnv 6 [0xFF, 0x7F, 0xFF, 0xFF, 0xFF, 0x8B, 0x8B, 0x8B, 0x1F] 0 9
        emptyIndex emptyIndex (freshStack 4) [] =
      Outcome.done { freshStack 4 with stack := [2147483647 / 65536, 0, 0, 0] }
        [Event.curveTo 32768 0 0 0 0 0] := by
  decide!

/-! ### `flex1` -/

theorem sum5_eq (a b c d e : ℚ) (h : doubleSum5Range a b c d e = true) :
    sum5 a b c d e = some (doubleSum5 a b c d e) := by
  simp only [doubleSum5Range, Bool.and_eq_true] at h
  obtain ⟨⟨⟨h1, h2⟩, h3⟩, h4⟩ := h
  simp [sum5, doubleSum5, toDouble_eq _ h1, toDouble_eq _ h2, toDouble_eq _ h3,
    toDouble_eq _ h4]

theorem flex1Sum_eq (st : CFF_Stack) (i : Nat) (h : i + 8 < st.stack.length)
    (hs : doubleSum5Range (operandAt st i) (operandAt st (i + 2)) (operandAt st (i + 4))
      (operandAt st (i + 6)) (operandAt st (i + 8)) = true) :
    flex1Sum st i = some (doubleSum5 (operandAt st i) (operandAt st (i + 2))
      (operandAt st (i + 4)) (operandAt st (i + 6)) (operandAt st (i + 8))) := by
  simp [flex1Sum, cell_eq_operandAt st i (by omega), cell_eq_operandAt st (i + 2) (by omega),
    cell_eq_operandAt st (i + 4) (by omega), cell_eq_operandAt st (i + 6) (by omega),
    cell_eq_operandAt st (i + 8) h, sum5_eq _ _ _ _ _ hs]

theorem curve6_zero (st : CFF_Stack) (h : 6 ≤ st.index) (hcap : st.index ≤ st.stack.length)
    (hr : floatOperands st = true) :
    curve6 st 0 = some [Event.curveTo (floatAt st 0) (floatAt st 1) (floatAt st 2)
      (floatAt st 3) (floatAt st 4) (floatAt st 5)] := by
  have hg := floatOperands_get st hr
  simp [curve6, floatCellI_eq st 0 0 rfl (by omega) (hg _ (by omega)),
    floatCellI_eq st 1 1 rfl (by omega) (hg _ (by omega)),
    floatCellI_eq st 2 2 rfl (by omega) (hg _ (by omega)),
    floatCellI_eq st 3 3 rfl (by omega) (hg _ (by omega)),
    floatCellI_eq st 4 4 rfl (by omega) (hg _ (by omega)),
    floatCellI_eq st 5 5 rfl (by omega) (hg _ (by omega))]

theorem flex1Second_eq (st : CFF_Stack) (dx dy : ℚ) (h : 10 ≤ st.index)
    (hcap : st.index ≤ st.stack.length) (hr : floatOperands st = true)
    (hx : inFloatRange dx = true) (hy : inFloatRange dy = true) :
    flex1Second st dx dy = some [Event.curveTo (floatAt st 6) (floatAt st 7) (floatAt st 8)
      (floatAt st 9) (roundFloat dx) (roundFloat dy)] := by
  have hg := floatOperands_get st hr
  simp [flex1Second, floatCell_eq st 6 (by omega) (hg _ (by omega)),
    floatCell_eq st 7 (by omega) (hg _ (by omega)),
    floatCell_eq st 8 (by omega) (hg _ (by omega)),
    floatCell_eq st 9 (by omega) (hg _ (by omega)), toFloat_eq _ hx, toFloat_eq _ hy]

/-- C15, as the code has it: on a stack `s` of depth at least 11 (inside the
cell array) `flex1` sends exactly two `curveTo` events and leaves depth 0: the
first is `curveTo(s0, s1, s2, s3, s4, s5)`, the second
`curveTo(s6, s7, s8, s9, x, y)` where, with `dx = s0+s2+s4+s6+s8` and
`dy = s1+s3+s5+s7+s9`, `(x, y)` is `(s10, -dy)` when `|dx| > |dy|` and
`(-dx, s10)` otherwise.  The sums `dx` and `dy` are `double` sums, rounded after
each addition (`flex1dx`, `flex1dy`), and every argument arrives converted to
`float`; the operands, the sums and the negated sum are taken to stay within
the range of their types. -/
theorem flex1_events (env : Env) (gsubr lsubr : CFF_Index) (buf : List Nat)
    (start advance : Nat) (st : CFF_Stack) (out : List Event)
    (hn : 11 ≤ st.index) (hcap : st.index ≤ st.stack.length)
    (hr : floatOperands st = true) (hsum : flex1SumsRange st = true)
    (hd : inFloatRange
      (if |flex1dx st| > |flex1dy st| then -flex1dy st else -flex1dx st) = true) :
    execOperator env gsubr lsubr buf start advance op_flex1 st out =
      some (Step.next { st with index := 0 }
        [Event.curveTo (floatAt st 0) (floatAt st 1) (floatAt st 2) (floatAt st 3)
            (floatAt st 4) (floatAt st 5),
          Event.curveTo (floatAt st 6) (floatAt st 7) (floatAt st 8) (floatAt st 9)
            (if |flex1dx st| > |flex1dy st| then floatAt st 10 else roundFloat (-flex1dx st))
            (if |flex1dx st| > |flex1dy st| then roundFloat (-flex1dy st) else floatAt st 10)]
        advance) := by
  have e : execOperator env gsubr lsubr buf start advance op_flex1 st out =
      (exec_flex1 st).map (fun r => Step.next r.1 r.2 advance) := rfl
  have h11 : ¬ st.index < 11 := by omega
  simp only [flex1SumsRange, Bool.and_eq_true] at hsum
  have hx := flex1Sum_eq st 0 (by omega) hsum.1
  have hy := flex1Sum_eq st 1 (by omega) hsum.2
  have h10 := floatOperands_get st hr 10 (by omega)
  have c10 := cell_eq_operandAt st 10 (by omega)
  have c1 := curve6_zero st (by omega) hcap hr
  rw [e, exec_flex1]
  by_cases hgt : |flex1dx st| > |flex1dy st|
  · rw [if_pos hgt] at hd
    have c2 := flex1Second_eq st (operandAt st 10) (-flex1dy st) (by omega) hcap hr h10 hd
    rw [if_pos hgt, if_pos hgt]
    simp only [flex1dx, flex1dy] at hgt c2
    simp [h11, hx, hy, c10, c1, hgt, c2, floatAt, flex1dx, flex1dy]
  · rw [if_neg hgt] at hd
    have c2 := flex1Second_eq st (-flex1dx st) (operandAt st 10) (by omega) hcap hr hd h10
    rw [if_neg hgt, if_neg hgt]
    simp only [flex1dx, flex1dy] at hgt c2
    simp [h11, hx, hy, c10, c1, hgt, c2, floatAt, flex1dx, flex1dy]

/-- C15, instance: the stack `[1, 2, 3, 4, 5, 6, 7, 8, 9, 10, 11]`, where
`dx = 25`, `dy = 30`, so the second curve ends with `(-25, 11)`. -/
theorem flex1_events_witness :
    execOperator nopEnv emptyIndex emptyIndex [] 0 2 op_flex1
        { freshStack 11 with stack := [1, 2, 3, 4, 5, 6, 7, 8, 9, 10, 11], index := 11 } [] =
      some (Step.next { freshStack 11 with stack := [1, 2, 3, 4, 5, 6, 7, 8, 9, 10, 11] }
        [Event.curveTo 1 2 3 4 5 6, Event.curveTo 7 8 9 10 (-25) 11] 2) :=
  (flex1_events nopEnv emptyIndex emptyIndex [] 0 2
    { freshStack 11 with stack := [1, 2, 3, 4, 5, 6, 7, 8, 9, 10, 11], index := 11 } []
    (by decide) (by decide) (by decide!) (by decide!) (by decide!)).trans (by decide!)

/-- C15 fails as stated: the program pushes `s0 = s1 = 2147483647/65536` and
nine zeros and runs `flex1` (`0C 25`).  Here `dx = dy = 2147483647/65536`, so
C15 expects `curveTo(s0, s1, 0, 0, 0, 0)` and `curveTo(0, 0, 0, 0, -dx, 0)`; the
builder receives 32768 and -32768, the nearest `float`s. -/
theorem flex1_arguments_are_rounded :
    parse_outline_callback nopEnv 13
        [0xFF, 0x7F, 0xFF, 0xFF, 0xFF, 0xFF, 0x7F, 0xFF, 0xFF, 0xFF, 0x8B, 0x8B, 0x8B, 0x8B,
          0x8B, 0x8B, 0x8B, 0x8B, 0x8B, 0x0C, 0x25] 0 21
        emptyIndex emptyIndex (freshStack 12) [] =
      Outcome.done
        { freshStack 12 with
          stack := [2147483647 / 65536, 2147483647 / 65536, 0, 0, 0, 0, 0, 0, 0, 0, 0, 0] }
        [Event.curveTo 32768 32768 0 0 0 0, Event.curveTo 0 0 0 0 (-32768) 0] := by
  decide!

/-! ### `sub` and `div` -/

theorem exec_binary_eq (f : ℚ → ℚ → Option ℚ) (st : CFF_Stack) (r : ℚ) (hn : 2 ≤ st.index)
    (hcap : st.index ≤ st.stack.length)
    (hf : f (operandAt st (st.index - 2)) (operandAt st (st.index - 1)) = some r) :
    exec_binary f st =
      some ({ st with stack := st.stack.set (st.index - 2) r, index := st.index - 1 }, []) := by
  have h2 : ¬ st.index < 2 := by omega
  have hlen : st.index - 2 < st.stack.length := by omega
  simp [exec_binary, h2, cell_eq_operandAt st (st.index - 2) (by omega),
    cell_eq_operandAt st (st.index - 1) (by omega), hf, setCell, hlen]

/-- C20, as the code has it: on a stack of depth `d ≥ 2` (inside the cell
array) with `a = stack[d-2]` and `b = stack[d-1]`, `sub` leaves depth `d - 1`
with the `double` nearest to `a - b` in cell `d - 2`, its new top, and for
`b ≠ 0` `div` leaves depth `d - 1` with the `double` nearest to `a / b` there,
when that `double` is finite; no other cell changes and nothing is sent to the
builder. -/
theorem sub_div_result (env : Env) (gsubr lsubr : CFF_Index) (buf : List Nat)
    (start advance : Nat) (st : CFF_Stack) (out : List Event)
    (hn : 2 ≤ st.index) (hcap : st.index ≤ st.stack.length) :
    (inDoubleRange (operandAt st (st.index - 2) - operandAt st (st.index - 1)) = true →
      execOperator env gsubr lsubr buf start advance op_sub st out =
        some (Step.next
          { st with
            stack := st.stack.set (st.index - 2)
              (roundDouble (operandAt st (st.index - 2) - operandAt st (st.index - 1))),
            index := st.index - 1 } [] advance)) ∧
    (operandAt st (st.index - 1) ≠ 0 →
      inDoubleRange (operandAt st (st.index - 2) / operandAt st (st.index - 1)) = true →
      execOperator env gsubr lsubr buf start advance op_div st out =
        some (Step.next
          { st with
            stack := st.stack.set (st.index - 2)
              (roundDouble (operandAt st (st.index - 2) / operandAt st (st.index - 1))),
            index := st.index - 1 } [] advance)) := by
  constructor
  · intro hs
    have e : execOperator env gsubr lsubr buf start advance op_sub st out =
        (exec_binary (fun num1 num2 => toDouble (num1 - num2)) st).map
          (fun r => Step.next r.1 r.2 advance) := rfl
    rw [e, exec_binary_eq _ st _ hn hcap (toDouble_eq _ hs)]
    rfl
  · intro hb hd
    have e : execOperator env gsubr lsubr buf start advance op_div st out =
        (exec_binary (fun num1 num2 => if num2 = 0 then none else toDouble (num1 / num2)) st).map
          (fun r => Step.next r.1 r.2 advance) := rfl
    rw [e, exec_binary_eq _ st _ hn hcap (by rw [if_neg hb]; exact toDouble_eq _ hd)]
    rfl

/-- C20, instance: the stack `[9, 1, 3]`: `sub` leaves `[9, -2]`, `div` leaves
`[9, q]` with `q = 6004799503160661 / 2^54`, the `double` nearest to `1/3`. -/
theorem sub_div_result_witness :
    execOperator nopEnv emptyIndex emptyIndex [] 0 2 op_sub
        { freshStack 3 with stack := [9, 1, 3], index := 3 } [] =
      some (Step.next { freshStack 3 with stack := [9, -2, 3], index := 2 } [] 2) ∧
    execOperator nopEnv emptyIndex emptyIndex [] 0 2 op_div
        { freshStack 3 with stack := [9, 1, 3], index := 3 } [] =
      some (Step.next
        { freshStack 3 with
          stack := [9, 6004799503160661 / 18014398509481984, 3], index := 2 } [] 2) :=
  have h := sub_div_result nopEnv emptyIndex emptyIndex [] 0 2
    { freshStack 3 with stack := [9, 1, 3], index := 3 } [] (by decide) (by decide)
  ⟨(h.1 (by decide!)).trans (by decide!), (h.2 (by decide!) (by decide!)).trans (by decide!)⟩

/-- C20 fails as stated: the program `8C 8E 0C 0C` pushes 1 and 3 and runs
`div`; the new top is `6004799503160661 / 2^54`, the `double` nearest to `1/3`,
and not `1/3`. -/
theorem div_result_is_rounded :
    parse_outline_callback nopEnv 4 [0x8C, 0x8E, 0x0C, 0x0C] 0 4
        emptyIndex emptyIndex (freshStack 4) [] =
      Outcome.done
        { freshStack 4 with
          stack := [6004799503160661 / 18014398509481984, 3, 0, 0], index := 1 } [] ∧
    (6004799503160661 / 18014398509481984 : ℚ) ≠ 1 / 3 := by
  constructor <;> decide!

/-! ### `index` -/

theorem truncQ_natCast (i : Nat) : truncQ (i : ℚ) = (i : Int) := by
  rw [← Int.cast_natCast]
  exact truncQ_intCast _

theorem toU8_of_lt (z : Int) (h0 : 0 ≤ z) (h : z < 256) : toU8 z = z.toNat := by
  unfold toU8
  omega

/-- C17: on a stack of depth `d` with `2 ≤ d ≤ 256` (inside the cell array)
whose top entry is a natural number `i < d - 1`, `index` keeps the depth,
overwrites the top cell `d - 1` with the value of cell `d - 2 - i`, changes no
other cell and sends nothing to the builder. -/
theorem index_copies_entry (env : Env) (gsubr lsubr : CFF_Index) (buf : List Nat)
    (start advance : Nat) (st : CFF_Stack) (out : List Event) (i : Nat)
    (hn : 2 ≤ st.index) (hcap : st.index ≤ st.stack.length) (h8 : st.index ≤ 256)
    (htop : operandAt st (st.index - 1) = (i : ℚ)) (hi : i < st.index - 1) :
    execOperator env gsubr lsubr buf start advance op_index st out =
      some (Step.next
        { st with stack := st.stack.set (st.index - 1) (operandAt st (st.index - 2 - i)) }
        [] advance) := by
  have e : execOperator env gsubr lsubr buf start advance op_index st out =
      (exec_index st).map (fun r => Step.next r.1 r.2 advance) := rfl
  have h2 : ¬ st.index < 2 := by omega
  have en : toU8 ((st.index : Int) - 1) = st.index - 1 := by
    rw [toU8_of_lt _ (by omega) (by omega)]
    omega
  have hn0 : ¬ st.index - 1 = 0 := by omega
  have ei : toU8 (i : Int) % (st.index - 1) = i := by
    rw [toU8_of_lt _ (by omega) (by omega), Int.toNat_ofNat]
    exact Nat.mod_eq_of_lt hi
  have ej : toU8 (((st.index - 1 : Nat) : Int) - 1 - ((i : Nat) : Int)) = st.index - 2 - i := by
    rw [toU8_of_lt _ (by omega) (by omega)]
    omega
  have hlen : st.index - 1 < st.stack.length := by omega
  rw [e]
  simp only [exec_index, if_neg h2, en, if_neg hn0]
  rw [cell_eq_operandAt st (st.index - 1) (by omega), htop]
  simp only [Option.bind_eq_bind, Option.some_bind, truncQ_natCast, ei, ej]
  rw [cell_eq_operandAt st (st.index - 2 - i) (by omega)]
  simp [setCell, hlen]

/-- C17, instance: on `[4, 5, 6, 1]` the operand `1` is replaced by a copy
of `5`. -/
theorem index_copies_entry_witness :
    execOperator nopEnv emptyIndex emptyIndex [] 0 2 op_index
        { freshStack 4 with stack := [4, 5, 6, 1], index := 4 } [] =
      some (Step.next { freshStack 4 with stack := [4, 5, 6, 5], index := 4 } [] 2) :=
  (index_copies_entry nopEnv emptyIndex emptyIndex [] 0 2
    { freshStack 4 with stack := [4, 5, 6, 1], index := 4 } [] 1
    (by decide) (by decide) (by decide) (by decide!) (by decide)).trans (by decide!)

/-! ### `put` and `get` -/

theorem toInt32_natCast (k : Nat) (hk : k < 2147483648) : toInt32 (k : ℚ) = (k : Int) := by
  unfold toInt32
  rw [truncQ_natCast]
  have e : toU32 (k : Int) = k := by
    unfold toU32
    omega
  rw [e]
  unfold toI32
  rw [if_pos hk]

/-- C19: for the index `-1` the subscript `i % type2_transient_array` of `put`
and `get` is `-1`, not `31`: the access lies before the first entry of the
transient array, which the embedding reports as a failed step. `put` on the
stack `[5, -1]` and `get` on the stack `[-1]` both fail, and so do the
programs `90 8A 0C 14` (5, -1, put) and `8A 0C 15` (-1, get). -/
theorem transient_slot_negative :
    Int.tmod (toInt32 (-1)) type2_transient_array = -1 ∧
    execOperator nopEnv emptyIndex emptyIndex [] 0 2 op_put
        { freshStack 4 with stack := [5, -1, 0, 0], index := 2 } [] = none ∧
    execOperator nopEnv emptyIndex emptyIndex [] 0 2 op_get
        { freshStack 4 with stack := [-1, 0, 0, 0], index := 1 } [] = none ∧
    parse_outline_callback nopEnv 4 [0x90, 0x8A, 0x0c, 0x14] 0 4 emptyIndex emptyIndex
        (freshStack 48) [] = Outcome.fault ∧
    parse_outline_callback nopEnv 4 [0x8A, 0x0c, 0x15] 0 3 emptyIndex emptyIndex
        (freshStack 48) [] = Outcome.fault := by
  decide!

/-! ### `roll` -/

theorem tmod_fix (a N : Int) (hN : 0 < N) :
    (if a.tmod N < 0 then a.tmod N + N else a.tmod N) = a % N := by
  obtain ⟨n, rfl⟩ := Int.eq_ofNat_of_zero_le hN.le
  have hn : 0 < n := by omega
  cases a with
  | ofNat m =>
    have h : (Int.ofNat m).tmod n = Int.ofNat m % n :=
      Int.tmod_eq_emod (Int.ofNat_nonneg _) hN.le
    have h0 := Int.emod_nonneg (Int.ofNat m) hN.ne'
    rw [h, if_neg (by omega)]
  | negSucc m =>
    have h : (Int.negSucc m).tmod (n : Int) = -(((m + 1) % n : Nat) : Int) := rfl
    have hd := Nat.div_add_mod (m + 1) n
    have hr : (m + 1) % n < n := Nat.mod_lt _ hn
    rw [h]
    generalize (m + 1) % n = r at hd hr
    generalize (m + 1) / n = q at hd
    have ha : Int.negSucc m = ((n : Int) - r) + (-(q : Int) - 1) * n := by
      rw [Int.negSucc_eq]
      have hd2 : ((m : Int) + 1) = (n : Int) * q + r := by exact_mod_cast hd.symm
      rw [hd2]
      ring
    rw [ha, Int.add_mul_emod_self]
    by_cases hr0 : r = 0
    · subst hr0
      simp
    · rw [if_pos (by omega), Int.emod_eq_of_lt (by omega) (by omega)]
      ring

theorem toInt32_intCast (z : Int) (h0 : -2147483648 ≤ z) (h1 : z < 2147483648) :
    toInt32 (z : ℚ) = z := by
  unfold toInt32
  rw [truncQ_intCast]
  unfold toU32 toI32
  split_ifs <;> omega

/-- C29, as the code has it: when `J` is a multiple of `N` (zero included) the
shift `j` is 0 and `roll` leaves its `case` through `if (!j) break;`, before
`stack->index -= 2`: the whole state is unchanged, so the group keeps its
order but the depth is still `d` and the operands `N` and `J` stay on the
stack. -/
theorem roll_multiple_keeps_operands (env : Env) (gsubr lsubr : CFF_Index) (buf : List Nat)
    (start advance : Nat) (st : CFF_Stack) (out : List Event) (N : Nat) (J : Int)
    (hN : 1 ≤ N) (hd : N + 2 ≤ st.index) (h8 : st.index ≤ 256)
    (hcap : st.index ≤ st.stack.length)
    (hJ : (N : Int) ∣ J) (hJ0 : -2147483648 < J) (hJ1 : J < 2147483648)
    (hcn : operandAt st (st.index - 2) = (N : ℚ))
    (hcj : operandAt st (st.index - 1) = (J : ℚ)) :
    execOperator env gsubr lsubr buf start advance op_roll st out =
      some (Step.next st [] advance) := by
  refine map_next_of_skip advance st (exec_roll st) ?_
  have hNpos : (0 : Int) < (N : Int) := by omega
  have hj : (-J) % (N : Int) = 0 := Int.dvd_iff_emod_eq_zero.mp (Int.dvd_neg.mpr hJ)
  have h2 : ¬ st.index < 2 := by omega
  have hcheck : ¬ (st.index : Int) < 2 + (N : Int) := by omega
  have hn0 : ¬ (N : Int) = 0 := by omega
  simp only [exec_roll, if_neg h2]
  rw [cell_eq_operandAt st (st.index - 1) (by omega), hcj,
    cell_eq_operandAt st (st.index - 2) (by omega), hcn]
  simp only [Option.bind_eq_bind, Option.some_bind, toInt32_natCast N (by omega),
    toInt32_intCast J (by omega) hJ1, if_neg hcheck, if_neg hn0, tmod_fix _ _ hNpos, hj,
    if_true]
  rfl

/-- C29, instance: on `[10, 20, 30, 3, 0]` (`N = 3`, `J = 0`) `roll` changes
nothing: the depth stays 5; the same for `J = 3` and `J = -6`, and the
program `95 9F A9 8E 8B 0C 1E` ends with depth 5. -/
theorem roll_multiple_keeps_operands_witness :
    execOperator nopEnv emptyIndex emptyIndex [] 0 2 op_roll
        { freshStack 5 with stack := [10, 20, 30, 3, 0], index := 5 } [] =
      some (Step.next { freshStack 5 with stack := [10, 20, 30, 3, 0], index := 5 } [] 2) ∧
    execOperator nopEnv emptyIndex emptyIndex [] 0 2 op_roll
        { freshStack 5 with stack := [10, 20, 30, 3, 3], index := 5 } [] =
      some (Step.next { freshStack 5 with stack := [10, 20, 30, 3, 3], index := 5 } [] 2) ∧
    execOperator nopEnv emptyIndex emptyIndex [] 0 2 op_roll
        { freshStack 5 with stack := [10, 20, 30, 3, -6], index := 5 } [] =
      some (Step.next { freshStack 5 with stack := [10, 20, 30, 3, -6], index := 5 } [] 2) ∧
    parse_outline_callback nopEnv 7 [0x95, 0x9F, 0xA9, 0x8E, 0x8B, 0x0c, 0x1e] 0 7
        emptyIndex emptyIndex (freshStack 5) [] =
      Outcome.done { freshStack 5 with stack := [10, 20, 30, 3, 0], index := 5 } [] :=
  ⟨roll_multiple_keeps_operands nopEnv emptyIndex emptyIndex [] 0 2
      { freshStack 5 with stack := [10, 20, 30, 3, 0], index := 5 } [] 3 0
      (by decide) (by decide) (by decide) (by decide) (by decide) (by decide) (by decide)
      (by decide!) (by decide!),
    by decide!, by decide!, by decide!⟩

/-! ### The `OS/2` reader -/

theorem caryll_blt16u_eq (data : List Nat) (p : Nat) (h : p + 1 < data.length) :
    caryll_blt16u data p = some (byteAt data p * 256 + byteAt data (p + 1)) := by
  simp [caryll_blt16u, rdByte_eq_byteAt data p (by omega), rdByte_eq_byteAt data (p + 1) h]

theorem caryll_blt32u_eq (data : List Nat) (p : Nat) (h : p + 3 < data.length) :
    caryll_blt32u data p =
      some (((byteAt data p * 256 + byteAt data (p + 1)) * 256 + byteAt data (p + 2)) * 256 +
        byteAt data (p + 3)) := by
  simp [caryll_blt32u, rdByte_eq_byteAt data p (by omega),
    rdByte_eq_byteAt data (p + 1) (by omega), rdByte_eq_byteAt data (p + 2) (by omega),
    rdByte_eq_byteAt data (p + 3) h]

theorem mapM_all_some {α β : Type} (f : α → Option β) (g : α → β) (l : List α)
    (h : ∀ a ∈ l, f a = some (g a)) : l.mapM f = some (l.map g) := by
  induction l with
  | nil => rfl
  | cons a l ih =>
    rw [List.mapM_cons, h a (List.mem_cons_self a l), ih (fun b hb => h b (List.mem_cons_of_mem a hb))]
    rfl

theorem copyBytes_eq (data : List Nat) (p n : Nat) (h : p + n ≤ data.length) :
    copyBytes data p n = some ((List.range n).map (fun i => byteAt data (p + i))) := by
  refine mapM_all_some _ _ _ ?_
  intro i hi
  have hlt : i < n := List.mem_range.mp hi
  exact rdByte_eq_byteAt data (p + i) (by omega)

theorem read_OS_2_v1a_eq (data : List Nat) (os_2 : table_OS_2) (h : 86 ≤ data.length) :
    ∃ t, read_OS_2_v1a data os_2 = some t ∧ t.version = os_2.version ∧
      t.usLowerOpticalPointSize = os_2.usLowerOpticalPointSize ∧
      t.usUpperOpticalPointSize = os_2.usUpperOpticalPointSize := by
  rw [read_OS_2_v1a]
  simp only [caryll_blt16u_eq data 2 (by omega),
    caryll_blt16u_eq data 4 (by omega),
    caryll_blt16u_eq data 6 (by omega),
    caryll_blt16u_eq data 8 (by omega),
    caryll_blt16u_eq data 10 (by omega),
    caryll_blt16u_eq data 12 (by omega),
    caryll_blt16u_eq data 14 (by omega),
    caryll_blt16u_eq data 16 (by omega),
    Option.bind_eq_bind, Option.some_bind]
  exact ⟨_, rfl, rfl, rfl, rfl⟩

theorem read_OS_2_v1b_eq (data : List Nat) (os_2 : table_OS_2) (h : 86 ≤ data.length) :
    ∃ t, read_OS_2_v1b data os_2 = some t ∧ t.version = os_2.version ∧
      t.usLowerOpticalPointSize = os_2.usLowerOpticalPointSize ∧
      t.usUpperOpticalPointSize = os_2.usUpperOpticalPointSize := by
  rw [read_OS_2_v1b]
  simp only [caryll_blt16u_eq data 18 (by omega),
    caryll_blt16u_eq data 20 (by omega),
    caryll_blt16u_eq data 22 (by omega),
    caryll_blt16u_eq data 24 (by omega),
    caryll_blt16u_eq data 26 (by omega),
    caryll_blt16u_eq data 28 (by omega),
    caryll_blt16u_eq data 30 (by omega),
    copyBytes_eq data 32 10 (by omega),
    Option.bind_eq_bind, Option.some_bind]
  exact ⟨_, rfl, rfl, rfl, rfl⟩

theorem read_OS_2_v1c_eq (data : List Nat) (os_2 : table_OS_2) (h : 86 ≤ data.length) :
    ∃ t, read_OS_2_v1c data os_2 = some t ∧ t.version = os_2.version ∧
      t.usLowerOpticalPointSize = os_2.usLowerOpticalPointSize ∧
      t.usUpperOpticalPointSize = os_2.usUpperOpticalPointSize := by
  rw [read_OS_2_v1c]
  simp only [caryll_blt32u_eq data 42 (by omega),
    caryll_blt32u_eq data 46 (by omega),
    caryll_blt32u_eq data 50 (by omega),
    caryll_blt32u_eq data 54 (by omega),
    copyBytes_eq data 58 4 (by omega),
    caryll_blt16u_eq data 62 (by omega),
    caryll_blt16u_eq data 64 (by omega),
    caryll_blt16u_eq data 66 (by omega),
    Option.bind_eq_bind, Option.some_bind]
  exact ⟨_, rfl, rfl, rfl, rfl⟩

theorem read_OS_2_v1d_eq (data : List Nat) (os_2 : table_OS_2) (h : 86 ≤ data.length) :
    ∃ t, read_OS_2_v1d data os_2 = some t ∧ t.version = os_2.version ∧
      t.usLowerOpticalPointSize = os_2.usLowerOpticalPointSize ∧
      t.usUpperOpticalPointSize = os_2.usUpperOpticalPointSize := by
  rw [read_OS_2_v1d]
  simp only [caryll_blt16u_eq data 68 (by omega),
    caryll_blt16u_eq data 70 (by omega),
    caryll_blt16u_eq data 72 (by omega),
    caryll_blt16u_eq data 74 (by omega),
    caryll_blt16u_eq data 76 (by omega),
    caryll_blt32u_eq data 78 (by omega),
    caryll_blt32u_eq data 82 (by omega),
    Option.bind_eq_bind, Option.some_bind]
  exact ⟨_, rfl, rfl, rfl, rfl⟩

theorem read_OS_2_v2_eq (data : List Nat) (os_2 : table_OS_2) (h : 96 ≤ data.length) :
    ∃ t, read_OS_2_v2 data os_2 = some t ∧ t.version = os_2.version ∧
      t.usLowerOpticalPointSize = os_2.usLowerOpticalPointSize ∧
      t.usUpperOpticalPointSize = os_2.usUpperOpticalPointSize := by
  rw [read_OS_2_v2]
  simp only [caryll_blt16u_eq data 86 (by omega),
    caryll_blt16u_eq data 88 (by omega),
    caryll_blt16u_eq data 90 (by omega),
    caryll_blt16u_eq data 92 (by omega),
    caryll_blt16u_eq data 94 (by omega),
    Option.bind_eq_bind, Option.some_bind]
  exact ⟨_, rfl, rfl, rfl, rfl⟩

theorem read_OS_2_v1_eq (data : List Nat) (os_2 : table_OS_2) (h : 86 ≤ data.length) :
    ∃ t, read_OS_2_v1 data os_2 = some t ∧ t.version = os_2.version ∧
      t.usLowerOpticalPointSize = os_2.usLowerOpticalPointSize ∧
      t.usUpperOpticalPointSize = os_2.usUpperOpticalPointSize := by
  obtain ⟨a, ea, va, la, ua⟩ := read_OS_2_v1a_eq data os_2 h
  obtain ⟨b, eb, vb, lb, ub⟩ := read_OS_2_v1b_eq data a h
  obtain ⟨c, ec, vc, lc, uc⟩ := read_OS_2_v1c_eq data b h
  obtain ⟨d, ed, vd, ld, ud⟩ := read_OS_2_v1d_eq data c h
  refine ⟨d, ?_, by omega, by omega, by omega⟩
  rw [read_OS_2_v1]
  simp only [ea, eb, ec, ed, Option.bind_eq_bind, Option.some_bind]

theorem read_OS_2_v5_eq (data : List Nat) (os_2 : table_OS_2) (h : 100 ≤ data.length) :
    read_OS_2_v5 data os_2 =
      some { os_2 with usLowerOpticalPointSize := byteAt data 98 * 256 + byteAt data 99 } := by
  rw [read_OS_2_v5]
  simp only [caryll_blt16u_eq data 96 (by omega), caryll_blt16u_eq data 98 (by omega),
    Option.bind_eq_bind, Option.some_bind]

theorem read_OS_2_table_v5 (data : List Nat) (length : Nat)
    (hv : 5 ≤ byteAt data 0 * 256 + byteAt data 1) (hlen : 100 ≤ length)
    (hbuf : length ≤ data.length) :
    ∃ t, read_OS_2_table data length = some (some t) ∧
      t.version = byteAt data 0 * 256 + byteAt data 1 ∧
      t.usLowerOpticalPointSize = byteAt data 98 * 256 + byteAt data 99 ∧
      t.usUpperOpticalPointSize = 0 := by
  obtain ⟨a, ea, va, la, ua⟩ := read_OS_2_v1_eq data
    (zeroed_OS_2 (byteAt data 0 * 256 + byteAt data 1)) (by omega)
  obtain ⟨b, eb, vb, lb, ub⟩ := read_OS_2_v2_eq data a (by omega)
  have h2 : ¬ length < 2 := by omega
  have c1 : ¬ (byteAt data 0 * 256 + byteAt data 1 = 0 ∨
      (byteAt data 0 * 256 + byteAt data 1 ≥ 1 ∧ length < 86)) := by omega
  have g1 : byteAt data 0 * 256 + byteAt data 1 ≥ 1 := by omega
  have c2 : ¬ (byteAt data 0 * 256 + byteAt data 1 ≥ 2 ∧ length < 96) := by omega
  have g2 : byteAt data 0 * 256 + byteAt data 1 ≥ 2 := by omega
  have c5 : ¬ (byteAt data 0 * 256 + byteAt data 1 ≥ 5 ∧ length < 100) := by omega
  have g5 : byteAt data 0 * 256 + byteAt data 1 ≥ 5 := hv
  refine ⟨{ b with usLowerOpticalPointSize := byteAt data 98 * 256 + byteAt data 99 }, ?_,
    ?_, rfl, ?_⟩
  · rw [read_OS_2_table, if_neg h2]
    simp only [caryll_blt16u_eq data 0 (by omega), Option.bind_eq_bind, Option.some_bind,
      if_neg c1, if_pos g1, ea, if_neg c2, if_pos g2, eb, if_neg c5, if_pos g5,
      read_OS_2_v5_eq data b (by omega)]
  · show b.version = _
    rw [vb, va]
    rfl
  · show b.usUpperOpticalPointSize = 0
    rw [ub, ua]
    rfl

/-- C28, as the code has it: for an `OS/2` table of version at least 5 and
length at least 100 (all of it inside `data`) `caryll_read_OS_2` returns a
table whose `usLowerOpticalPointSize` is the big-endian 16-bit value at byte
offset 98, the second of two assignments to that field, and whose
`usUpperOpticalPointSize` is the 0 left by `calloc`: the value at offset 96 is
overwritten and the upper size is never assigned. -/
theorem optical_point_sizes (data : List Nat) (length : Nat) (rest : List (List Nat × Nat))
    (hv : 5 ≤ byteAt data 0 * 256 + byteAt data 1) (hlen : 100 ≤ length)
    (hbuf : length ≤ data.length) :
    ∃ t, caryll_read_OS_2 ((data, length) :: rest) = some (some t) ∧
      t.version = byteAt data 0 * 256 + byteAt data 1 ∧
      t.usLowerOpticalPointSize = byteAt data 98 * 256 + byteAt data 99 ∧
      t.usUpperOpticalPointSize = 0 := by
  obtain ⟨t, e, v, l, u⟩ := read_OS_2_table_v5 data length hv hlen hbuf
  refine ⟨t, ?_, v, l, u⟩
  rw [caryll_read_OS_2, e]

/-- C28, instance: a table of 100 bytes, version 5, whose bytes 96..99 are
`00 08 00 48`: the table returned has lower size 72 (not 8) and upper size 0
(not 72). -/
theorem optical_point_sizes_witness :
    ∃ t, caryll_read_OS_2
        [([0, 5] ++ List.replicate 94 0 ++ [0x00, 0x08, 0x00, 0x48], 100)] = some (some t) ∧
      t.version = 5 ∧ t.usLowerOpticalPointSize = 72 ∧ t.usUpperOpticalPointSize = 0 :=
  optical_point_sizes ([0, 5] ++ List.replicate 94 0 ++ [0x00, 0x08, 0x00, 0x48]) 100 []
    (by decide) (by decide) (by decide)

/-! ### `parse_encoding` -/

theorem rdByte_payload (pre l post : List Nat) (k : Nat) (hk : k < l.length) :
    rdByte (pre ++ l ++ post) (pre.length + k) = some (byteAt l k) := by
  have h1 : (pre ++ l ++ post)[pre.length + k]? = l[k]? := by
    rw [List.append_assoc, List.getElem?_append_right (by omega)]
    have e : pre.length + k - pre.length = k := by omega
    rw [e, List.getElem?_append_left hk]
  unfold rdByte byteAt
  rw [h1, List.getElem?_eq_getElem hk]
  rfl

theorem toU32_of_lt (z : Int) (h0 : 0 ≤ z) (h : z < 4294967296) : toU32 z = z.toNat := by
  unfold toU32
  omega

theorem map_byteAt_range (c : List Nat) (h : ∀ b ∈ c, b < 256) :
    (List.range c.length).map (fun i => byteAt c i) = c := by
  apply List.ext_getElem
  · simp
  · intro i h1 h2
    have hi : i < c.length := by simpa using h1
    have hb : c.get ⟨i, hi⟩ < 256 := h (c.get ⟨i, hi⟩) (List.get_mem c i hi)
    rw [List.get_eq_getElem] at hb
    simp [byteAt, List.getElem?_eq_getElem hi, Nat.mod_eq_of_lt hb]

theorem flatMap_pair_even (r : List (Nat × Nat)) : ∀ i, i < r.length →
    (r.flatMap (fun p => [p.1, p.2]))[2 * i]? = (r[i]?).map Prod.fst ∧
    (r.flatMap (fun p => [p.1, p.2]))[2 * i + 1]? = (r[i]?).map Prod.snd := by
  induction r with
  | nil => intro i hi; simp at hi
  | cons p r ih =>
    intro i hi
    cases i with
    | zero => simp [List.flatMap_cons]
    | succ i =>
      have hi2 : i < r.length := by simpa using hi
      obtain ⟨h1, h2⟩ := ih i hi2
      have e1 : 2 * (i + 1) = 2 * i + 2 := by ring
      have e2 : 2 * (i + 1) + 1 = 2 * i + 1 + 2 := by ring
      constructor
      · rw [e1, List.flatMap_cons]
        simpa using h1
      · rw [e2, List.flatMap_cons]
        simpa using h2

theorem flatMap_pair_length (r : List (Nat × Nat)) :
    (r.flatMap (fun p => [p.1, p.2])).length = 2 * r.length := by
  induction r with
  | nil => rfl
  | cons p r ih => simp [List.flatMap_cons, ih]; omega

/-- C22: `parse_encoding` undoes the canonical encoding of Formats 0 and 1.
For a payload placed at an offset `pre.length ≥ 2` (below `2^31`) of the raw
data, whatever follows it: the payload `[0, len c] ++ c` of at most 255 code
bytes `c` gives the Format 0 variant with `ncodes = len c` and the code array
`c`; the payload `[1, len r] ++ flatten r` of at most 255 byte pairs
`(first, nLeft)` gives the Format 1 variant with `nranges = len r` and the
ranges `r` in order. -/
theorem encoding_decode_encode (pre post : List Nat) (hpre : 2 ≤ pre.length)
    (h31 : pre.length < 2147483648) :
    (∀ c : List Nat, c.length ≤ 255 → (∀ b ∈ c, b < 256) →
      parse_encoding (pre ++ ([0, c.length] ++ c) ++ post) (pre.length : Int) =
        some (CFF_Encoding.format0 c.length c)) ∧
    (∀ r : List (Nat × Nat), r.length ≤ 255 → (∀ p ∈ r, p.1 < 256 ∧ p.2 < 256) →
      parse_encoding (pre ++ ([1, r.length] ++ r.flatMap (fun p => [p.1, p.2])) ++ post)
          (pre.length : Int) =
        some (CFF_Encoding.format1 r.length r)) := by
  have hs : ¬ (pre.length : Int) = CFF_ENC_STANDARD := by unfold CFF_ENC_STANDARD; omega
  have he : ¬ (pre.length : Int) = CFF_ENC_EXPERT := by unfold CFF_ENC_EXPERT; omega
  constructor
  · intro c hc hb
    have r0 : rdByteI (pre ++ ([0, c.length] ++ c) ++ post) (pre.length : Int) = some 0 := by
      have := rdByte_payload pre ([0, c.length] ++ c) post 0 (by simp)
      simpa [rdByteI, byteAt] using this
    have r1 : rdByteI (pre ++ ([0, c.length] ++ c) ++ post) ((pre.length : Int) + 1) =
        some c.length := by
      have := rdByte_payload pre ([0, c.length] ++ c) post 1 (by simp)
      have e : ((pre.length : Int) + 1).toNat = pre.length + 1 := by omega
      have h0 : (0 : Int) ≤ (pre.length : Int) + 1 := by omega
      rw [rdByteI, if_pos h0, e, this]
      simp [byteAt, Nat.mod_eq_of_lt (show c.length < 256 by omega)]
    have rc : (List.range c.length).mapM (fun (i : Nat) =>
        rdByte (pre ++ ([0, c.length] ++ c) ++ post)
          (toU32 ((pre.length : Int) + 2 + i))) =
        some ((List.range c.length).map (fun i => byteAt c i)) := by
      refine mapM_all_some _ _ _ ?_
      intro i hi
      have hlt : i < c.length := List.mem_range.mp hi
      have e : toU32 ((pre.length : Int) + 2 + (i : Int)) = pre.length + (2 + i) := by
        rw [toU32_of_lt _ (by omega) (by omega)]
        omega
      rw [e, rdByte_payload pre ([0, c.length] ++ c) post (2 + i) (by simp; omega)]
      have e2 : 2 + i = i + 2 := by omega
      simp [byteAt, e2]
    rw [parse_encoding, if_neg hs, if_neg he]
    simp only [r0, r1, rc, Option.bind_eq_bind, Option.some_bind, if_true,
      map_byteAt_range c hb]
  · intro r hr hb
    have hfl := flatMap_pair_length r
    have r0 : rdByteI (pre ++ ([1, r.length] ++ r.flatMap (fun p => [p.1, p.2])) ++ post)
        (pre.length : Int) = some 1 := by
      have := rdByte_payload pre ([1, r.length] ++ r.flatMap (fun p => [p.1, p.2])) post 0
        (by simp)
      simpa [rdByteI, byteAt] using this
    have r1 : rdByteI (pre ++ ([1, r.length] ++ r.flatMap (fun p => [p.1, p.2])) ++ post)
        ((pre.length : Int) + 1) = some r.length := by
      have := rdByte_payload pre ([1, r.length] ++ r.flatMap (fun p => [p.1, p.2])) post 1
        (by simp)
      have e : ((pre.length : Int) + 1).toNat = pre.length + 1 := by omega
      have h0 : (0 : Int) ≤ (pre.length : Int) + 1 := by omega
      rw [rdByteI, if_pos h0, e, this]
      simp [byteAt, Nat.mod_eq_of_lt (show r.length < 256 by omega)]
    have rc : (List.range r.length).mapM (fun (i : Nat) => do
        let first ← rdByte (pre ++ ([1, r.length] ++ r.flatMap (fun p => [p.1, p.2])) ++ post)
          (toU32 ((pre.length : Int) + 2 + i * 2))
        let nleft ← rdByte (pre ++ ([1, r.length] ++ r.flatMap (fun p => [p.1, p.2])) ++ post)
          (toU32 ((pre.length : Int) + 3 + i * 2))
        some (first, nleft)) =
        some ((List.range r.length).map (fun i => r.getD i (0, 0))) := by
      refine mapM_all_some _ _ _ ?_
      intro i hi
      have hlt : i < r.length := List.mem_range.mp hi
      obtain ⟨f1, f2⟩ := flatMap_pair_even r i hlt
      have hp := hb (r[i]) (List.getElem_mem hlt)
      have e1 : toU32 ((pre.length : Int) + 2 + (i : Int) * 2) = pre.length + (2 + 2 * i) := by
        rw [toU32_of_lt _ (by omega) (by omega)]
        omega
      have e2 : toU32 ((pre.length : Int) + 3 + (i : Int) * 2) = pre.length + (2 + (2 * i + 1)) := by
        rw [toU32_of_lt _ (by omega) (by omega)]
        omega
      have b1 : byteAt ([1, r.length] ++ r.flatMap (fun p => [p.1, p.2])) (2 + 2 * i) =
          r[i].1 := by
        have e : 2 + 2 * i = 2 * i + 2 := by omega
        simp [byteAt, e, f1, List.getElem?_eq_getElem hlt, Nat.mod_eq_of_lt hp.1]
      have b2 : byteAt ([1, r.length] ++ r.flatMap (fun p => [p.1, p.2])) (2 + (2 * i + 1)) =
          r[i].2 := by
        have e : 2 + (2 * i + 1) = 2 * i + 1 + 2 := by omega
        simp [byteAt, e, f2, List.getElem?_eq_getElem hlt, Nat.mod_eq_of_lt hp.2]
      have hl : ([1, r.length] ++ r.flatMap (fun p => [p.1, p.2])).length = 2 + 2 * r.length := by
        rw [List.length_append, hfl]
        rfl
      rw [e1, e2, rdByte_payload pre _ post (2 + 2 * i) (by omega),
        rdByte_payload pre _ post (2 + (2 * i + 1)) (by omega), b1, b2]
      simp [List.getD, List.getElem?_eq_getElem hlt]
    have rr : (List.range r.length).map (fun i => r.getD i (0, 0)) = r := by
      apply List.ext_getElem
      · simp
      · intro i h1 h2
        have hi : i < r.length := by simpa using h1
        simp [List.getD, List.getElem?_eq_getElem hi]
    have h10 : ¬ (1 : Nat) = 0 := by decide
    simp only [Option.bind_eq_bind] at rc
    rw [parse_encoding, if_neg hs, if_neg he]
    simp only [r0, r1, rc, Option.bind_eq_bind, Option.some_bind, if_neg h10, if_true, rr]

/-- C22, instance: at offset 2 of `AA BB 00 03 41 42 43 FF` the payload
`00 03 41 42 43` gives Format 0 with the codes `41 42 43`; at offset 2 of
`AA BB 01 02 20 05 41 19` the payload gives Format 1 with the ranges
`(0x20, 5)` and `(0x41, 0x19)`. -/
theorem encoding_decode_encode_witness :
    parse_encoding [0xAA, 0xBB, 0x00, 0x03, 0x41, 0x42, 0x43, 0xFF] 2 =
      some (CFF_Encoding.format0 3 [0x41, 0x42, 0x43]) ∧
    parse_encoding [0xAA, 0xBB, 0x01, 0x02, 0x20, 0x05, 0x41, 0x19] 2 =
      some (CFF_Encoding.format1 2 [(0x20, 0x05), (0x41, 0x19)]) :=
  ⟨(encoding_decode_encode [0xAA, 0xBB] [0xFF] (by decide) (by decide)).1
      [0x41, 0x42, 0x43] (by decide) (by decide),
    (encoding_decode_encode [0xAA, 0xBB] [] (by decide) (by decide)).2
      [(0x20, 0x05), (0x41, 0x19)] (by decide) (by decide)⟩

theorem gu2_eq (data : List Nat) (p : Nat) (h : p + 1 < data.length) :
    gu2 data p = some (byteAt data p * 256 + byteAt data (p + 1)) := by
  simp [gu2, rdByte_eq_byteAt data p (by omega), rdByte_eq_byteAt data (p + 1) h]

/-- C23: for raw data whose byte `b` at an offset `≥ 2` (below `2^31`) is
neither 0 nor 1, and which holds the `3 b` bytes after it, `parse_encoding`
gives the Supplement variant with `nsup = b` whose entry `i < b` has the code
`data[offset + 1 + 3 i]` and the glyph given by the big-endian 16-bit value at
`offset + 2 + 3 i`. -/
theorem encoding_supplement (data : List Nat) (offset b : Nat)
    (hoff : 2 ≤ offset) (h31 : offset < 2147483648)
    (hb : byteAt data offset = b) (hb0 : b ≠ 0) (hb1 : b ≠ 1)
    (hlen : offset + 3 * b < data.length) :
    parse_encoding data (offset : Int) =
      some (CFF_Encoding.supplement b
        ((List.range b).map (fun i =>
          (byteAt data (offset + 1 + 3 * i),
            byteAt data (offset + 2 + 3 * i) * 256 + byteAt data (offset + 3 + 3 * i))))) := by
  have hs : ¬ (offset : Int) = CFF_ENC_STANDARD := by unfold CFF_ENC_STANDARD; omega
  have he : ¬ (offset : Int) = CFF_ENC_EXPERT := by unfold CFF_ENC_EXPERT; omega
  have hb256 : b < 256 := by
    rw [← hb]
    unfold byteAt
    omega
  have r0 : rdByteI data (offset : Int) = some b := by
    have h0 : (0 : Int) ≤ (offset : Int) := by omega
    rw [rdByteI, if_pos h0, Int.toNat_ofNat, rdByte_eq_byteAt data offset (by omega), hb]
  have rc : (List.range b).mapM (fun (i : Nat) =>
      (rdByte data (toU32 ((offset : Int) + 1 + i * 3))).bind (fun code =>
        (gu2 data (toU32 ((offset : Int) + 2 + i * 3))).bind (fun glyph =>
          some (code, glyph)))) =
      some ((List.range b).map (fun i =>
        (byteAt data (offset + 1 + 3 * i),
          byteAt data (offset + 2 + 3 * i) * 256 + byteAt data (offset + 3 + 3 * i)))) := by
    refine mapM_all_some _ _ _ ?_
    intro i hi
    have hlt : i < b := List.mem_range.mp hi
    have e1 : toU32 ((offset : Int) + 1 + (i : Int) * 3) = offset + 1 + 3 * i := by
      rw [toU32_of_lt _ (by omega) (by omega)]
      omega
    have e2 : toU32 ((offset : Int) + 2 + (i : Int) * 3) = offset + 2 + 3 * i := by
      rw [toU32_of_lt _ (by omega) (by omega)]
      omega
    have e3 : offset + 2 + 3 * i + 1 = offset + 3 + 3 * i := by omega
    rw [e1, e2, rdByte_eq_byteAt data _ (by omega), gu2_eq data _ (by omega), e3]
    rfl
  rw [parse_encoding, if_neg hs, if_neg he]
  simp only [r0, Option.bind_eq_bind, Option.some_bind, if_neg hb0, if_neg hb1, rc]

set_option maxRecDepth 100000 in
/-- C23, instance: the payload `FF` followed by 765 bytes `01` at offset 2
gives the Supplement variant with 255 entries, each with code 1 and glyph
`0x0101`; the payload `02 41 00 07 42 01 00` gives the entries `(0x41, 7)` and
`(0x42, 256)`. -/
theorem encoding_supplement_witness :
    parse_encoding ([0, 0, 0xFF] ++ List.replicate 765 1) 2 =
      some (CFF_Encoding.supplement 0xFF
        ((List.range 0xFF).map (fun i =>
          (byteAt ([0, 0, 0xFF] ++ List.replicate 765 1) (2 + 1 + 3 * i),
            byteAt ([0, 0, 0xFF] ++ List.replicate 765 1) (2 + 2 + 3 * i) * 256 +
              byteAt ([0, 0, 0xFF] ++ List.replicate 765 1) (2 + 3 + 3 * i))))) ∧
    parse_encoding [0, 0, 0x02, 0x41, 0x00, 0x07, 0x42, 0x01, 0x00] 2 =
      some (CFF_Encoding.supplement 2 [(0x41, 7), (0x42, 256)]) :=
  ⟨encoding_supplement ([0, 0, 0xFF] ++ List.replicate 765 1) 2 0xFF (by decide) (by decide)
      rfl (by decide) (by decide)
      (by rw [List.length_append, List.length_replicate]; decide),
    encoding_supplement [0, 0, 0x02, 0x41, 0x00, 0x07, 0x42, 0x01, 0x00] 2 2 (by decide)
      (by decide) (by decide) (by decide) (by decide) (by decide)⟩

/-! ### `parse_subr` -/

theorem range3_get (range3 : List (Nat × Nat)) (i : Nat) (h : i < range3.length) :
    range3[i]? = some (rangeFirst range3 i, rangeFd range3 i) := by
  simp [rangeFirst, rangeFd, List.getElem?_eq_getElem h]

theorem fdRangeLoop_eq (gid : Nat) (range3 : List (Nat × Nat)) (sentinel r : Nat)
    (hmono : ∀ i j, i < j → j < range3.length → rangeFirst range3 i < rangeFirst range3 j)
    (hr : r < range3.length) (hlo : rangeFirst range3 r ≤ gid)
    (hhi : gid < rangeUpper range3 sentinel r) :
    ∀ (k s fd0 : Nat), s + k + 1 ≤ range3.length →
      fdRangeLoop gid range3 (List.range' s k) fd0 =
        some (if s ≤ r ∧ r < s + k then rangeFd range3 r % 256 else fd0) := by
  intro k
  induction k with
  | zero =>
    intro s fd0 _
    have hn : ¬ (s ≤ r ∧ r < s + 0) := by omega
    rw [if_neg hn]
    rfl
  | succ k ih =>
    intro s fd0 hs
    have e : List.range' s (k + 1) = s :: List.range' (s + 1) k := by
      rw [List.range'_succ]
    rw [e, fdRangeLoop, range3_get range3 s (by omega)]
    simp only [Option.bind_eq_bind, Option.some_bind, ge_iff_le]
    by_cases h1 : rangeFirst range3 s ≤ gid
    · rw [if_pos h1, range3_get range3 (s + 1) (by omega)]
      simp only [Option.some_bind]
      by_cases h2 : gid < rangeFirst range3 (s + 1)
      · have hsr : s = r := by
          rcases Nat.lt_trichotomy s r with h | h | h
          · have hle : rangeFirst range3 (s + 1) ≤ rangeFirst range3 r := by
              rcases Nat.eq_or_lt_of_le (show s + 1 ≤ r by omega) with h' | h'
              · rw [h']
              · exact (hmono (s + 1) r h' hr).le
            omega
          · exact h
          · have hup : rangeUpper range3 sentinel r = rangeFirst range3 (r + 1) := by
              unfold rangeUpper
              rw [if_pos (by omega)]
            have hle : rangeFirst range3 (r + 1) ≤ rangeFirst range3 s := by
              rcases Nat.eq_or_lt_of_le (show r + 1 ≤ s by omega) with h' | h'
              · rw [h']
              · exact (hmono (r + 1) s h' (by omega)).le
            omega
        rw [if_pos h2, ih (s + 1) _ (by omega)]
        have c1 : ¬ (s + 1 ≤ r ∧ r < s + 1 + k) := by omega
        have c2 : s ≤ r ∧ r < s + (k + 1) := by omega
        rw [if_neg c1, if_pos c2, hsr]
      · have hsr : s ≠ r := by
          intro h
          have hup : rangeUpper range3 sentinel r = rangeFirst range3 (r + 1) := by
            unfold rangeUpper
            rw [if_pos (by omega)]
          rw [h] at h2
          omega
        rw [if_neg h2, ih (s + 1) _ (by omega)]
        by_cases c : s + 1 ≤ r ∧ r < s + 1 + k
        · rw [if_pos c, if_pos (by omega)]
        · rw [if_neg c, if_neg (by omega)]
    · have hsr : s ≠ r := by
        intro h
        rw [h] at h1
        omega
      rw [if_neg h1, ih (s + 1) _ (by omega)]
      by_cases c : s + 1 ≤ r ∧ r < s + 1 + k
      · rw [if_pos c, if_pos (by omega)]
      · rw [if_neg c, if_neg (by omega)]

theorem selectFd_format3 (gid : Nat) (range3 : List (Nat × Nat)) (sentinel r : Nat)
    (hmono : ∀ i j, i < j → j < range3.length → rangeFirst range3 i < rangeFirst range3 j)
    (hr : r < range3.length) (hlo : rangeFirst range3 r ≤ gid)
    (hhi : gid < rangeUpper range3 sentinel r) :
    selectFd gid (CFF_FDSelect.format3 range3.length range3 sentinel) =
      some (rangeFd range3 r % 256) := by
  have hloop := fdRangeLoop_eq gid range3 sentinel r hmono hr hlo hhi (range3.length - 1) 0 0
    (by omega)
  rw [← List.range_eq_range'] at hloop
  have hn0 : ¬ range3.length = 0 := by omega
  rw [selectFd]
  simp only [hloop, Option.bind_eq_bind, Option.some_bind, if_neg hn0,
    range3_get range3 (range3.length - 1) (by omega), ge_iff_le]
  by_cases hlast : r = range3.length - 1
  · have hup : rangeUpper range3 sentinel r = sentinel := by
      unfold rangeUpper
      rw [if_neg (by omega)]
    have c : rangeFirst range3 (range3.length - 1) ≤ gid ∧ gid < sentinel := by
      rw [← hlast]
      omega
    rw [if_pos c, hlast]
  · have hup : rangeUpper range3 sentinel r = rangeFirst range3 (r + 1) := by
      unfold rangeUpper
      rw [if_pos (by omega)]
    have hle : rangeFirst range3 (r + 1) ≤ rangeFirst range3 (range3.length - 1) := by
      rcases Nat.eq_or_lt_of_le (show r + 1 ≤ range3.length - 1 by omega) with h' | h'
      · rw [h']
      · exact (hmono (r + 1) _ h' (by omega)).le
    have c : ¬ (rangeFirst range3 (range3.length - 1) ≤ gid ∧ gid < sentinel) := by omega
    have c2 : 0 ≤ r ∧ r < 0 + (range3.length - 1) := by omega
    rw [if_neg c, if_pos c2]

theorem range_exists (gid : Nat) (range3 : List (Nat × Nat)) (sentinel : Nat)
    (hhi : gid < sentinel) :
    ∀ (m k : Nat), k + m + 1 = range3.length → rangeFirst range3 k ≤ gid →
      ∃ r, r < range3.length ∧ rangeFirst range3 r ≤ gid ∧
        gid < rangeUpper range3 sentinel r := by
  intro m
  induction m with
  | zero =>
    intro k hk hlo
    refine ⟨k, by omega, hlo, ?_⟩
    unfold rangeUpper
    rw [if_neg (by omega)]
    exact hhi
  | succ m ih =>
    intro k hk hlo
    by_cases h : rangeFirst range3 (k + 1) ≤ gid
    · exact ih (k + 1) (by omega) h
    · refine ⟨k, by omega, hlo, ?_⟩
      unfold rangeUpper
      rw [if_pos (by omega)]
      omega

theorem parse_subr_of_fd (env : CffEnv) (idx : Nat) (raw : List Nat) (fdarray : CFF_Index)
    (select : CFF_FDSelect) (fd : Nat) (hfd : selectFd idx select = some fd)
    (hoff : fd + 1 < fdarray.offset.length) :
    ∃ subr, parse_subr env idx raw fdarray select = some (fd, subr) := by
  obtain ⟨o0, h0⟩ : ∃ o0, fdarray.offset[fd]? = some o0 :=
    ⟨_, List.getElem?_eq_getElem (by omega)⟩
  obtain ⟨o1, h1⟩ : ∃ o1, fdarray.offset[fd + 1]? = some o1 :=
    ⟨_, List.getElem?_eq_getElem hoff⟩
  rw [parse_subr]
  simp only [hfd, h0, h1, Option.bind_eq_bind, Option.some_bind]
  split_ifs <;> exact ⟨_, rfl⟩

/-- C21: the value returned by `parse_subr`, for an FDArray whose offset array
has the entries `fd` and `fd + 1` it reads.  Format 0: `fds[gid]` (a byte).
Format 3 with `nranges ≥ 1` ranges strictly increasing in `first`, byte-sized
`fd`s and `range[0].first ≤ gid < sentinel`: there is a range `r` with
`range[r].first ≤ gid < range[r+1].first` (the sentinel bounding the last
range), every such `r` has the same `fd`, and that `fd` is returned.
Unspecified: 0. -/
theorem parse_subr_fd (env : CffEnv) (gid : Nat) (raw : List Nat) (fdarray : CFF_Index) :
    (∀ (fds : List Nat) (f : Nat), fds[gid]? = some f → f < 256 →
      f + 1 < fdarray.offset.length →
      ∃ subr, parse_subr env gid raw fdarray (CFF_FDSelect.format0 fds) = some (f, subr)) ∧
    (∀ (range3 : List (Nat × Nat)) (sentinel : Nat),
      (∀ i j, i < j → j < range3.length → rangeFirst range3 i < rangeFirst range3 j) →
      (∀ i, i < range3.length →
        rangeFd range3 i < 256 ∧ rangeFd range3 i + 1 < fdarray.offset.length) →
      1 ≤ range3.length → rangeFirst range3 0 ≤ gid → gid < sentinel →
      (∃ r, r < range3.length ∧ rangeFirst range3 r ≤ gid ∧
        gid < rangeUpper range3 sentinel r) ∧
      ∀ r, r < range3.length → rangeFirst range3 r ≤ gid →
        gid < rangeUpper range3 sentinel r →
        ∃ subr, parse_subr env gid raw fdarray
            (CFF_FDSelect.format3 range3.length range3 sentinel) =
          some (rangeFd range3 r, subr)) ∧
    (1 < fdarray.offset.length →
      ∃ subr, parse_subr env gid raw fdarray CFF_FDSelect.unspeced = some (0, subr)) := by
  refine ⟨?_, ?_, ?_⟩
  · intro fds f hf h256 hoff
    refine parse_subr_of_fd env gid raw fdarray _ f ?_ hoff
    simp [selectFd, hf, Nat.mod_eq_of_lt h256]
  · intro range3 sentinel hmono hfds hn hlo hhi
    refine ⟨range_exists gid range3 sentinel hhi (range3.length - 1) 0 (by omega) hlo, ?_⟩
    intro r hr hrlo hrhi
    obtain ⟨h256, hoff⟩ := hfds r hr
    refine parse_subr_of_fd env gid raw fdarray _ _ ?_ hoff
    rw [selectFd_format3 gid range3 sentinel r hmono hr hrlo hrhi, Nat.mod_eq_of_lt h256]
  · intro hoff
    exact parse_subr_of_fd env gid raw fdarray _ 0 rfl hoff

/-- C21, instance: with the single range `(first 0, fd 1)` and sentinel 10,
glyph 0 and glyph 9 both resolve to `fd = 1`; with Format 0 `[0, 1, 1]` glyph 2
resolves to 1; an unspecified FDSelect gives 0.  The FDArray has two empty
Font DICTs. -/
theorem parse_subr_fd_witness :
    (∃ subr, parse_subr demoEnv 0 [] { count := 2, offset := [1, 1, 1], data := [] }
        (CFF_FDSelect.format3 1 [(0, 1)] 10) = some (1, subr)) ∧
    (∃ subr, parse_subr demoEnv 9 [] { count := 2, offset := [1, 1, 1], data := [] }
        (CFF_FDSelect.format3 1 [(0, 1)] 10) = some (1, subr)) ∧
    (∃ subr, parse_subr demoEnv 2 [] { count := 2, offset := [1, 1, 1], data := [] }
        (CFF_FDSelect.format0 [0, 1, 1]) = some (1, subr)) ∧
    (∃ subr, parse_subr demoEnv 2 [] { count := 2, offset := [1, 1, 1], data := [] }
        CFF_FDSelect.unspeced = some (0, subr)) :=
  ⟨((parse_subr_fd demoEnv 0 [] { count := 2, offset := [1, 1, 1], data := [] }).2.1
      [(0, 1)] 10 (by intro i j h1 h2; simp at h2; omega)
      (by intro i hi; simp at hi; subst hi; decide) (by decide) (by decide) (by decide)).2
      0 (by decide) (by decide) (by decide),
    ((parse_subr_fd demoEnv 9 [] { count := 2, offset := [1, 1, 1], data := [] }).2.1
      [(0, 1)] 10 (by intro i j h1 h2; simp at h2; omega)
      (by intro i hi; simp at hi; subst hi; decide) (by decide) (by decide) (by decide)).2
      0 (by decide) (by decide) (by decide),
    (parse_subr_fd demoEnv 2 [] { count := 2, offset := [1, 1, 1], data := [] }).1
      [0, 1, 1] 1 (by decide) (by decide) (by decide),
    (parse_subr_fd demoEnv 2 [] { count := 2, offset := [1, 1, 1], data := [] }).2.2
      (by decide)⟩

/-! ### `parse_cff_bytecode` and `CFF_stream_open` -/

theorem header_reads (raw : List Nat) (h4 : 4 ≤ raw.length) :
    gu1 raw 0 = some (byteAt raw 0) ∧ gu1 raw 1 = some (byteAt raw 1) ∧
    gu1 raw 2 = some (byteAt raw 2) ∧ gu1 raw 3 = some (byteAt raw 3) :=
  ⟨rdByte_eq_byteAt raw 0 (by omega), rdByte_eq_byteAt raw 1 (by omega),
    rdByte_eq_byteAt raw 2 (by omega), rdByte_eq_byteAt raw 3 (by omega)⟩

theorem parse_cff_bytecode_eq (env : CffEnv) (raw : List Nat) (len : Nat)
    (h4 : 4 ≤ raw.length) :
    parse_cff_bytecode env (newFile raw len) =
      (if env.data_null (topDictOf env raw) then some (framedFile env raw len)
        else parse_top_dict_tables env (framedFile env raw len)).bind (parse_private env) := by
  obtain ⟨e0, e1, e2, e3⟩ := header_reads raw h4
  have hraw : (newFile raw len).raw_data = raw := rfl
  rw [parse_cff_bytecode]
  simp only [hraw, e0, e1, e2, e3, Option.bind_eq_bind, Option.some_bind]
  by_cases hc : env.data_null (topDictOf env raw) = true
  · rw [if_pos hc]
    unfold topDictOf nameOf at hc
    rw [if_pos hc]
    rfl
  · rw [if_neg hc]
    unfold topDictOf nameOf at hc
    rw [if_neg hc]
    rfl

theorem topDictKey_eq (env : CffEnv) (raw : List Nat)
    (hoff : 2 ≤ (topDictOf env raw).offset.length) (op idx : Nat) :
    topDictKey env (topDictOf env raw) op idx = some (topKey env raw op idx) := by
  have h1 : (topDictOf env raw).offset[1]? = some ((topDictOf env raw).offset[1]) :=
    List.getElem?_eq_getElem (by omega)
  have h0 : (topDictOf env raw).offset[0]? = some ((topDictOf env raw).offset[0]) :=
    List.getElem?_eq_getElem (by omega)
  rw [topDictKey, topKey, h1, h0]
  rfl

theorem parse_private_null (env : CffEnv) (cff : CFF_File)
    (hnull : env.data_null cff.top_dict = true) :
    parse_private env cff = some { cff with local_subr := emptyIndex } := by
  rw [parse_private]
  simp [hnull]

theorem parse_private_eq (env : CffEnv) (raw : List Nat) (cff : CFF_File)
    (hraw : cff.raw_data = raw) (htd : cff.top_dict = topDictOf env raw)
    (hoff : 2 ≤ (topDictOf env raw).offset.length)
    (hnn : env.data_null (topDictOf env raw) = false) :
    parse_private env cff =
      some { cff with
        local_subr :=
          localSubrFor env raw (topKey env raw op_Private 0) (topKey env raw op_Private 1) } := by
  rw [parse_private]
  simp only [htd, hnn, Bool.false_eq_true, if_false, topDictKey_eq env raw hoff,
    Option.bind_eq_bind, Option.some_bind, hraw, localSubrFor, subrsKey]
  split_ifs <;> rfl

theorem parse_top_dict_tables_eq (env : CffEnv) (raw : List Nat) (len : Nat)
    (hoff : 2 ≤ (topDictOf env raw).offset.length) (enc : CFF_Encoding)
    (henc : encodingFor raw (topKey env raw op_Encoding 0) = some enc) :
    parse_top_dict_tables env (framedFile env raw len) =
      some { openedFile env raw len enc with local_subr := emptyIndex } := by
  have htd : (framedFile env raw len).top_dict = topDictOf env raw := rfl
  have hrd : (framedFile env raw len).raw_data = raw := rfl
  rw [parse_top_dict_tables]
  simp only [htd, hrd, topDictKey_eq env raw hoff, Option.bind_eq_bind, Option.some_bind,
    apply_ite, ite_self, henc]
  unfold openedFile
  split_ifs <;> rfl

theorem open_with_top_dict (env : CffEnv) (data : List Nat) (len : Nat)
    (hlen : len ≤ data.length) (h4 : 4 ≤ len)
    (hnn : env.data_null (topDictOf env (data.take len)) = false)
    (hoff : 2 ≤ (topDictOf env (data.take len)).offset.length) (enc : CFF_Encoding)
    (henc : encodingFor (data.take len) (topKey env (data.take len) op_Encoding 0) = some enc) :
    CFF_stream_open env data len = some (openedFile env (data.take len) len enc) := by
  have hraw : 4 ≤ (data.take len).length := by
    rw [List.length_take]
    omega
  rw [CFF_stream_open, if_pos hlen, parse_cff_bytecode_eq env _ len hraw, hnn]
  simp only [Bool.false_eq_true, if_false, parse_top_dict_tables_eq env _ len hoff enc henc,
    Option.bind_eq_bind, Option.some_bind]
  rw [parse_private_eq env (data.take len) _ rfl rfl hoff hnn]
  rfl

theorem open_without_top_dict (env : CffEnv) (data : List Nat) (len : Nat)
    (hlen : len ≤ data.length) (h4 : 4 ≤ len)
    (hnull : env.data_null (topDictOf env (data.take len)) = true) :
    CFF_stream_open env data len = some (framedFile env (data.take len) len) := by
  have hraw : 4 ≤ (data.take len).length := by
    rw [List.length_take]
    omega
  rw [CFF_stream_open, if_pos hlen, parse_cff_bytecode_eq env _ len hraw, hnull]
  simp only [if_true, Option.bind_eq_bind, Option.some_bind]
  rw [parse_private_null env _ hnull]
  rfl

theorem parse_top_dict_tables_frame (env : CffEnv) (cff out : CFF_File)
    (h : parse_top_dict_tables env cff = some out) :
    out.raw_data = cff.raw_data ∧ out.head = cff.head ∧ out.name = cff.name ∧
      out.top_dict = cff.top_dict ∧ out.string = cff.string ∧
      out.global_subr = cff.global_subr := by
  simp only [parse_top_dict_tables, Option.bind_eq_bind, Option.bind_eq_some,
    Option.some.injEq] at h
  obtain ⟨k1, _, k2, _, enc, _, k3, _, k4, _, k5, _, rfl⟩ := h
  split_ifs <;> exact ⟨rfl, rfl, rfl, rfl, rfl, rfl⟩

theorem parse_private_frame (env : CffEnv) (cff out : CFF_File)
    (h : parse_private env cff = some out) :
    out.raw_data = cff.raw_data ∧ out.head = cff.head ∧ out.name = cff.name ∧
      out.top_dict = cff.top_dict ∧ out.string = cff.string ∧
      out.global_subr = cff.global_subr := by
  by_cases hn : env.data_null cff.top_dict = true
  · rw [parse_private_null env cff hn, Option.some.injEq] at h
    subst h
    exact ⟨rfl, rfl, rfl, rfl, rfl, rfl⟩
  · have hnn : env.data_null cff.top_dict = false := by simpa using hn
    simp only [parse_private, hnn, Bool.false_eq_true, if_false, Option.bind_eq_bind,
      Option.bind_eq_some] at h
    obtain ⟨l, _, o, _, h⟩ := h
    split_ifs at h <;> simp only [Option.some.injEq] at h <;> subst h <;>
      exact ⟨rfl, rfl, rfl, rfl, rfl, rfl⟩

/-- C24, as the code has it: in the file that `CFF_stream_open` returns, the
Name INDEX is the one parsed at `hdrSize`, and the Top DICT, String and Global
Subr INDEXes are the ones parsed at `4 + size(Name)`, `4 + size(Name) +
size(Top DICT)` and `4 + size(Name) + size(Top DICT) + size(String)`, `size`
being `count_index`: the constant 4 stands where `hdrSize` is expected, so
each INDEX begins where the previous one ends only when `hdrSize` is 4. -/
theorem top_level_index_positions (env : CffEnv) (data : List Nat) (len : Nat)
    (hlen : len ≤ data.length) (h4 : 4 ≤ len) (file : CFF_File)
    (hopen : CFF_stream_open env data len = some file) :
    file.head.hdrSize = byteAt (data.take len) 2 ∧
    file.name = env.parse_index (data.take len) file.head.hdrSize ∧
    file.top_dict =
      env.parse_index (data.take len) ((4 + env.count_index file.name) % 4294967296) ∧
    file.string =
      env.parse_index (data.take len)
        ((4 + env.count_index file.name + env.count_index file.top_dict) % 4294967296) ∧
    file.global_subr =
      env.parse_index (data.take len)
        ((4 + env.count_index file.name + env.count_index file.top_dict +
          env.count_index file.string) % 4294967296) := by
  have hraw : 4 ≤ (data.take len).length := by
    rw [List.length_take]
    omega
  rw [CFF_stream_open, if_pos hlen, parse_cff_bytecode_eq env _ len hraw] at hopen
  simp only [Option.bind_eq_some] at hopen
  obtain ⟨mid, hmid, hout⟩ := hopen
  obtain ⟨_, p1, p2, p3, p4, p5⟩ := parse_private_frame env mid file hout
  have hm : mid.head = (framedFile env (data.take len) len).head ∧
      mid.name = (framedFile env (data.take len) len).name ∧
      mid.top_dict = (framedFile env (data.take len) len).top_dict ∧
      mid.string = (framedFile env (data.take len) len).string ∧
      mid.global_subr = (framedFile env (data.take len) len).global_subr := by
    split_ifs at hmid
    · simp only [Option.some.injEq] at hmid
      subst hmid
      exact ⟨rfl, rfl, rfl, rfl, rfl⟩
    · obtain ⟨_, q1, q2, q3, q4, q5⟩ := parse_top_dict_tables_frame env _ mid hmid
      exact ⟨q1, q2, q3, q4, q5⟩
  obtain ⟨m1, m2, m3, m4, m5⟩ := hm
  rw [p1, p2, p3, p4, p5, m1, m2, m3, m4, m5]
  exact ⟨rfl, rfl, rfl, rfl, rfl⟩

/-- C24, instance: in `demoCffHdr5` (`hdrSize = 5`) the empty Name INDEX is
parsed at 5 and takes 2 bytes; the Top DICT INDEX is parsed at `4 + 2 = 6` and
comes out empty, while the INDEX at `5 + 2 = 7`, where the Name INDEX ends,
has one entry. -/
theorem top_level_index_positions_witness :
    CFF_stream_open demoEnv demoCffHdr5 17 = some (framedFile demoEnv demoCffHdr5 17) ∧
    (framedFile demoEnv demoCffHdr5 17).head.hdrSize = 5 ∧
    (framedFile demoEnv demoCffHdr5 17).name = emptyIndex ∧
    demoEnv.count_index (framedFile demoEnv demoCffHdr5 17).name = 2 ∧
    (framedFile demoEnv demoCffHdr5 17).top_dict =
      demoEnv.parse_index (demoCffHdr5.take 17)
        ((4 + demoEnv.count_index (framedFile demoEnv demoCffHdr5 17).name) % 4294967296) ∧
    (framedFile demoEnv demoCffHdr5 17).top_dict = emptyIndex ∧
    demoEnv.parse_index demoCffHdr5 (5 + 2) = { count := 1, offset := [1, 2], data := [0x8B] } :=
  ⟨by decide!, by decide!, by decide!, by decide!,
    (top_level_index_positions demoEnv demoCffHdr5 17 (by decide) (by decide)
      (framedFile demoEnv demoCffHdr5 17) (by decide!)).2.2.1,
    by decide!, by decide!⟩

/-- C25, as the code has it: `CFF_stream_open` has no error return.  For every
input of at least four bytes it returns a file that owns a copy of the input,
whatever the INDEX reader made of the bytes, provided the reads of the driver
itself stay inside their arrays (the Top DICT INDEX either has no data, or has
the two offsets of its first entry and an Encoding that can be read). -/
theorem open_returns_file (env : CffEnv) (data : List Nat) (len : Nat)
    (hlen : len ≤ data.length) (h4 : 4 ≤ len)
    (hreads : env.data_null (topDictOf env (data.take len)) = true ∨
      (2 ≤ (topDictOf env (data.take len)).offset.length ∧
        (encodingFor (data.take len) (topKey env (data.take len) op_Encoding 0)).isSome =
          true)) :
    ∃ file, CFF_stream_open env data len = some file ∧ file.raw_data = data.take len ∧
      file.raw_length = len := by
  by_cases hnull : env.data_null (topDictOf env (data.take len)) = true
  · exact ⟨_, open_without_top_dict env data len hlen h4 hnull, rfl, rfl⟩
  · rcases hreads with h | ⟨hoff, henc⟩
    · exact absurd h hnull
    · obtain ⟨enc, he⟩ := Option.isSome_iff_exists.mp henc
      have hnn : env.data_null (topDictOf env (data.take len)) = false := by
        simpa using hnull
      exact ⟨_, open_with_top_dict env data len hlen h4 hnn hoff enc he, rfl, rfl⟩

/-- C25, instance: `demoCff` is opened. -/
theorem open_returns_file_witness :
    ∃ file, CFF_stream_open demoEnv demoCff 31 = some file ∧
      file.raw_data = demoCff.take 31 ∧ file.raw_length = 31 :=
  open_returns_file demoEnv demoCff 31 (by decide) (by decide)
    (Or.inr ⟨by decide!, by decide!⟩)

/-- C25, counterexample: the eight bytes `01 00 04 01 00 01 09 01` announce a
Name INDEX with `offSize = 9`, which the INDEX reader rejects; all the same
`CFF_stream_open` returns a file, with empty INDEXes.  And on the three bytes
`01 00 04` the fourth header byte is read at offset 3, outside the copy of the
input: the model answers `none` there, the access being undefined in C. -/
theorem open_accepts_invalid_index :
    readIndex1 [0x01, 0x00, 0x04, 0x01, 0x00, 0x01, 0x09, 0x01] 4 = none ∧
    CFF_stream_open demoEnv [0x01, 0x00, 0x04, 0x01, 0x00, 0x01, 0x09, 0x01] 8 =
      some (framedFile demoEnv [0x01, 0x00, 0x04, 0x01, 0x00, 0x01, 0x09, 0x01] 8) ∧
    gu1 [0x01, 0x00, 0x04] 3 = none ∧
    CFF_stream_open demoEnv [0x01, 0x00, 0x04] 3 = none := by
  refine ⟨by decide!, by decide!, by decide!, by decide!⟩

/-- C26: when the Top DICT INDEX has data (and the two offsets of its first
entry) and the lookup of `CharStrings` in the first Top DICT gives `-1`,
`CFF_stream_open` still returns a file: its CharStrings INDEX is the empty
INDEX and its glyph count is 0, and the other lookups are made all the same.
Encoding: `Unspecified` when its lookup gives `-1`, else what `parse_encoding`
reads at the offset found (`enc`, the reads being inside the raw data).
Charset and FDSelect: `Unspecified` when the lookup gives `-1`, else what
`parse_charset` / `parse_fdselect` make of the offset found with glyph count
0.  FDArray: the empty INDEX when the lookup gives `-1`, else the INDEX parsed
at the offset found.  The Local Subr INDEX comes from the two lookups of
`Private`. -/
theorem open_without_charstrings (env : CffEnv) (data : List Nat) (len : Nat)
    (hlen : len ≤ data.length) (h4 : 4 ≤ len)
    (hnn : env.data_null (topDictOf env (data.take len)) = false)
    (hoff : 2 ≤ (topDictOf env (data.take len)).offset.length)
    (hcs : topKey env (data.take len) op_CharStrings 0 = -1) (enc : CFF_Encoding)
    (henc : encodingFor (data.take len) (topKey env (data.take len) op_Encoding 0) = some enc) :
    ∃ file, CFF_stream_open env data len = some file ∧
      file.char_strings = emptyIndex ∧ file.cnt_glyph = 0 ∧
      file.encodings = some enc ∧
      (topKey env (data.take len) op_Encoding 0 = -1 → enc = CFF_Encoding.unspeced) ∧
      (topKey env (data.take len) op_Encoding 0 ≠ -1 →
        parse_encoding (data.take len) (topKey env (data.take len) op_Encoding 0) = some enc) ∧
      file.charsets = some
        (if topKey env (data.take len) op_charset 0 ≠ -1 then
          env.parse_charset (data.take len) (topKey env (data.take len) op_charset 0) 0
        else CFF_Charset.unspeced) ∧
      file.fdselect = some
        (if topKey env (data.take len) op_FDSelect 0 ≠ -1 then
          env.parse_fdselect (data.take len) (topKey env (data.take len) op_FDSelect 0) 0
        else CFF_FDSelect.unspeced) ∧
      file.font_dict =
        (if topKey env (data.take len) op_FDArray 0 ≠ -1 then
          env.parse_index (data.take len) (toU32 (topKey env (data.take len) op_FDArray 0))
        else emptyIndex) ∧
      file.local_subr =
        localSubrFor env (data.take len) (topKey env (data.take len) op_Private 0)
          (topKey env (data.take len) op_Private 1) := by
  have hn : ¬ topKey env (data.take len) op_CharStrings 0 ≠ -1 := fun h => h hcs
  refine ⟨_, open_with_top_dict env data len hlen h4 hnn hoff enc henc, ?_, ?_, rfl, ?_, ?_,
    ?_, ?_, rfl, rfl⟩
  · simp only [openedFile, if_neg hn]
  · simp only [openedFile, if_neg hn]
  · intro h
    have hn2 : ¬ topKey env (data.take len) op_Encoding 0 ≠ -1 := fun h' => h' h
    rw [encodingFor, if_neg hn2, Option.some.injEq] at henc
    exact henc.symm
  · intro h
    rw [encodingFor, if_pos h] at henc
    exact henc
  · simp only [openedFile, if_neg hn]
    rfl
  · simp only [openedFile, if_neg hn]
    rfl

/-- C26, instance: the first Top DICT of `demoCff` has `Private` only: the
file is returned with an empty CharStrings INDEX, glyph count 0, the three
unions `Unspecified`, an empty Font Dict INDEX, and the Local Subr INDEX at
22 + 3. -/
theorem open_without_charstrings_witness :
    ∃ file, CFF_stream_open demoEnv demoCff 31 = some file ∧
      file.char_strings = emptyIndex ∧ file.cnt_glyph = 0 ∧
      file.encodings = some CFF_Encoding.unspeced ∧
      (topKey demoEnv (demoCff.take 31) op_Encoding 0 = -1 →
        CFF_Encoding.unspeced = CFF_Encoding.unspeced) ∧
      (topKey demoEnv (demoCff.take 31) op_Encoding 0 ≠ -1 →
        parse_encoding (demoCff.take 31) (topKey demoEnv (demoCff.take 31) op_Encoding 0) =
          some CFF_Encoding.unspeced) ∧
      file.charsets = some
        (if topKey demoEnv (demoCff.take 31) op_charset 0 ≠ -1 then
          demoEnv.parse_charset (demoCff.take 31) (topKey demoEnv (demoCff.take 31) op_charset 0) 0
        else CFF_Charset.unspeced) ∧
      file.fdselect = some
        (if topKey demoEnv (demoCff.take 31) op_FDSelect 0 ≠ -1 then
          demoEnv.parse_fdselect (demoCff.take 31)
            (topKey demoEnv (demoCff.take 31) op_FDSelect 0) 0
        else CFF_FDSelect.unspeced) ∧
      file.font_dict =
        (if topKey demoEnv (demoCff.take 31) op_FDArray 0 ≠ -1 then
          demoEnv.parse_index (demoCff.take 31)
            (toU32 (topKey demoEnv (demoCff.take 31) op_FDArray 0))
        else emptyIndex) ∧
      file.local_subr =
        localSubrFor demoEnv (demoCff.take 31) (topKey demoEnv (demoCff.take 31) op_Private 0)
          (topKey demoEnv (demoCff.take 31) op_Private 1) :=
  open_without_charstrings demoEnv demoCff 31 (by decide) (by decide) (by decide!) (by decide!)
    (by decide!) CFF_Encoding.unspeced (by decide!)

/-- C27: the Local Subr INDEX of the file `CFF_stream_open` returns.  When the
Top DICT INDEX has no data it is the empty INDEX.  Otherwise, with `L` and `P`
the results of the lookups of `Private` with operand index 0 and 1 in the
first Top DICT and `s` the result of the lookup of `Subrs` in the `L` bytes at
`P` of the raw data: when none of `L`, `P`, `s` is `-1` (and `P + s` is a
position) the INDEX is the one parsed at the absolute position `P + s`; when
`L` or `P` is `-1`, or `s` is `-1`, it is the empty INDEX. -/
theorem local_subr_position (env : CffEnv) (data : List Nat) (len : Nat)
    (hlen : len ≤ data.length) (h4 : 4 ≤ len) :
    (env.data_null (topDictOf env (data.take len)) = true →
      ∃ file, CFF_stream_open env data len = some file ∧ file.local_subr = emptyIndex) ∧
    (env.data_null (topDictOf env (data.take len)) = false →
      2 ≤ (topDictOf env (data.take len)).offset.length →
      (encodingFor (data.take len) (topKey env (data.take len) op_Encoding 0)).isSome = true →
      ∀ L P s : Int, topKey env (data.take len) op_Private 0 = L →
        topKey env (data.take len) op_Private 1 = P →
        env.parse_dict_key (data.take len) P L op_Subrs 0 = s →
        ∃ file, CFF_stream_open env data len = some file ∧
          (L ≠ -1 → P ≠ -1 → s ≠ -1 → 0 ≤ P + s → P + s < 4294967296 →
            file.local_subr = env.parse_index (data.take len) (P + s).toNat) ∧
          (L = -1 ∨ P = -1 → file.local_subr = emptyIndex) ∧
          (s = -1 → file.local_subr = emptyIndex)) := by
  constructor
  · intro hnull
    exact ⟨_, open_without_top_dict env data len hlen h4 hnull, rfl⟩
  · intro hnn hoff henc L P s hL hP hs
    obtain ⟨enc, he⟩ := Option.isSome_iff_exists.mp henc
    refine ⟨_, open_with_top_dict env data len hlen h4 hnn hoff enc he, ?_, ?_, ?_⟩
    · intro h1 h2 h3 h4 h5
      show localSubrFor env (data.take len) _ _ = _
      rw [hL, hP, localSubrFor, subrsKey, hs, if_pos ⟨h2, h1⟩, if_pos h3,
        toU32_of_lt _ h4 h5]
    · intro h
      show localSubrFor env (data.take len) _ _ = _
      have hn : ¬ (P ≠ -1 ∧ L ≠ -1) := by
        rintro ⟨h1, h2⟩
        rcases h with h | h
        · exact h2 h
        · exact h1 h
      rw [hL, hP, localSubrFor, if_neg hn]
    · intro h
      show localSubrFor env (data.take len) _ _ = _
      rw [hL, hP, localSubrFor, subrsKey, hs]
      have hn : ¬ s ≠ -1 := fun h' => h' h
      rw [if_neg hn]
      split_ifs <;> rfl

/-- C27, instance: in `demoCff` the Private operands are `L = 2` and `P = 22`,
the Private DICT has `Subrs` with `s = 3`, and the Local Subr INDEX is the one
at 25, with the single subroutine `0B`. -/
theorem local_subr_position_witness :
    ∃ file, CFF_stream_open demoEnv demoCff 31 = some file ∧
      file.local_subr = demoEnv.parse_index (demoCff.take 31) 25 ∧
      demoEnv.parse_index (demoCff.take 31) 25 = { count := 1, offset := [1, 2], data := [0x0B] } :=
  have h := (local_subr_position demoEnv demoCff 31 (by decide) (by decide)).2 (by decide!)
    (by decide!) (by decide!) 2 22 3 (by decide!) (by decide!) (by decide!)
  h.elim (fun file hf =>
    ⟨file, hf.1, hf.2.1 (by decide) (by decide) (by decide) (by decide) (by decide),
      by decide!⟩)

end Otfcc
